import Mathlib

/-!
# Relay handler of `netlify/functions/anthropic.js`

A shallow embedding of the single exported function `handler` together with the
parts of the JavaScript runtime it calls: property access, truthiness,
`String.prototype.substring`, `JSON.parse`, `JSON.stringify` and `fetch`.

* JavaScript strings are sequences of UTF-16 code units (`JSString`).
* JavaScript numbers are IEEE-754 binary64 values (`JSNumber`), kept as sign and
  magnitude bits, so that `-0`, overflow to `Infinity` and rounding of decimal
  literals are the ones of the language.
* `fetch` is the environment: a function from the request the handler builds to
  what the upstream does (a response, or a thrown value).
* The engine is a parameter too (`Engine`): `JSON.stringify` recurses on the
  nesting of its argument and throws a `RangeError` once the call stack is
  exhausted; how deep that is depends on the engine. Limits of memory (the length
  of a string) are not modelled.

The first line of the source file, `/ netlify/functions/anthropic.js`, is written
with a single slash. It is read here as the comment it stands for (`//`), as the
second line (`// WORKING VERSION`) suggests; taken literally it is not a comment,
the module does not load and no `handler` is exported.
-/

set_option exponentiation.threshold 100000

/-! ## Strings -/

/-- A JavaScript string: a sequence of UTF-16 code units. -/
abbrev JSString := List Nat

/-- The UTF-16 code units of one Unicode scalar value. -/
def utf16Char (c : Char) : List Nat :=
  if c.toNat < 65536 then [c.toNat]
  else [55296 + (c.toNat - 65536) / 1024, 56320 + (c.toNat - 65536) % 1024]

/-- The JavaScript string written by a source literal. -/
def utf16 (s : String) : JSString :=
  (s.toList.map utf16Char).flatten

/-! ## Numbers -/

/-- A JavaScript Number. `finite neg bits` is the binary64 value with sign bit
`neg` whose remaining 63 bits (biased exponent and fraction) are `bits`, with
`bits < 2047 * 2 ^ 52`. -/
inductive JSNumber where
  | finite (neg : Bool) (bits : Nat)
  | inf (neg : Bool)
  | nan
deriving DecidableEq, Repr

namespace JSNumber

/-- The magnitude bits of `Infinity`: biased exponent 2047, fraction 0. -/
def infBits : Nat := 2047 * 2 ^ 52

/-- The magnitude of the finite binary64 value with magnitude bits `bits`,
multiplied by `2 ^ 1074` (an integer). -/
def scaledMag (bits : Nat) : Nat :=
  if bits < 2 ^ 52 then bits
  else (2 ^ 52 + bits % 2 ^ 52) * 2 ^ (bits / 2 ^ 52 - 1)

/-- Round the quotient `n / d` to the nearest integer, ties to even. -/
def roundHalfEven (n d : Nat) : Nat :=
  let q := n / d
  let r := n % d
  if 2 * r < d then q
  else if d < 2 * r then q + 1
  else if q % 2 = 0 then q else q + 1

/-- Helper of `floorLog2`, by halving with fuel. -/
def log2Fuel : Nat → Nat → Nat
  | 0, _ => 0
  | fuel + 1, n => if n < 2 then 0 else log2Fuel fuel (n / 2) + 1

/-- The position of the highest set bit of `n` (`0` for `n < 2`). -/
def floorLog2 (n : Nat) : Nat := log2Fuel n n

/-- The magnitude bits of the binary64 value nearest to `num / den`
(round to nearest, ties to even); the result is `≥ infBits` when the value
rounds to infinity. -/
def roundMag (num den : Nat) : Nat :=
  let n := num * 2 ^ 1074
  let s := floorLog2 (n / den) - 52
  s * 2 ^ 52 + roundHalfEven n (den * 2 ^ s)

/-- The magnitude bits of the binary64 value nearest to `mant * 10 ^ exp10`. -/
def decimalMag (mant : Nat) (exp10 : Int) : Nat :=
  if 0 ≤ exp10 then roundMag (mant * 10 ^ exp10.toNat) 1
  else roundMag mant (10 ^ (-exp10).toNat)

/-- The Number denoted by the decimal `(-1)^neg * mant * 10 ^ exp10`. -/
def ofDecimal (neg : Bool) (mant : Nat) (exp10 : Int) : JSNumber :=
  let bits := decimalMag mant exp10
  if bits < infBits then finite neg bits else inf neg

/-- The Number written by a non-negative integer literal. -/
def ofNat (n : Nat) : JSNumber := ofDecimal false n 0

/-- The `k` low decimal digits of `n`, most significant first. -/
def decDigits : Nat → Nat → List Nat
  | 0, _ => []
  | k + 1, n => decDigits k (n / 10) ++ [n % 10]

/-- The number of decimal digits of `n` (`0` has none), found with fuel. -/
def numDigitsAux : Nat → Nat → Nat
  | 0, _ => 0
  | fuel + 1, n => if n = 0 then 0 else numDigitsAux fuel (n / 10) + 1

/-- The number of decimal digits of `n`. -/
def numDigits (n : Nat) : Nat := numDigitsAux n n

/-- A decimal candidate `s * 10 ^ e` for the digits of a Number. -/
structure Decimal where
  s : Nat
  e : Int
deriving DecidableEq, Repr

/-- One step of the search of `Number::toString`: with `d` the exact decimal
expansion of the value (`value = d * 10 ^ (-1074)`, `len` digits), the candidates
with `k` digits are the value truncated to `k` digits and its successor. The one
that rounds back to `bits` is taken, the closer one when both do, the even one on
a tie. -/
def digitCandidate (bits d len k : Nat) : Option Decimal :=
  let p := 10 ^ (len - k)
  let lo := d / p
  let e : Int := (len - k : Nat) - 1074
  let cLo : Decimal := ⟨lo, e⟩
  let cHi : Decimal := if lo + 1 = 10 ^ k then ⟨10 ^ (k - 1), e + 1⟩ else ⟨lo + 1, e⟩
  let okLo := decide (decimalMag cLo.s cLo.e = bits)
  let okHi := decide (decimalMag cHi.s cHi.e = bits)
  let dLo := d - lo * p
  let dHi := (lo + 1) * p - d
  if okLo && okHi then
    if dLo < dHi then some cLo
    else if dHi < dLo then some cHi
    else if lo % 2 = 0 then some cLo else some cHi
  else if okLo then some cLo
  else if okHi then some cHi
  else none

/-- Search for the least number of digits `k`, from `k` upwards, `fuel` times. -/
def digitSearch (bits d len : Nat) : Nat → Nat → Option Decimal
  | 0, _ => none
  | fuel + 1, k =>
    match digitCandidate bits d len k with
    | some c => some c
    | none => digitSearch bits d len fuel (k + 1)

/-- The shortest decimal that rounds to the positive finite value with magnitude
bits `bits` (step 5 of `Number::toString`). The search ends at the latest with
all `len` digits of the exact expansion, which is the fallback. -/
def shortestDecimal (bits : Nat) : Decimal :=
  let d := scaledMag bits * 5 ^ 1074
  let len := numDigits d
  match digitSearch bits d len len 1 with
  | some c => c
  | none => ⟨d, -1074⟩

/-- The code units of the decimal digits `ds`. -/
def digitChars (ds : List Nat) : JSString := ds.map (fun d => 48 + d)

/-- The decimal representation of a natural number, as code units. -/
def natChars (n : Nat) : JSString :=
  if n = 0 then [48] else digitChars (decDigits (numDigits n) n)

/-- Steps 6 to 11 of `Number::toString` for radix 10: lay out the `k` digits `ds`
of `s`, where the value is `s * 10 ^ (n - k)`. -/
def formatDecimal (ds : List Nat) (n : Int) : JSString :=
  let k : Int := ds.length
  if -5 ≤ n ∧ n ≤ 21 then
    if k ≤ n then digitChars ds ++ List.replicate (n - k).toNat 48
    else if 0 < n then
      digitChars (ds.take n.toNat) ++ [46] ++ digitChars (ds.drop n.toNat)
    else [48, 46] ++ List.replicate (-n).toNat 48 ++ digitChars ds
  else
    let sign : Nat := if n < 0 then 45 else 43
    let ex := natChars (n - 1).natAbs
    if ds.length = 1 then digitChars ds ++ [101, sign] ++ ex
    else digitChars (ds.take 1) ++ [46] ++ digitChars (ds.drop 1) ++ [101, sign] ++ ex

/-- `Number::toString(x, 10)` for a positive finite `x`. -/
def magToString (bits : Nat) : JSString :=
  let c := shortestDecimal bits
  let k := numDigits c.s
  formatDecimal (decDigits k c.s) (k + c.e)

/-- `Number::toString(x, 10)`. -/
def toString : JSNumber → JSString
  | nan => utf16 "NaN"
  | inf neg => if neg then utf16 "-Infinity" else utf16 "Infinity"
  | finite neg bits =>
    if bits = 0 then [48]
    else if neg then 45 :: magToString bits else magToString bits

end JSNumber

/-! ## Values -/

/-- A JavaScript value of the kinds the handler meets: `undefined`, and the
values `JSON.parse` produces. An object is its list of own properties in
enumeration order. -/
inductive JSValue where
  | undefined
  | null
  | bool (b : Bool)
  | number (x : JSNumber)
  | string (s : JSString)
  | array (items : List JSValue)
  | object (props : List (JSString × JSValue))
deriving Repr

namespace JSValue

mutual
/-- Structural equality test on values. -/
def beq : JSValue → JSValue → Bool
  | undefined, undefined => true
  | null, null => true
  | bool a, bool b => a == b
  | number a, number b => a == b
  | string a, string b => a == b
  | array a, array b => beqList a b
  | object a, object b => beqProps a b
  | _, _ => false
termination_by structural v => v
/-- Structural equality test on lists of values. -/
def beqList : List JSValue → List JSValue → Bool
  | [], [] => true
  | x :: xs, y :: ys => beq x y && beqList xs ys
  | _, _ => false
termination_by structural v => v
/-- Structural equality test on property lists. -/
def beqProps : List (JSString × JSValue) → List (JSString × JSValue) → Bool
  | [], [] => true
  | (k, x) :: xs, (l, y) :: ys => k == l && beq x y && beqProps xs ys
  | _, _ => false
termination_by structural v => v
end

mutual
theorem beq_eq : ∀ a b : JSValue, beq a b = true → a = b
  | undefined, b => by cases b <;> simp [beq]
  | null, b => by cases b <;> simp [beq]
  | bool a, b => by cases b <;> simp [beq]
  | number a, b => by cases b <;> simp [beq]
  | string a, b => by cases b <;> simp [beq]
  | array a, b => by
    cases b <;> simp [beq]
    exact beqList_eq a _
  | object a, b => by
    cases b <;> simp [beq]
    exact beqProps_eq a _
theorem beqList_eq : ∀ a b : List JSValue, beqList a b = true → a = b
  | [], b => by cases b <;> simp [beqList]
  | x :: xs, b => by
    cases b with
    | nil => simp [beqList]
    | cons y ys =>
      simp only [beqList, Bool.and_eq_true, List.cons.injEq]
      exact fun h => ⟨beq_eq x y h.1, beqList_eq xs ys h.2⟩
theorem beqProps_eq :
    ∀ a b : List (JSString × JSValue), beqProps a b = true → a = b
  | [], b => by cases b <;> simp [beqProps]
  | (k, x) :: xs, b => by
    cases b with
    | nil => simp [beqProps]
    | cons y ys =>
      obtain ⟨l, y⟩ := y
      simp only [beqProps, Bool.and_eq_true, List.cons.injEq, Prod.mk.injEq, beq_iff_eq]
      exact fun h => ⟨⟨h.1.1, beq_eq x y h.1.2⟩, beqProps_eq xs ys h.2⟩
end

mutual
theorem beq_self : ∀ a : JSValue, beq a a = true
  | undefined => by simp [beq]
  | null => by simp [beq]
  | bool a => by simp [beq]
  | number a => by simp [beq]
  | string a => by simp [beq]
  | array a => by simp [beq]; exact beqList_self a
  | object a => by simp [beq]; exact beqProps_self a
theorem beqList_self : ∀ a : List JSValue, beqList a a = true
  | [] => by simp [beqList]
  | x :: xs => by simp [beqList]; exact ⟨beq_self x, beqList_self xs⟩
theorem beqProps_self : ∀ a : List (JSString × JSValue), beqProps a a = true
  | [] => by simp [beqProps]
  | (k, x) :: xs => by simp [beqProps]; exact ⟨beq_self x, beqProps_self xs⟩
end

instance : DecidableEq JSValue := fun a b =>
  if h : beq a b = true then isTrue (beq_eq a b h)
  else isFalse (fun e => h (e ▸ beq_self a))

/-- `ToBoolean`: the truthiness used by `!` and `||`. -/
def toBoolean : JSValue → Bool
  | undefined => false
  | null => false
  | bool b => b
  | number (.finite _ bits) => bits != 0
  | number (.inf _) => true
  | number .nan => false
  | string s => !s.isEmpty
  | array _ => true
  | object _ => true

/-- The property read `v.key`, for a `key` that no built-in prototype defines and
that is neither an index nor `length` (the handler reads `apiKey`, `messages`,
`max_tokens` and `message`). `none` is the `TypeError` thrown when `v` is `null`
or `undefined`; a missing property reads as `undefined`. -/
def getProp (v : JSValue) (key : JSString) : Option JSValue :=
  match v with
  | undefined => none
  | null => none
  | object props => some ((props.lookup key).getD undefined)
  | _ => some undefined

/-- The value of `v.key` when the read does not throw, `undefined` otherwise:
the property as a caller of the handler sees it, absent or not. -/
def member (v : JSValue) (key : JSString) : JSValue :=
  (v.getProp key).getD undefined

/-- The operator `a || b`. -/
def or (a b : JSValue) : JSValue :=
  if a.toBoolean then a else b

/-- The array index a property key denotes, if it is one: a canonical decimal
numeral of value at most `2 ^ 32 - 2`. -/
def arrayIndex (key : JSString) : Option Nat :=
  match key with
  | [] => none
  | c :: cs =>
    if (c :: cs).all (fun u => decide (48 ≤ u ∧ u ≤ 57)) && (c != 48 || cs.isEmpty) then
      let n := (c :: cs).foldl (fun a u => 10 * a + (u - 48)) 0
      if n ≤ 4294967294 then some n else none
    else none

/-- Replace the value of the property `key`, keeping its place. -/
def replaceProp (key : JSString) (v : JSValue) :
    List (JSString × JSValue) → List (JSString × JSValue)
  | [] => []
  | (k, x) :: rest =>
    if k = key then (k, v) :: rest else (k, x) :: replaceProp key v rest

/-- Place the new array-index property `key` (of index `i`) among the index
properties, which are enumerated first and in ascending order. -/
def insertIndexProp (key : JSString) (i : Nat) (v : JSValue) :
    List (JSString × JSValue) → List (JSString × JSValue)
  | [] => [(key, v)]
  | (k, x) :: rest =>
    match arrayIndex k with
    | some j =>
      if j < i then (k, x) :: insertIndexProp key i v rest
      else (key, v) :: (k, x) :: rest
    | none => (key, v) :: (k, x) :: rest

/-- `CreateDataProperty` on an ordinary object: an existing property keeps its
place and takes the new value; a new array-index key is enumerated among the
indices in ascending order; any other new key comes last. -/
def setProp (props : List (JSString × JSValue)) (key : JSString) (v : JSValue) :
    List (JSString × JSValue) :=
  if (props.lookup key).isSome then replaceProp key v props
  else
    match arrayIndex key with
    | some i => insertIndexProp key i v props
    | none => props ++ [(key, v)]

end JSValue

/-! ## `JSON.stringify` -/

namespace JSON

/-- The code unit of the lowercase hexadecimal digit `d`. -/
def hexDigit (d : Nat) : Nat := if d < 10 then 48 + d else 87 + d

/-- `UnicodeEscape`: `\uXXXX` with lowercase hexadecimal digits. -/
def unicodeEscape (c : Nat) : JSString :=
  [92, 117, hexDigit (c / 4096 % 16), hexDigit (c / 256 % 16),
    hexDigit (c / 16 % 16), hexDigit (c % 16)]

/-- A leading (high) surrogate code unit. -/
def isLeadSurrogate (c : Nat) : Bool := decide (55296 ≤ c ∧ c ≤ 56319)

/-- A trailing (low) surrogate code unit. -/
def isTrailSurrogate (c : Nat) : Bool := decide (56320 ≤ c ∧ c ≤ 57343)

/-- The escape of a code unit that is not part of a surrogate pair, inside
`QuoteJSONString`. -/
def quoteUnit (c : Nat) : JSString :=
  if c = 8 then [92, 98]
  else if c = 9 then [92, 116]
  else if c = 10 then [92, 110]
  else if c = 12 then [92, 102]
  else if c = 13 then [92, 114]
  else if c = 34 then [92, 34]
  else if c = 92 then [92, 92]
  else if c < 32 || isLeadSurrogate c || isTrailSurrogate c then unicodeEscape c
  else [c]

/-- The body of `QuoteJSONString`: a surrogate pair is kept, every other code
unit goes through `quoteUnit`. -/
def quoteChars : JSString → JSString
  | [] => []
  | [c] => quoteUnit c
  | c :: d :: rest =>
    if isLeadSurrogate c && isTrailSurrogate d then c :: d :: quoteChars rest
    else quoteUnit c ++ quoteChars (d :: rest)

/-- `QuoteJSONString`. -/
def quote (s : JSString) : JSString := 34 :: quoteChars s ++ [34]

/-- Join the parts with commas. -/
def joinTail : List JSString → JSString
  | [] => []
  | p :: ps => 44 :: p ++ joinTail ps

/-- Join the parts with commas. -/
def joinComma : List JSString → JSString
  | [] => []
  | p :: ps => p ++ joinTail ps

mutual
/-- `SerializeJSONProperty` without replacer and gap; `none` is `undefined`. -/
def serialize : JSValue → Option JSString
  | .undefined => none
  | .null => some (utf16 "null")
  | .bool b => some (if b then utf16 "true" else utf16 "false")
  | .number x =>
    match x with
    | .finite _ _ => some x.toString
    | _ => some (utf16 "null")
  | .string s => some (quote s)
  | .array items => some (91 :: joinComma (serializeItems items) ++ [93])
  | .object props => some (123 :: joinComma (serializeProps props) ++ [125])
termination_by structural v => v
/-- The elements of `SerializeJSONArray`: `undefined` is written `null`. -/
def serializeItems : List JSValue → List JSString
  | [] => []
  | v :: vs => (serialize v).getD (utf16 "null") :: serializeItems vs
termination_by structural v => v
/-- The members of `SerializeJSONObject`: a property whose value is `undefined`
is left out. -/
def serializeProps : List (JSString × JSValue) → List JSString
  | [] => []
  | (k, v) :: ps =>
    match serialize v with
    | some s => (quote k ++ 58 :: s) :: serializeProps ps
    | none => serializeProps ps
termination_by structural v => v
end

/-- `JSON.stringify(v)`: a string, or `undefined`. -/
def stringify (v : JSValue) : JSValue :=
  match serialize v with
  | some s => .string s
  | none => .undefined

end JSON

/-! ## `JSON.parse` -/

namespace JSON

/-- JSON white space: tab, line feed, carriage return, space. -/
def isWs (c : Nat) : Bool := c = 9 || c = 10 || c = 13 || c = 32

/-- Drop leading white space. -/
def skipWs : JSString → JSString
  | [] => []
  | c :: cs => if isWs c then skipWs cs else c :: cs

/-- The value of a hexadecimal digit, in either case. -/
def hexVal (c : Nat) : Option Nat :=
  if 48 ≤ c ∧ c ≤ 57 then some (c - 48)
  else if 97 ≤ c ∧ c ≤ 102 then some (c - 87)
  else if 65 ≤ c ∧ c ≤ 70 then some (c - 55)
  else none

/-- The code unit written by the four hexadecimal digits of a `\u` escape. -/
def hex4 (a b c d : Nat) : Option Nat :=
  match hexVal a, hexVal b, hexVal c, hexVal d with
  | some x, some y, some z, some w => some (x * 4096 + y * 256 + z * 16 + w)
  | _, _, _, _ => none

/-- The code unit written by a single-character escape. -/
def simpleEscape (e : Nat) : Option Nat :=
  if e = 34 then some 34
  else if e = 92 then some 92
  else if e = 47 then some 47
  else if e = 98 then some 8
  else if e = 102 then some 12
  else if e = 110 then some 10
  else if e = 114 then some 13
  else if e = 116 then some 9
  else none

/-- Read a JSON string after its opening quote: the string value and the input
left after the closing quote. -/
def parseStringBody : JSString → Option (JSString × JSString)
  | [] => none
  | c :: rest =>
    if c = 34 then some ([], rest)
    else if c = 92 then
      match rest with
      | [] => none
      | e :: rest1 =>
        if e = 117 then
          match rest1 with
          | a :: b :: c2 :: d :: rest2 =>
            match hex4 a b c2 d with
            | some u => (parseStringBody rest2).map (fun p => (u :: p.1, p.2))
            | none => none
          | _ => none
        else
          match simpleEscape e with
          | some u => (parseStringBody rest1).map (fun p => (u :: p.1, p.2))
          | none => none
    else if c < 32 then none
    else (parseStringBody rest).map (fun p => (c :: p.1, p.2))

/-- A decimal digit code unit. -/
def isDigit (c : Nat) : Bool := decide (48 ≤ c ∧ c ≤ 57)

/-- Read the longest run of decimal digits: their values and the input left. -/
def takeDigits : JSString → List Nat × JSString
  | [] => ([], [])
  | c :: cs =>
    if isDigit c then ((c - 48) :: (takeDigits cs).1, (takeDigits cs).2)
    else ([], c :: cs)

/-- The natural number written by a list of decimal digits. -/
def digitsValue (ds : List Nat) : Nat := ds.foldl (fun a d => 10 * a + d) 0

/-- Read the optional fraction of a number: its digits and the input left. -/
def parseFraction (input : JSString) : Option (List Nat × JSString) :=
  match input with
  | 46 :: r =>
    match takeDigits r with
    | ([], _) => none
    | (fs, r2) => some (fs, r2)
  | _ => some ([], input)

/-- Read the optional exponent of a number: its value and the input left. -/
def parseExponent (input : JSString) : Option (Int × JSString) :=
  match input with
  | c :: r =>
    if c = 101 || c = 69 then
      let neg := r.head? = some 45
      let r1 := if r.head? = some 45 || r.head? = some 43 then r.tail else r
      match takeDigits r1 with
      | ([], _) => none
      | (es, r2) => some (if neg then -(digitsValue es : Int) else (digitsValue es : Int), r2)
    else some (0, input)
  | [] => some (0, input)

/-- Read a JSON number: `-? (0 | [1-9][0-9]*) (. [0-9]+)? ([eE] [+-]? [0-9]+)?`,
rounded to the nearest Number. -/
def parseNumber (input : JSString) : Option (JSNumber × JSString) :=
  let neg := input.head? = some 45
  let s1 := if input.head? = some 45 then input.tail else input
  match takeDigits s1 with
  | ([], _) => none
  | (d :: ds, r1) =>
    if d = 0 ∧ ds ≠ [] then none
    else
      match parseFraction r1 with
      | none => none
      | some (fs, r2) =>
        match parseExponent r2 with
        | none => none
        | some (ex, r3) =>
          some (JSNumber.ofDecimal neg (digitsValue (d :: ds ++ fs)) (ex - fs.length), r3)

/-- Read the literal `lit` at the head of the input. -/
def parseLiteral (lit : JSString) (v : JSValue) (input : JSString) :
    Option (JSValue × JSString) :=
  if lit.isPrefixOf input then some (v, input.drop lit.length) else none

/-- The elements of an array after the first `[`, each read by `pv`, up to and
including the closing `]`. The input starts at an element. -/
def parseElements (pv : JSString → Option (JSValue × JSString)) :
    Nat → JSString → Option (List JSValue × JSString)
  | 0, _ => none
  | n + 1, input =>
    match pv input with
    | none => none
    | some (v, r) =>
      match skipWs r with
      | [] => none
      | c :: r2 =>
        if c = 44 then (parseElements pv n (skipWs r2)).map (fun p => (v :: p.1, p.2))
        else if c = 93 then some ([v], r2)
        else none

/-- The members of an object after the first `{`, each value read by `pv`, up to
and including the closing `}`, in source order. The input starts at a member. -/
def parseMembers (pv : JSString → Option (JSValue × JSString)) :
    Nat → JSString → Option (List (JSString × JSValue) × JSString)
  | 0, _ => none
  | n + 1, input =>
    match input with
    | [] => none
    | q :: r0 =>
      if q = 34 then
        match parseStringBody r0 with
        | none => none
        | some (key, r1) =>
          match skipWs r1 with
          | [] => none
          | c :: r2 =>
            if c = 58 then
              match pv (skipWs r2) with
              | none => none
              | some (v, r3) =>
                match skipWs r3 with
                | [] => none
                | c2 :: r4 =>
                  if c2 = 44 then
                    (parseMembers pv n (skipWs r4)).map (fun p => ((key, v) :: p.1, p.2))
                  else if c2 = 125 then some ([(key, v)], r4)
                  else none
            else none
      else none

/-- The object built from the members in source order: a repeated key
overwrites the earlier value. -/
def buildObject (members : List (JSString × JSValue)) : JSValue :=
  .object (members.foldl (fun ps m => JSValue.setProp ps m.1 m.2) [])

/-- Read one JSON value at the head of the input (no leading white space);
`fuel` bounds the nesting depth. -/
def parseValue : Nat → JSString → Option (JSValue × JSString)
  | 0, _ => none
  | fuel + 1, input =>
    match input with
    | [] => none
    | c :: rest =>
      if c = 34 then
        (parseStringBody rest).map (fun p => (JSValue.string p.1, p.2))
      else if c = 91 then
        match skipWs rest with
        | [] => none
        | c2 :: r2 =>
          if c2 = 93 then some (.array [], r2)
          else
            (parseElements (parseValue fuel) (c2 :: r2).length (c2 :: r2)).map
              (fun p => (JSValue.array p.1, p.2))
      else if c = 123 then
        match skipWs rest with
        | [] => none
        | c2 :: r2 =>
          if c2 = 125 then some (.object [], r2)
          else
            (parseMembers (parseValue fuel) (c2 :: r2).length (c2 :: r2)).map
              (fun p => (buildObject p.1, p.2))
      else if c = 116 then parseLiteral (utf16 "true") (.bool true) input
      else if c = 102 then parseLiteral (utf16 "false") (.bool false) input
      else if c = 110 then parseLiteral (utf16 "null") .null input
      else (parseNumber input).map (fun p => (JSValue.number p.1, p.2))

/-- `JSON.parse(text)` without reviver; `none` is the thrown `SyntaxError`. -/
def parse (text : JSString) : Option JSValue :=
  match parseValue (text.length + 1) (skipWs text) with
  | none => none
  | some (v, rest) => if skipWs rest = [] then some v else none

end JSON

/-! ## Depth, and what survives `JSON.stringify` -/

/-- What may follow a value inside JSON text written by `JSON.stringify`: the
end of the text, a comma, or a closing bracket or brace. -/
def JSON.Delim (rest : JSString) : Prop :=
  rest = [] ∨ ∃ c cs, rest = c :: cs ∧ (c = 44 ∨ c = 93 ∨ c = 125)

namespace JSValue

/-- The order in which two distinct own property keys are enumerated: array
indices first, in ascending order, then the other keys (in creation order). -/
def keyBefore (a b : JSString) : Prop :=
  a ≠ b ∧
  match arrayIndex a, arrayIndex b with
  | some i, some j => i < j
  | some _, none => True
  | none, some _ => False
  | none, none => True

/-- A property list in enumeration order, without repeated keys. -/
def KeysOrdered (props : List (JSString × JSValue)) : Prop :=
  (props.map Prod.fst).Pairwise keyBefore

mutual
/-- The nesting depth of arrays and objects in a value. -/
def depth : JSValue → Nat
  | .array items => depthItems items + 1
  | .object props => depthProps props + 1
  | _ => 0
termination_by structural v => v
/-- The greatest depth among the elements of an array. -/
def depthItems : List JSValue → Nat
  | [] => 0
  | v :: vs => max (depth v) (depthItems vs)
termination_by structural v => v
/-- The greatest depth among the property values of an object. -/
def depthProps : List (JSString × JSValue) → Nat
  | [] => 0
  | (_, v) :: ps => max (depth v) (depthProps ps)
termination_by structural v => v
end

mutual
/-- No Number in the value is `Infinity`, `-Infinity`, `NaN` or `-0`: the Numbers
that `JSON.stringify` does not write back as themselves. -/
def lossless : JSValue → Bool
  | .number (.finite neg bits) => !(neg && bits == 0)
  | .number _ => false
  | .array items => losslessItems items
  | .object props => losslessProps props
  | _ => true
termination_by structural v => v
/-- Every element is `lossless`. -/
def losslessItems : List JSValue → Bool
  | [] => true
  | v :: vs => lossless v && losslessItems vs
termination_by structural v => v
/-- Every property value is `lossless`. -/
def losslessProps : List (JSString × JSValue) → Bool
  | [] => true
  | (_, v) :: ps => lossless v && losslessProps ps
termination_by structural v => v
end

mutual
/-- The value `JSON.stringify` writes: what `JSON.parse` reads from the text of a
value. `Infinity`, `-Infinity` and `NaN` are written `null`, and `-0` is written
`0`; everything else is written as itself. -/
def written : JSValue → JSValue
  | .number (.finite neg bits) => .number (.finite (neg && bits != 0) bits)
  | .number _ => .null
  | .array items => .array (writtenItems items)
  | .object props => .object (writtenProps props)
  | v => v
termination_by structural v => v
/-- The elements, as written. -/
def writtenItems : List JSValue → List JSValue
  | [] => []
  | v :: vs => written v :: writtenItems vs
termination_by structural v => v
/-- The properties, as written: the same keys, in the same order. -/
def writtenProps : List (JSString × JSValue) → List (JSString × JSValue)
  | [] => []
  | (k, v) :: ps => (k, written v) :: writtenProps ps
termination_by structural v => v
end

mutual
/-- The shape of every value `JSON.parse` returns: no `undefined` and no `NaN`
inside, finite Numbers within the binary64 range, and the properties of every
object in enumeration order without repeated keys. -/
def WellFormed : JSValue → Prop
  | .undefined => False
  | .number (.finite _ bits) => bits < JSNumber.infBits
  | .number (.inf _) => True
  | .number .nan => False
  | .array items => WellFormedItems items
  | .object props => WellFormedProps props ∧ KeysOrdered props
  | _ => True
termination_by structural v => v
/-- Every element is `WellFormed`. -/
def WellFormedItems : List JSValue → Prop
  | [] => True
  | v :: vs => WellFormed v ∧ WellFormedItems vs
termination_by structural v => v
/-- Every property value is `WellFormed`. -/
def WellFormedProps : List (JSString × JSValue) → Prop
  | [] => True
  | (_, v) :: ps => WellFormed v ∧ WellFormedProps ps
termination_by structural v => v
end

end JSValue

/-! ## The handler -/

/-- The inbound event: the HTTP method and the raw body, `none` when the
platform passes `null`. -/
structure Event where
  httpMethod : JSString
  body : Option JSString
deriving DecidableEq, Repr

/-- The object the handler returns. -/
structure Response where
  statusCode : Nat
  headers : List (JSString × JSString)
  body : JSValue
deriving DecidableEq, Repr

/-- The arguments of the call to `fetch`: the URL and the `init` object. -/
structure FetchInit where
  url : JSString
  method : JSString
  headers : List (JSString × JSValue)
  body : JSValue
deriving DecidableEq, Repr

/-- The part of the engine the handler depends on beside the language.
`JSON.stringify` serializes a value nested at most `maxDepth` deep and throws a
`RangeError` with message `overflowMessage` on a deeper one; an object of strings
(depth 1) is always serialized. -/
structure Engine where
  maxDepth : Nat
  overflowMessage : JSString
  one_le : 1 ≤ maxDepth

/-- A value thrown at the handler. `value v` is a JSON-shaped value, `null` or
`undefined`; an `Error` is an object with a `message`. `unwritableMessage` is a
value other than `null` and `undefined` whose `message` `JSON.stringify` throws
on, such as a BigInt or a cyclic object. -/
inductive Thrown where
  | value (v : JSValue)
  | unwritableMessage
deriving DecidableEq, Repr

/-- What `await anthropicResponse.text()` does. -/
inductive TextResult where
  | text (t : JSString)
  | throws (e : Thrown)
deriving DecidableEq, Repr

/-- What `await fetch(...)` does: a response with its status, or a thrown
value. -/
inductive FetchResult where
  | response (status : Nat) (text : TextResult)
  | throws (e : Thrown)
deriving DecidableEq, Repr

/-- How a call of the handler ends: it returns a response, or an error raised
inside its last `catch` block leaves the function: the `TypeError` of reading
`error.message` of `null` or `undefined`, or what `JSON.stringify` throws there. -/
inductive Completion where
  | returns (r : Response)
  | throwsTypeError
  | throwsFromStringify
deriving DecidableEq, Repr

/-- A call of the handler: the outbound calls it made, in order, and how it
ended. -/
structure Run where
  calls : List FetchInit
  completion : Completion
deriving DecidableEq, Repr

/-- `JSON.stringify(v)` on the engine; `none` is the `RangeError` thrown when `v`
is nested deeper than the engine serializes. -/
def Engine.stringify (engine : Engine) (v : JSValue) : Option JSValue :=
  if v.depth ≤ engine.maxDepth then some (JSON.stringify v) else none

/-- The `RangeError` of the engine, as the `catch` block sees it. -/
def Engine.rangeError (engine : Engine) : Thrown :=
  .value (.object [(utf16 "message", .string engine.overflowMessage)])

/-- `ToString` of `event.body`, applied by `JSON.parse` to its argument. -/
def bodyText : Option JSString → JSString
  | some s => s
  | none => utf16 "null"

/-- `s.substring(a, b)` for non-negative integers `a` and `b`. -/
def substring (s : JSString) (a b : Nat) : JSString :=
  (s.take (max a b)).drop (min a b)

/-- The header every response carries. -/
def corsOrigin : JSString × JSString := (utf16 "Access-Control-Allow-Origin", utf16 "*")

/-- A response whose body is `JSON.stringify({ error: msg })`, with the
permissive origin header only. -/
def errorResponse (status : Nat) (msg : String) : Response :=
  { statusCode := status
    headers := [corsOrigin]
    body := JSON.stringify (.object [(utf16 "error", .string (utf16 msg))]) }

/-- The object literal serialized as the outbound body. -/
def upstreamPayload (max_tokens messages : JSValue) : JSValue :=
  .object [(utf16 "model", .string (utf16 "claude-sonnet-4-20250514")),
    (utf16 "max_tokens", max_tokens),
    (utf16 "messages", messages)]

/-- The call `fetch('https://api.anthropic.com/v1/messages', {...})`, with `body`
the serialized payload. -/
def upstreamRequest (apiKey body : JSValue) : FetchInit :=
  { url := utf16 "https://api.anthropic.com/v1/messages"
    method := utf16 "POST"
    headers := [(utf16 "Content-Type", .string (utf16 "application/json")),
      (utf16 "x-api-key", apiKey),
      (utf16 "anthropic-version", .string (utf16 "2023-06-01"))]
    body := body }

/-- The outer `catch (error)` block: it reads `error.message`, which throws a
`TypeError` when `error` is `null` or `undefined`, and serializes the answer,
which throws when `JSON.stringify` cannot write the message. Neither is caught. -/
def serverError (engine : Engine) (error : Thrown) : Completion :=
  match error with
  | .unwritableMessage => .throwsFromStringify
  | .value e =>
    match e.getProp (utf16 "message") with
    | none => .throwsTypeError
    | some message =>
      match engine.stringify
        (.object [(utf16 "error", .string (utf16 "Server error")),
          (utf16 "message", message)]) with
      | none => .throwsFromStringify
      | some body => .returns { statusCode := 500, headers := [corsOrigin], body := body }

/-- The second `try` block: the outbound call and the relay of its result. The
payload is serialized before `fetch` is called; a `RangeError` of either
`JSON.stringify` is caught by the outer `catch`. -/
def forward (engine : Engine) (fetch : FetchInit → FetchResult)
    (apiKey max_tokens messages : JSValue) : Run :=
  match engine.stringify (upstreamPayload max_tokens messages) with
  | none => { calls := [], completion := serverError engine engine.rangeError }
  | some outboundBody =>
    { calls := [upstreamRequest apiKey outboundBody]
      completion :=
        match fetch (upstreamRequest apiKey outboundBody) with
        | .throws error => serverError engine error
        | .response _ (.throws error) => serverError engine error
        | .response status (.text responseText) =>
          match JSON.parse responseText with
          | none =>
            .returns
              { statusCode := 500
                headers := [corsOrigin]
                body := JSON.stringify
                  (.object [(utf16 "error", .string (utf16 "Failed to parse API response")),
                    (utf16 "details", .string (substring responseText 0 100))]) }
          | some responseData =>
            match engine.stringify responseData with
            | none => serverError engine engine.rangeError
            | some body =>
              .returns
                { statusCode := status
                  headers := [corsOrigin, (utf16 "Content-Type", utf16 "application/json")]
                  body := body } }

/-- `exports.handler`, with `fetch` the behaviour of the upstream and `engine`
the limit of `JSON.stringify`. -/
def handler (engine : Engine) (fetch : FetchInit → FetchResult) (event : Event) : Run :=
  if event.httpMethod = utf16 "OPTIONS" then
    { calls := []
      completion := .returns
        { statusCode := 200
          headers := [corsOrigin,
            (utf16 "Access-Control-Allow-Headers", utf16 "Content-Type"),
            (utf16 "Access-Control-Allow-Methods", utf16 "POST, OPTIONS")]
          body := .string [] } }
  else if event.httpMethod ≠ utf16 "POST" then
    { calls := [], completion := .returns (errorResponse 405 "Method not allowed") }
  else
    match JSON.parse (bodyText event.body) with
    | none =>
      { calls := [], completion := .returns (errorResponse 400 "Invalid request body") }
    | some body =>
      match body.getProp (utf16 "apiKey"), body.getProp (utf16 "messages"),
        body.getProp (utf16 "max_tokens") with
      | some apiKey, some messages, some bodyMaxTokens =>
        let max_tokens := bodyMaxTokens.or (.number (JSNumber.ofNat 4096))
        if !apiKey.toBoolean || !messages.toBoolean then
          { calls := []
            completion := .returns (errorResponse 400 "Missing apiKey or messages") }
        else forward engine fetch apiKey max_tokens messages
      | _, _, _ =>
        { calls := [], completion := .returns (errorResponse 400 "Invalid request body") }

/-- A POST request whose body parses to a value with truthy `apiKey` and
`messages`; `bodyMaxTokens` is what `body.max_tokens` reads. -/
def ValidPost (event : Event) (apiKey messages bodyMaxTokens : JSValue) : Prop :=
  event.httpMethod = utf16 "POST" ∧
  ∃ body, JSON.parse (bodyText event.body) = some body ∧
    body.getProp (utf16 "apiKey") = some apiKey ∧
    body.getProp (utf16 "messages") = some messages ∧
    body.getProp (utf16 "max_tokens") = some bodyMaxTokens ∧
    apiKey.toBoolean = true ∧ messages.toBoolean = true

/-- The `max_tokens` the specification asks for: the one of the body when it is
truthy, `4096` when it is absent or falsy. -/
def resolvedMaxTokens (bodyMaxTokens : JSValue) : JSValue :=
  if bodyMaxTokens.toBoolean = true then bodyMaxTokens else .number (JSNumber.ofNat 4096)

/-- `JSON.stringify` on the engine serializes `v`: `v` is nested no deeper than
the engine goes. -/
def Engine.serializes (engine : Engine) (v : JSValue) : Prop :=
  v.depth ≤ engine.maxDepth

/-! ## Sample inputs -/

/-- An engine whose `JSON.stringify` gives up beyond 4096 levels of nesting. -/
def sampleEngine : Engine :=
  { maxDepth := 4096
    overflowMessage := utf16 "Maximum call stack size exceeded"
    one_le := by decide }

/-- The well-formed request of the specification, with `max_tokens` 1000. -/
def sampleEvent : Event :=
  { httpMethod := utf16 "POST"
    body := some (utf16
      "\x7b\"apiKey\":\"k\",\"messages\":[\x7b\"role\":\"user\",\"content\":\"hi\"\x7d],\"max_tokens\":1000\x7d") }

/-- The well-formed request of the specification, without `max_tokens`. -/
def sampleEventNoMax : Event :=
  { httpMethod := utf16 "POST"
    body := some (utf16
      "\x7b\"apiKey\":\"k\",\"messages\":[\x7b\"role\":\"user\",\"content\":\"hi\"\x7d]\x7d") }

/-- The `messages` of the sample requests, parsed. -/
def sampleMessages : JSValue :=
  .array [.object [(utf16 "role", .string (utf16 "user")),
    (utf16 "content", .string (utf16 "hi"))]]

/-- The outbound request `sampleEvent` leads to. -/
def sampleRequest : FetchInit :=
  upstreamRequest (.string (utf16 "k"))
    (JSON.stringify (upstreamPayload (.number (JSNumber.ofNat 1000)) sampleMessages))

/-- An upstream that answers with the given status and text. -/
def answering (status : Nat) (text : String) : FetchInit → FetchResult :=
  fun _ => .response status (.text (utf16 text))

/-- An upstream whose call throws the given value. -/
def throwing (e : JSValue) : FetchInit → FetchResult :=
  fun _ => .throws (.value e)

/-- An error object, as far as the handler looks at it: its `message`. -/
def errorObject (message : String) : JSValue :=
  .object [(utf16 "message", .string (utf16 message))]

/-- Empty arrays nested in one another: `nested n` is `[]` inside `n` arrays. -/
def nested : Nat → JSValue
  | 0 => .array []
  | n + 1 => .array [nested n]

/-- The text of `nested n`: `n + 1` opening brackets and as many closing ones. -/
def nestedText (n : Nat) : JSString :=
  List.replicate (n + 1) 91 ++ List.replicate (n + 1) 93

/-- A valid request whose `messages` is `nested n`. -/
def nestedEvent (n : Nat) : Event :=
  { httpMethod := utf16 "POST"
    body := some (utf16 "\x7b\"apiKey\":\"k\",\"messages\":" ++ nestedText n ++ utf16 "\x7d") }

/-- The well-formed request of the specification, with `max_tokens` 0. -/
def sampleEventZero : Event :=
  { httpMethod := utf16 "POST"
    body := some (utf16
      "\x7b\"apiKey\":\"k\",\"messages\":[\x7b\"role\":\"user\",\"content\":\"hi\"\x7d],\"max_tokens\":0\x7d") }

/-- A well-formed request whose `max_tokens`, `1e400`, is beyond the binary64
range: `JSON.parse` reads it as `Infinity`. -/
def sampleEventHuge : Event :=
  { httpMethod := utf16 "POST"
    body := some (utf16
      "\x7b\"apiKey\":\"k\",\"messages\":[\x7b\"role\":\"user\",\"content\":\"hi\"\x7d],\"max_tokens\":1e400\x7d") }

/-- The outbound request with the given body text and the key of the samples. -/
def sampleCall (text : String) : FetchInit :=
  { url := utf16 "https://api.anthropic.com/v1/messages"
    method := utf16 "POST"
    headers := [(utf16 "Content-Type", .string (utf16 "application/json")),
      (utf16 "x-api-key", .string (utf16 "k")),
      (utf16 "anthropic-version", .string (utf16 "2023-06-01"))]
    body := .string (utf16 text) }

/-- An upstream answering with a text of 120 code units that is not JSON. -/
def htmlPage : JSString := utf16 "<html>Error</html>" ++ List.replicate 102 46

/-! ## The round trip of `JSON.stringify` and `JSON.parse` -/

namespace JSON

/-! ### Quoted strings -/

theorem hexVal_hexDigit (d : Nat) (h : d < 16) : hexVal (hexDigit d) = some d := by
  interval_cases d <;> decide

theorem hex4_unicodeEscape (c : Nat) (h : c < 65536) :
    hex4 (hexDigit (c / 4096 % 16)) (hexDigit (c / 256 % 16)) (hexDigit (c / 16 % 16))
      (hexDigit (c % 16)) = some c := by
  simp only [hex4, hexVal_hexDigit _ (Nat.mod_lt _ (by decide : 16 > 0))]
  congr 1
  omega

theorem parseStringBody_cons_plain (c : Nat) (input : JSString)
    (h1 : c ≠ 34) (h2 : c ≠ 92) (h3 : ¬ c < 32) :
    parseStringBody (c :: input) =
      (parseStringBody input).map (fun p => (c :: p.1, p.2)) := by
  rw [parseStringBody.eq_def]
  simp [h1, h2, h3]

theorem parseStringBody_unicodeEscape (c : Nat) (input : JSString) (h : c < 65536) :
    parseStringBody (unicodeEscape c ++ input) =
      (parseStringBody input).map (fun p => (c :: p.1, p.2)) := by
  simp only [unicodeEscape, List.cons_append, List.nil_append]
  rw [parseStringBody.eq_def]
  simp [hex4_unicodeEscape c h]

theorem parseStringBody_quoteUnit (c : Nat) (input : JSString) :
    parseStringBody (quoteUnit c ++ input) =
      (parseStringBody input).map (fun p => (c :: p.1, p.2)) := by
  unfold quoteUnit
  split_ifs with h8 h9 h10 h12 h13 h34 h92 hesc
  · subst h8; rw [List.cons_append, parseStringBody.eq_def]; simp [simpleEscape]
  · subst h9; rw [List.cons_append, parseStringBody.eq_def]; simp [simpleEscape]
  · subst h10; rw [List.cons_append, parseStringBody.eq_def]; simp [simpleEscape]
  · subst h12; rw [List.cons_append, parseStringBody.eq_def]; simp [simpleEscape]
  · subst h13; rw [List.cons_append, parseStringBody.eq_def]; simp [simpleEscape]
  · subst h34; rw [List.cons_append, parseStringBody.eq_def]; simp [simpleEscape]
  · subst h92; rw [List.cons_append, parseStringBody.eq_def]; simp [simpleEscape]
  · apply parseStringBody_unicodeEscape
    simp only [isLeadSurrogate, isTrailSurrogate, Bool.or_eq_true, decide_eq_true_eq] at hesc
    omega
  · simp only [isLeadSurrogate, isTrailSurrogate, Bool.or_eq_true, decide_eq_true_eq,
      not_or, not_and, not_le] at hesc
    exact parseStringBody_cons_plain c input h34 h92 (by omega)

/-- Reading back a quoted string gives the string. -/
theorem parseStringBody_quoteChars (s rest : JSString) :
    parseStringBody (quoteChars s ++ 34 :: rest) = some (s, rest) := by
  induction s using quoteChars.induct with
  | case1 => rw [quoteChars, List.nil_append, parseStringBody.eq_def]; simp
  | case2 c =>
    rw [quoteChars, parseStringBody_quoteUnit, parseStringBody.eq_def]; simp
  | case3 c d tail hpair ih =>
    rw [quoteChars, if_pos hpair]
    simp only [isLeadSurrogate, isTrailSurrogate, Bool.and_eq_true, decide_eq_true_eq] at hpair
    rw [List.cons_append, parseStringBody_cons_plain c _ (by omega) (by omega) (by omega),
      List.cons_append, parseStringBody_cons_plain d _ (by omega) (by omega) (by omega), ih]
    rfl
  | case4 c d tail hpair ih =>
    rw [quoteChars, if_neg hpair, List.append_assoc, parseStringBody_quoteUnit, ih]
    rfl

end JSON

namespace JSNumber

/-! ### Rounding to binary64 -/

theorem log2Fuel_eq (k : Nat) : ∀ fuel n : Nat, n ≤ fuel → 2 ^ k ≤ n → n < 2 ^ (k + 1) →
    log2Fuel fuel n = k := by
  induction k with
  | zero =>
    intro fuel n hf h1 h2
    cases fuel with
    | zero => simp at h1; omega
    | succ f => simp only [log2Fuel]; rw [if_pos (by simpa using h2)]
  | succ k ih =>
    intro fuel n hf h1 h2
    have h2k : 2 ≤ 2 ^ (k + 1) := by
      calc 2 = 2 ^ 1 := rfl
        _ ≤ 2 ^ (k + 1) := Nat.pow_le_pow_right (by decide) (by omega)
    cases fuel with
    | zero => omega
    | succ f =>
      simp only [log2Fuel]
      rw [if_neg (by omega)]
      congr 1
      apply ih
      · omega
      · rw [Nat.le_div_iff_mul_le (by decide)]
        rw [← Nat.pow_succ]; exact h1
      · rw [Nat.div_lt_iff_lt_mul (by decide)]
        rw [← Nat.pow_succ]; exact h2

theorem floorLog2_eq (n k : Nat) (h1 : 2 ^ k ≤ n) (h2 : n < 2 ^ (k + 1)) :
    floorLog2 n = k :=
  log2Fuel_eq k n n (Nat.le_refl n) h1 h2

theorem floorLog2_lt (n k : Nat) (h : n < 2 ^ (k + 1)) : floorLog2 n ≤ k := by
  by_cases h0 : n = 0
  · subst h0; simp [floorLog2, log2Fuel]
  · -- n lies in some binade j ≤ k
    have hpos : 0 < n := Nat.pos_of_ne_zero h0
    have : ∃ j, 2 ^ j ≤ n ∧ n < 2 ^ (j + 1) :=
      ⟨Nat.log 2 n, Nat.pow_log_le_self 2 h0, Nat.lt_pow_succ_log_self (by decide) n⟩
    obtain ⟨j, hj1, hj2⟩ := this
    rw [floorLog2_eq n j hj1 hj2]
    by_contra hcon
    have : 2 ^ (k + 1) ≤ 2 ^ j := Nat.pow_le_pow_right (by decide) (by omega)
    omega

theorem roundHalfEven_mul (m d : Nat) (hd : 0 < d) : roundHalfEven (m * d) d = m := by
  simp [roundHalfEven, Nat.mul_div_cancel _ hd, hd]

theorem roundHalfEven_scale (c n d : Nat) (hc : 0 < c) :
    roundHalfEven (c * n) (c * d) = roundHalfEven n d := by
  simp only [roundHalfEven, Nat.mul_div_mul_left _ _ hc, Nat.mul_mod_mul_left]
  have e1 : (2 * (c * (n % d)) < c * d) ↔ (2 * (n % d) < d) := by
    rw [show 2 * (c * (n % d)) = c * (2 * (n % d)) by ring]
    exact Nat.mul_lt_mul_left hc
  have e2 : (c * d < 2 * (c * (n % d))) ↔ (d < 2 * (n % d)) := by
    rw [show 2 * (c * (n % d)) = c * (2 * (n % d)) by ring]
    exact Nat.mul_lt_mul_left hc
  simp only [e1, e2]

theorem roundMag_scale (c num den : Nat) (hc : 0 < c) :
    roundMag (c * num) (c * den) = roundMag num den := by
  unfold roundMag
  generalize (2 : Nat) ^ 1074 = p
  simp only []
  rw [show c * num * p = c * (num * p) by ring, Nat.mul_div_mul_left _ _ hc,
    show c * den * 2 ^ (floorLog2 (num * p / den) - 52) =
      c * (den * 2 ^ (floorLog2 (num * p / den) - 52)) by ring,
    roundHalfEven_scale _ _ _ hc]

theorem roundMag_zero (den : Nat) (h : 0 < den) : roundMag 0 den = 0 := by
  unfold roundMag
  generalize (2 : Nat) ^ 1074 = p
  simp [floorLog2, log2Fuel, roundHalfEven, h]

/-- A finite binary64 value is its own rounding. -/
theorem roundMag_scaledMag (bits : Nat) :
    roundMag (scaledMag bits) (2 ^ 1074) = bits := by
  have hp : 0 < 2 ^ 1074 := pow_pos (by decide) _
  unfold roundMag
  generalize (2 : Nat) ^ 1074 = p at hp ⊢
  simp only [Nat.mul_div_cancel _ hp]
  unfold scaledMag
  split_ifs with hsmall
  · have hl : floorLog2 bits ≤ 51 := floorLog2_lt bits 51 hsmall
    have hs : floorLog2 bits - 52 = 0 := by omega
    rw [hs, pow_zero, mul_one, roundHalfEven_mul _ _ hp]
    simp
  · have hE : 1 ≤ bits / 2 ^ 52 := by
      rw [Nat.le_div_iff_mul_le (pow_pos (by decide) _)]; omega
    have hF : bits % 2 ^ 52 < 2 ^ 52 := Nat.mod_lt _ (pow_pos (by decide) _)
    have hlog : floorLog2 ((2 ^ 52 + bits % 2 ^ 52) * 2 ^ (bits / 2 ^ 52 - 1)) =
        52 + (bits / 2 ^ 52 - 1) := by
      apply floorLog2_eq
      · rw [pow_add]; exact Nat.mul_le_mul_right _ (by omega)
      · rw [show 52 + (bits / 2 ^ 52 - 1) + 1 = 53 + (bits / 2 ^ 52 - 1) by omega, pow_add]
        exact Nat.mul_lt_mul_of_pos_right (by omega) (pow_pos (by decide) _)
    rw [hlog, show 52 + (bits / 2 ^ 52 - 1) - 52 = bits / 2 ^ 52 - 1 by omega,
      show (2 ^ 52 + bits % 2 ^ 52) * 2 ^ (bits / 2 ^ 52 - 1) * p =
        (2 ^ 52 + bits % 2 ^ 52) * (p * 2 ^ (bits / 2 ^ 52 - 1)) by ring,
      roundHalfEven_mul _ _ (Nat.mul_pos hp (pow_pos (by decide) _))]
    have := Nat.div_add_mod bits (2 ^ 52)
    have hsub : (bits / 2 ^ 52 - 1) * 2 ^ 52 = bits / 2 ^ 52 * 2 ^ 52 - 2 ^ 52 := by
      rw [Nat.sub_mul, one_mul]
    have hge : 2 ^ 52 ≤ bits / 2 ^ 52 * 2 ^ 52 := by
      calc 2 ^ 52 = 1 * 2 ^ 52 := by ring
        _ ≤ bits / 2 ^ 52 * 2 ^ 52 := Nat.mul_le_mul_right _ hE
    rw [hsub]
    rw [Nat.mul_comm] at this
    omega

/-- The exact decimal expansion of a finite binary64 value rounds to it. -/
theorem decimalMag_exact (bits : Nat) :
    decimalMag (scaledMag bits * 5 ^ 1074) (-1074) = bits := by
  have h10 : (10 : Nat) ^ 1074 = 5 ^ 1074 * 2 ^ 1074 := by
    rw [← Nat.mul_pow]
  simp only [decimalMag]
  rw [if_neg (by decide)]
  rw [show (-(-1074 : Int)).toNat = 1074 by decide, h10, Nat.mul_comm (scaledMag bits),
    roundMag_scale _ _ _ (pow_pos (by decide) _), roundMag_scaledMag]

theorem decimalMag_zero (e : Int) : decimalMag 0 e = 0 := by
  simp only [decimalMag]
  split_ifs
  · simp [roundMag_zero]
  · exact roundMag_zero _ (pow_pos (by decide) _)

/-! ### The digits chosen by `Number::toString` -/

theorem digitCandidate_valid (bits d len k : Nat) (c : Decimal)
    (h : digitCandidate bits d len k = some c) : decimalMag c.s c.e = bits := by
  unfold digitCandidate at h
  simp only [Bool.and_eq_true, decide_eq_true_eq] at h
  split_ifs at h with h1 h2 h3 h4 h5 h6 <;> simp only [Option.some.injEq] at h <;> subst h
  all_goals first
    | exact h1.1
    | exact h1.2
    | exact h5
    | exact h6
    | simp_all

theorem digitSearch_valid (bits d len : Nat) : ∀ (fuel k : Nat) (c : Decimal),
    digitSearch bits d len fuel k = some c → decimalMag c.s c.e = bits := by
  intro fuel
  induction fuel with
  | zero => intro k c h; simp [digitSearch] at h
  | succ f ih =>
    intro k c h
    simp only [digitSearch] at h
    split at h
    · rename_i c2 hc
      simp only [Option.some.injEq] at h
      subst h
      exact digitCandidate_valid _ _ _ _ _ hc
    · exact ih _ _ h

/-- The decimal chosen by `Number::toString` rounds back to the value. -/
theorem shortestDecimal_valid (bits : Nat) :
    decimalMag (shortestDecimal bits).s (shortestDecimal bits).e = bits := by
  unfold shortestDecimal
  simp only []
  split
  · rename_i c hc
    exact digitSearch_valid _ _ _ _ _ _ hc
  · exact decimalMag_exact bits

theorem shortestDecimal_pos (bits : Nat) (h : bits ≠ 0) : 0 < (shortestDecimal bits).s := by
  rcases Nat.eq_zero_or_pos (shortestDecimal bits).s with h0 | h0
  · have := shortestDecimal_valid bits
    rw [h0, decimalMag_zero] at this
    exact absurd this.symm h
  · exact h0

/-! ### Decimal digits -/

theorem numDigitsAux_spec : ∀ fuel n : Nat, n ≤ fuel →
    n < 10 ^ numDigitsAux fuel n ∧ (0 < n → 10 ^ (numDigitsAux fuel n - 1) ≤ n) := by
  intro fuel
  induction fuel with
  | zero => intro n h; have : n = 0 := by omega
            subst this; simp [numDigitsAux]
  | succ f ih =>
    intro n h
    simp only [numDigitsAux]
    split_ifs with h0
    · subst h0; simp
    · have hdiv : n / 10 ≤ f := by omega
      obtain ⟨h1, h2⟩ := ih (n / 10) hdiv
      refine ⟨?_, fun _ => ?_⟩
      · rw [pow_succ]
        have := Nat.div_add_mod n 10
        have := Nat.mod_lt n (by decide : 10 > 0)
        omega
      · simp only [Nat.add_sub_cancel]
        by_cases hlt : n < 10
        · have : n / 10 = 0 := by omega
          rw [this]
          cases f <;> simp [numDigitsAux] <;> omega
        · have hpos : 0 < n / 10 := by omega
          have h3 := h2 hpos
          have hnd : 0 < numDigitsAux f (n / 10) := by
            by_contra hz
            have hz : numDigitsAux f (n / 10) = 0 := by omega
            rw [hz] at h1
            simp at h1
            omega
          have : numDigitsAux f (n / 10) = (numDigitsAux f (n / 10) - 1) + 1 := by omega
          rw [this, pow_succ]
          have := Nat.div_add_mod n 10
          omega

theorem lt_pow_numDigits (n : Nat) : n < 10 ^ numDigits n :=
  (numDigitsAux_spec n n (Nat.le_refl n)).1

theorem pow_numDigits_le (n : Nat) (h : 0 < n) : 10 ^ (numDigits n - 1) ≤ n :=
  (numDigitsAux_spec n n (Nat.le_refl n)).2 h

theorem numDigits_pos (n : Nat) (h : 0 < n) : 0 < numDigits n := by
  by_contra hz
  have hz : numDigits n = 0 := by omega
  have := lt_pow_numDigits n
  rw [hz] at this
  simp at this
  omega

theorem length_decDigits : ∀ k n : Nat, (decDigits k n).length = k := by
  intro k
  induction k with
  | zero => intro n; simp [decDigits]
  | succ k ih => intro n; simp [decDigits, ih]

theorem decDigits_lt : ∀ k n d : Nat, d ∈ decDigits k n → d < 10 := by
  intro k
  induction k with
  | zero => intro n d h; simp [decDigits] at h
  | succ k ih =>
    intro n d h
    simp only [decDigits, List.mem_append, List.mem_singleton] at h
    rcases h with h | h
    · exact ih _ _ h
    · subst h; exact Nat.mod_lt _ (by decide)

theorem decDigits_succ_eq_cons : ∀ k n : Nat,
    decDigits (k + 1) n = (n / 10 ^ k % 10) :: decDigits k n := by
  intro k
  induction k with
  | zero => intro n; simp [decDigits]
  | succ k ih =>
    intro n
    rw [decDigits, ih (n / 10)]
    simp only [List.cons_append, List.cons.injEq]
    refine ⟨?_, ?_⟩
    · rw [Nat.div_div_eq_div_mul, pow_succ, Nat.mul_comm]
    · rw [decDigits]

end JSNumber

namespace JSON

theorem digitsValue_foldl (l : List Nat) (a : Nat) :
    l.foldl (fun a d => 10 * a + d) a = a * 10 ^ l.length + digitsValue l := by
  induction l generalizing a with
  | nil => simp [digitsValue]
  | cons d ds ih =>
    simp only [List.foldl_cons, digitsValue, List.length_cons]
    rw [ih, ih (10 * 0 + d)]
    ring

theorem digitsValue_nil : digitsValue [] = 0 := rfl

theorem digitsValue_append (a b : List Nat) :
    digitsValue (a ++ b) = digitsValue a * 10 ^ b.length + digitsValue b := by
  unfold digitsValue
  rw [List.foldl_append, digitsValue_foldl]
  rfl

theorem digitsValue_cons (d : Nat) (l : List Nat) :
    digitsValue (d :: l) = d * 10 ^ l.length + digitsValue l := by
  have := digitsValue_append [d] l
  simpa [digitsValue] using this

theorem digitsValue_replicate_zero (z : Nat) : digitsValue (List.replicate z 0) = 0 := by
  induction z with
  | zero => rfl
  | succ z ih => rw [List.replicate_succ, digitsValue_cons, ih]; simp

theorem digitsValue_decDigits : ∀ k n : Nat, digitsValue (JSNumber.decDigits k n) = n % 10 ^ k := by
  intro k
  induction k with
  | zero => intro n; simp [JSNumber.decDigits, digitsValue, Nat.mod_one]
  | succ k ih =>
    intro n
    rw [JSNumber.decDigits, digitsValue_append, ih]
    simp only [List.length_singleton, pow_one, digitsValue, List.foldl_cons, List.foldl_nil,
      mul_zero, zero_add]
    rw [pow_succ, Nat.mul_comm (10 ^ k) 10, Nat.mod_mul]
    omega

open JSNumber

/-! ### Reading a number -/

theorem takeDigits_digitChars (ds : List Nat) (rest : JSString) (h : ∀ d ∈ ds, d < 10) :
    takeDigits (digitChars ds ++ rest) = (ds ++ (takeDigits rest).1, (takeDigits rest).2) := by
  induction ds with
  | nil => simp [digitChars]
  | cons d ds ih =>
    have hd : d < 10 := h d (List.mem_cons_self _ _)
    have ih2 := ih (fun x hx => h x (List.mem_cons_of_mem _ hx))
    simp only [digitChars, List.map_cons, List.cons_append, takeDigits] at ih2 ⊢
    have hdig : isDigit (48 + d) = true := by simp [isDigit]; omega
    simp [hdig, ih2]

theorem takeDigits_digitChars_stop (ds : List Nat) (rest : JSString) (h : ∀ d ∈ ds, d < 10)
    (hrest : takeDigits rest = ([], rest)) :
    takeDigits (digitChars ds ++ rest) = (ds, rest) := by
  rw [takeDigits_digitChars ds rest h, hrest]; simp

theorem takeDigits_of_head (c : Nat) (cs : JSString) (h : isDigit c = false) :
    takeDigits (c :: cs) = ([], c :: cs) := by
  simp [takeDigits, h]

theorem takeDigits_nil : takeDigits [] = ([], []) := rfl

theorem parseFraction_some (fs : List Nat) (rest : JSString) (hne : fs ≠ [])
    (h : ∀ d ∈ fs, d < 10) (hrest : takeDigits rest = ([], rest)) :
    parseFraction (46 :: (digitChars fs ++ rest)) = some (fs, rest) := by
  cases fs with
  | nil => exact absurd rfl hne
  | cons d ds => simp only [parseFraction, takeDigits_digitChars_stop (d :: ds) rest h hrest]

theorem parseFraction_none_of_head (rest : JSString) (h : rest.head? ≠ some 46) :
    parseFraction rest = some ([], rest) := by
  unfold parseFraction
  split
  · rename_i r; simp at h
  · rfl

theorem parseExponent_of_head (rest : JSString)
    (h1 : rest.head? ≠ some 101) (h2 : rest.head? ≠ some 69) :
    parseExponent rest = some (0, rest) := by
  unfold parseExponent
  split
  · rename_i c r
    simp only [List.head?_cons, ne_eq, Option.some.injEq] at h1 h2
    simp [h1, h2]
  · rfl

theorem parseExponent_pos (es : List Nat) (rest : JSString) (hne : es ≠ [])
    (h : ∀ d ∈ es, d < 10) (hrest : takeDigits rest = ([], rest)) :
    parseExponent (101 :: 43 :: (digitChars es ++ rest)) =
      some ((digitsValue es : Int), rest) := by
  cases es with
  | nil => exact absurd rfl hne
  | cons d ds =>
    simp [parseExponent, takeDigits_digitChars_stop (d :: ds) rest h hrest]

theorem parseExponent_neg (es : List Nat) (rest : JSString) (hne : es ≠ [])
    (h : ∀ d ∈ es, d < 10) (hrest : takeDigits rest = ([], rest)) :
    parseExponent (101 :: 45 :: (digitChars es ++ rest)) =
      some (-(digitsValue es : Int), rest) := by
  cases es with
  | nil => exact absurd rfl hne
  | cons d ds =>
    simp [parseExponent, takeDigits_digitChars_stop (d :: ds) rest h hrest]

/-- The shape of a number the parser reads: integer digits `I`, then whatever
`parseFraction` and `parseExponent` read. -/
theorem parseNumber_digits (neg : Bool) (i0 : Nat) (is fs : List Nat) (ex : Int)
    (r1 r2 r3 : JSString)
    (hI : ∀ d ∈ i0 :: is, d < 10) (hcanon : i0 ≠ 0 ∨ is = [])
    (hstop : takeDigits r1 = ([], r1))
    (hfrac : parseFraction r1 = some (fs, r2))
    (hexp : parseExponent r2 = some (ex, r3)) :
    parseNumber ((if neg then [45] else []) ++ (digitChars (i0 :: is) ++ r1)) =
      some (JSNumber.ofDecimal neg (digitsValue (i0 :: is ++ fs)) (ex - fs.length), r3) := by
  have hi0 : i0 < 10 := hI i0 (List.mem_cons_self _ _)
  have htake := takeDigits_digitChars_stop (i0 :: is) r1 hI hstop
  have hc : ¬ (i0 = 0 ∧ is ≠ []) := by
    rintro ⟨h1, h2⟩
    rcases hcanon with h | h
    · exact h h1
    · exact h2 h
  cases neg with
  | true =>
    simp only [if_true, List.cons_append, List.nil_append, parseNumber, List.head?_cons,
      List.tail_cons]
    simp only [digitChars, List.map_cons, List.cons_append] at htake
    simp only [digitChars, List.map_cons, List.cons_append]
    rw [htake]
    simp [hc, hfrac, hexp]
  | false =>
    have hne : (48 + i0 = 45) = False := by simp; omega
    simp only [digitChars, List.map_cons, List.cons_append] at htake
    simp only [Bool.false_eq_true, if_false, List.nil_append, parseNumber, digitChars,
      List.map_cons, List.cons_append, List.head?_cons, Option.some.injEq, hne]
    rw [htake]
    simp [hc, hfrac, hexp]

/-! ### The layout of `Number::toString`, read back -/

theorem Delim.takeDigits {rest : JSString} (h : Delim rest) : takeDigits rest = ([], rest) := by
  rcases h with h | ⟨c, cs, h, hc⟩
  · subst h; rfl
  · subst h
    apply takeDigits_of_head
    rcases hc with hc | hc | hc <;> subst hc <;> decide

theorem Delim.head_ne {rest : JSString} (h : Delim rest) (c : Nat)
    (h1 : c ≠ 44) (h2 : c ≠ 93) (h3 : c ≠ 125) : rest.head? ≠ some c := by
  rcases h with h | ⟨d, cs, h, hc⟩
  · subst h; simp
  · subst h
    simp only [List.head?_cons, ne_eq, Option.some.injEq]
    rcases hc with hc | hc | hc <;> subst hc <;> exact fun e => by simp_all

theorem digitChars_append (a b : List Nat) :
    digitChars (a ++ b) = digitChars a ++ digitChars b := by
  simp [digitChars]

theorem digitChars_replicate_zero (z : Nat) :
    digitChars (List.replicate z 0) = List.replicate z 48 := by
  simp [digitChars]

theorem natChars_eq (m : Nat) : ∃ es : List Nat,
    natChars m = digitChars es ∧ es ≠ [] ∧ (∀ d ∈ es, d < 10) ∧ digitsValue es = m := by
  unfold natChars
  split_ifs with h0
  · exact ⟨[0], by simp [digitChars], by simp, by simp, by subst h0; rfl⟩
  · have hpos : 0 < m := Nat.pos_of_ne_zero h0
    refine ⟨decDigits (numDigits m) m, rfl, ?_, decDigits_lt _ _, ?_⟩
    · intro hnil
      have := length_decDigits (numDigits m) m
      rw [hnil] at this
      have := numDigits_pos m hpos
      simp at *
      omega
    · rw [digitsValue_decDigits, Nat.mod_eq_of_lt (lt_pow_numDigits m)]

theorem ofDecimal_congr (neg : Bool) {a b : Nat} {x y : Int} (h1 : a = b) (h2 : x = y) :
    ofDecimal neg a x = ofDecimal neg b y := by
  rw [h1, h2]

theorem ofDecimal_shift (neg : Bool) (v z : Nat) :
    ofDecimal neg (v * 10 ^ z) 0 = ofDecimal neg v (z : Int) := by
  simp [ofDecimal, decimalMag]

/-- Reading back the layout of `Number::toString` gives the decimal laid out. -/
theorem parseNumber_formatDecimal (neg : Bool) (d0 : Nat) (ds : List Nat) (n : Int)
    (rest : JSString) (hd : ∀ d ∈ d0 :: ds, d < 10) (h0 : d0 ≠ 0) (hrest : Delim rest) :
    parseNumber ((if neg then [45] else []) ++ (formatDecimal (d0 :: ds) n ++ rest)) =
      some (ofDecimal neg (digitsValue (d0 :: ds)) (n - ((d0 :: ds).length : Nat)), rest) := by
  have hstop := hrest.takeDigits
  have hnofrac := parseFraction_none_of_head rest (hrest.head_ne 46 (by decide) (by decide) (by decide))
  have hnoexp := parseExponent_of_head rest (hrest.head_ne 101 (by decide) (by decide) (by decide))
    (hrest.head_ne 69 (by decide) (by decide) (by decide))
  have hds : ∀ d ∈ ds, d < 10 := fun d h => hd d (List.mem_cons_of_mem _ h)
  unfold formatDecimal
  simp only []
  by_cases hrange : -5 ≤ n ∧ n ≤ 21
  swap
  · rw [if_neg hrange]
    by_cases hone : (d0 :: ds).length = 1
    · rw [if_pos hone]
      obtain ⟨es, hes, hne, hesd, hval⟩ := natChars_eq (n - 1).natAbs
      have hnil : ds = [] := by
        simp only [List.length_cons] at hone
        exact List.length_eq_zero.mp (by omega)
      subst hnil
      rw [hes]
      by_cases hneg : n < 0
      · rw [if_pos hneg]
        have e1 : digitChars [d0] ++ [101, 45] ++ digitChars es ++ rest =
            digitChars [d0] ++ (101 :: 45 :: (digitChars es ++ rest)) := by simp
        rw [e1, parseNumber_digits neg d0 [] [] (-(digitsValue es : Int)) _ _ rest hd (Or.inr rfl)
          (takeDigits_of_head _ _ (by decide))
          (parseFraction_none_of_head _ (by simp))
          (parseExponent_neg es rest hne hesd hstop)]
        refine congrArg some (Prod.ext (ofDecimal_congr neg (by simp) ?_) rfl)
        rw [hval]
        simp only [List.length_nil, Nat.cast_zero, sub_zero, List.length_cons, zero_add,
          Nat.cast_one]
        omega
      · rw [if_neg hneg]
        have e1 : digitChars [d0] ++ [101, 43] ++ digitChars es ++ rest =
            digitChars [d0] ++ (101 :: 43 :: (digitChars es ++ rest)) := by simp
        rw [e1, parseNumber_digits neg d0 [] [] (digitsValue es : Int) _ _ rest hd (Or.inr rfl)
          (takeDigits_of_head _ _ (by decide))
          (parseFraction_none_of_head _ (by simp))
          (parseExponent_pos es rest hne hesd hstop)]
        refine congrArg some (Prod.ext (ofDecimal_congr neg (by simp) ?_) rfl)
        rw [hval]
        simp only [List.length_nil, Nat.cast_zero, sub_zero, List.length_cons, zero_add,
          Nat.cast_one]
        omega
    · rw [if_neg hone]
      obtain ⟨es, hes, hne, hesd, hval⟩ := natChars_eq (n - 1).natAbs
      have hnn : ds ≠ [] := by
        intro hnil; subst hnil; simp at hone
      rw [hes]
      simp only [List.take_succ_cons, List.take_zero, List.drop_succ_cons, List.drop_zero]
      by_cases hneg : n < 0
      · rw [if_pos hneg]
        have e1 : digitChars [d0] ++ [46] ++ digitChars ds ++ [101, 45] ++ digitChars es ++ rest =
            digitChars [d0] ++ (46 :: (digitChars ds ++ (101 :: 45 :: (digitChars es ++ rest)))) := by
          simp
        rw [e1, parseNumber_digits neg d0 [] ds (-(digitsValue es : Int)) _ _ rest
          (by intro d hdm; simp only [List.mem_singleton] at hdm; subst hdm
              exact hd _ (List.mem_cons_self _ _))
          (Or.inr rfl)
          (takeDigits_of_head _ _ (by decide))
          (parseFraction_some _ _ hnn hds (takeDigits_of_head _ _ (by decide)))
          (parseExponent_neg es rest hne hesd hstop)]
        refine congrArg some (Prod.ext (ofDecimal_congr neg (by simp) ?_) rfl)
        have habs : (((n - 1).natAbs : Nat) : Int) = n - 1 ∨
            (((n - 1).natAbs : Nat) : Int) = -(n - 1) := by omega
        rw [hval]
        simp only [List.length_cons, Nat.cast_add, Nat.cast_one]
        omega
      · rw [if_neg hneg]
        have e1 : digitChars [d0] ++ [46] ++ digitChars ds ++ [101, 43] ++ digitChars es ++ rest =
            digitChars [d0] ++ (46 :: (digitChars ds ++ (101 :: 43 :: (digitChars es ++ rest)))) := by
          simp
        rw [e1, parseNumber_digits neg d0 [] ds (digitsValue es : Int) _ _ rest
          (by intro d hdm; simp only [List.mem_singleton] at hdm; subst hdm
              exact hd _ (List.mem_cons_self _ _))
          (Or.inr rfl)
          (takeDigits_of_head _ _ (by decide))
          (parseFraction_some _ _ hnn hds (takeDigits_of_head _ _ (by decide)))
          (parseExponent_pos es rest hne hesd hstop)]
        refine congrArg some (Prod.ext (ofDecimal_congr neg (by simp) ?_) rfl)
        have habs : (((n - 1).natAbs : Nat) : Int) = n - 1 ∨
            (((n - 1).natAbs : Nat) : Int) = -(n - 1) := by omega
        rw [hval]
        simp only [List.length_cons, Nat.cast_add, Nat.cast_one]
        omega
  rw [if_pos hrange]
  by_cases hge : ((d0 :: ds).length : Int) ≤ n
  · rw [if_pos hge]
    -- digits followed by zeros
    obtain ⟨z, hz⟩ : ∃ z : Nat, n - ((d0 :: ds).length : Nat) = z :=
      ⟨(n - ((d0 :: ds).length : Nat)).toNat, by omega⟩
    have hz2 : (n - (↑(d0 :: ds).length : Int)).toNat = z := by omega
    rw [hz2, ← digitChars_replicate_zero, ← digitChars_append, List.cons_append]
    rw [parseNumber_digits neg d0 (ds ++ List.replicate z 0) [] 0 rest rest rest
      (by
        intro d hdm
        simp only [List.mem_cons, List.mem_append, List.mem_replicate] at hdm
        rcases hdm with h | h | h
        · subst h; exact hd _ (List.mem_cons_self _ _)
        · exact hds d h
        · omega)
      (Or.inl h0) hstop hnofrac hnoexp]
    rw [hz, ← ofDecimal_shift]
    simp only [List.append_nil, List.length_nil, Nat.cast_zero, sub_zero]
    rw [← List.cons_append, digitsValue_append, digitsValue_replicate_zero]
    simp
  rw [if_neg hge]
  by_cases hpos : 0 < n
  · rw [if_pos hpos]
    -- digits with a decimal point inside
    obtain ⟨m, hm⟩ : ∃ m : Nat, n = ((m + 1 : Nat) : Int) := ⟨(n - 1).toNat, by omega⟩
    subst hm
    have hlen : m < ds.length := by simp only [List.length_cons] at hge; push_cast at hge; omega
    simp only [Int.toNat_ofNat, List.take_succ_cons, List.drop_succ_cons, List.append_assoc,
      List.singleton_append, List.cons_append, List.nil_append]
    rw [parseNumber_digits neg d0 (ds.take m) (ds.drop m) 0
      (46 :: (digitChars (ds.drop m) ++ rest)) rest rest
      (by
        intro d hdm
        simp only [List.mem_cons] at hdm
        rcases hdm with h | h
        · subst h; exact hd _ (List.mem_cons_self _ _)
        · exact hds d (List.mem_of_mem_take h))
      (Or.inl h0) (takeDigits_of_head _ _ (by decide))
      (parseFraction_some _ _ (by
          intro hnil
          have := List.length_drop m ds
          rw [hnil] at this
          simp at this; omega)
        (fun d h => hds d (List.mem_of_mem_drop h)) hstop)
      hnoexp]
    refine congrArg some (Prod.ext (ofDecimal_congr neg ?_ ?_) rfl)
    · rw [List.cons_append, List.take_append_drop]
    · simp only [List.length_drop, List.length_cons]
      push_cast
      omega
  · rw [if_neg hpos]
    -- zero, point, zeros, digits
    obtain ⟨z, hz⟩ : ∃ z : Nat, -n = z := ⟨(-n).toNat, by omega⟩
    have hz2 : (-n).toNat = z := by omega
    rw [hz2]
    have e1 : [48, 46] ++ List.replicate z 48 ++ digitChars (d0 :: ds) ++ rest =
        digitChars [0] ++ (46 :: (digitChars (List.replicate z 0 ++ d0 :: ds) ++ rest)) := by
      simp [digitChars]
    rw [e1, parseNumber_digits neg 0 [] (List.replicate z 0 ++ d0 :: ds) 0 _ rest rest
      (by simp) (Or.inr rfl) (takeDigits_of_head _ _ (by decide))
      (parseFraction_some _ _ (by simp)
        (by
          intro d hdm
          simp only [List.mem_append, List.mem_replicate] at hdm
          rcases hdm with h | h
          · omega
          · exact hd d h)
        hstop)
      hnoexp]
    refine congrArg some (Prod.ext (ofDecimal_congr neg ?_ ?_) rfl)
    · rw [List.cons_append, List.nil_append, digitsValue_cons, zero_mul, zero_add,
        digitsValue_append, digitsValue_replicate_zero, zero_mul, zero_add]
    · simp only [List.length_append, List.length_replicate, List.length_cons]
      push_cast
      omega

theorem ofDecimal_of_decimalMag (neg : Bool) (s : Nat) (e : Int) (bits : Nat)
    (h : decimalMag s e = bits) (hb : bits < infBits) :
    ofDecimal neg s e = .finite neg bits := by
  simp [ofDecimal, h, hb]

theorem leading_digit_ne_zero (s : Nat) (hs : 0 < s) :
    s / 10 ^ (numDigits s - 1) % 10 ≠ 0 := by
  have h1 := lt_pow_numDigits s
  have h2 := pow_numDigits_le s hs
  have hk := numDigits_pos s hs
  have hpos : 0 < 10 ^ (numDigits s - 1) := pow_pos (by decide) _
  have e : 10 ^ numDigits s = 10 ^ (numDigits s - 1) * 10 := by
    rw [← pow_succ]; congr 1; omega
  have hq1 : 1 ≤ s / 10 ^ (numDigits s - 1) := (Nat.le_div_iff_mul_le hpos).mpr (by omega)
  have hq2 : s / 10 ^ (numDigits s - 1) < 10 := (Nat.div_lt_iff_lt_mul hpos).mpr (by
    rw [Nat.mul_comm]; omega)
  omega

/-- Reading back the text of a finite Number other than `-0` gives the Number. -/
theorem parseNumber_toString (neg : Bool) (bits : Nat) (rest : JSString)
    (hb : bits < infBits) (hz : ¬ (neg = true ∧ bits = 0)) (hrest : Delim rest) :
    parseNumber ((JSNumber.finite neg bits).toString ++ rest) =
      some (JSNumber.finite neg bits, rest) := by
  have hstop := hrest.takeDigits
  have hnofrac := parseFraction_none_of_head rest
    (hrest.head_ne 46 (by decide) (by decide) (by decide))
  have hnoexp := parseExponent_of_head rest
    (hrest.head_ne 101 (by decide) (by decide) (by decide))
    (hrest.head_ne 69 (by decide) (by decide) (by decide))
  simp only [JSNumber.toString]
  by_cases h0 : bits = 0
  · subst h0
    have hneg : neg = false := by cases neg <;> simp_all
    subst hneg
    rw [if_pos rfl]
    have := parseNumber_digits false 0 [] [] 0 rest rest rest (by simp) (Or.inr rfl)
      hstop hnofrac hnoexp
    simp only [Bool.false_eq_true, if_false, List.nil_append, digitChars, List.map_cons,
      List.map_nil, List.append_nil, List.length_nil, Nat.cast_zero, sub_zero,
      List.cons_append, Nat.add_zero] at this
    rw [List.singleton_append, this, ofDecimal_of_decimalMag false _ 0 0 (by simp [digitsValue, decimalMag_zero])
      (by decide)]
  · rw [if_neg h0]
    have hs := shortestDecimal_pos bits h0
    have hv := shortestDecimal_valid bits
    unfold magToString
    simp only []
    generalize shortestDecimal bits = c at hs hv ⊢
    have hk := numDigits_pos c.s hs
    obtain ⟨k, hk2⟩ : ∃ k, numDigits c.s = k + 1 := ⟨numDigits c.s - 1, by omega⟩
    have hform := parseNumber_formatDecimal neg (c.s / 10 ^ k % 10) (decDigits k c.s)
      ((k + 1 : Nat) + c.e) rest
      (by rw [← decDigits_succ_eq_cons]; exact decDigits_lt _ _)
      (by have := leading_digit_ne_zero c.s hs; rw [hk2] at this; simpa using this)
      hrest
    rw [← decDigits_succ_eq_cons, digitsValue_decDigits, length_decDigits, ← hk2,
      Nat.mod_eq_of_lt (lt_pow_numDigits c.s),
      show ((numDigits c.s : Nat) : Int) + c.e - (numDigits c.s : Nat) = c.e by omega,
      ofDecimal_of_decimalMag neg c.s c.e bits hv hb] at hform
    cases neg with
    | true =>
      simp only [if_true, List.singleton_append] at hform
      simp only [if_true, List.cons_append]
      exact hform
    | false =>
      simp only [Bool.false_eq_true, if_false, List.nil_append] at hform ⊢
      exact hform

/-! ### Array index keys -/

theorem digitsValue_lt (ds : List Nat) (h : ∀ d ∈ ds, d < 10) :
    digitsValue ds < 10 ^ ds.length := by
  induction ds with
  | nil => simp [digitsValue]
  | cons d ds ih =>
    have hd := h d (List.mem_cons_self _ _)
    have := ih (fun x hx => h x (List.mem_cons_of_mem _ hx))
    rw [digitsValue_cons, List.length_cons, pow_succ]
    nlinarith

/-- Digit lists of the same length with the same value are equal. -/
theorem digits_eq_of_value_eq : ∀ (a b : List Nat), a.length = b.length →
    (∀ d ∈ a, d < 10) → (∀ d ∈ b, d < 10) → digitsValue a = digitsValue b → a = b := by
  intro a
  induction a with
  | nil => intro b hl _ _ _; exact (List.length_eq_zero.mp hl.symm).symm
  | cons x xs ih =>
    intro b hl ha hb hv
    cases b with
    | nil => simp at hl
    | cons y ys =>
      have hlen : xs.length = ys.length := by simpa using hl
      have hx := ha x (List.mem_cons_self _ _)
      have hy := hb y (List.mem_cons_self _ _)
      have hxs := digitsValue_lt xs (fun d h => ha d (List.mem_cons_of_mem _ h))
      have hys := digitsValue_lt ys (fun d h => hb d (List.mem_cons_of_mem _ h))
      rw [digitsValue_cons, digitsValue_cons, hlen] at hv
      rw [hlen] at hxs
      have hxy : x = y := by
        rcases Nat.lt_trichotomy x y with h | h | h
        · exfalso
          have : (x + 1) * 10 ^ ys.length ≤ y * 10 ^ ys.length :=
            Nat.mul_le_mul_right _ h
          rw [Nat.add_mul, one_mul] at this
          omega
        · exact h
        · exfalso
          have : (y + 1) * 10 ^ ys.length ≤ x * 10 ^ ys.length :=
            Nat.mul_le_mul_right _ h
          rw [Nat.add_mul, one_mul] at this
          omega
      subst hxy
      have hv2 : digitsValue xs = digitsValue ys := by omega
      rw [ih ys hlen (fun d h => ha d (List.mem_cons_of_mem _ h))
        (fun d h => hb d (List.mem_cons_of_mem _ h)) hv2]

/-- Canonical numerals (no leading zero) with the same value are equal. -/
theorem canonical_digits_eq (a b : List Nat)
    (ha : ∀ d ∈ a, d < 10) (hb : ∀ d ∈ b, d < 10) (hane : a ≠ []) (hbne : b ≠ [])
    (hca : a.head? ≠ some 0 ∨ a.length = 1) (hcb : b.head? ≠ some 0 ∨ b.length = 1)
    (hv : digitsValue a = digitsValue b) : a = b := by
  have key : ∀ (x : List Nat), (∀ d ∈ x, d < 10) → x ≠ [] →
      (x.head? ≠ some 0 ∨ x.length = 1) →
      (digitsValue x = 0 → x = [0]) ∧ (0 < digitsValue x → 10 ^ (x.length - 1) ≤ digitsValue x) := by
    intro x hx hne hc
    cases x with
    | nil => exact absurd rfl hne
    | cons d ds =>
      rw [digitsValue_cons]
      have hdl := digitsValue_lt ds (fun y hy => hx y (List.mem_cons_of_mem _ hy))
      have hp : 0 < 10 ^ ds.length := pow_pos (by decide) _
      refine ⟨fun h0 => ?_, fun hgt0 => ?_⟩
      · have hd0 : d = 0 := by
          rcases Nat.eq_zero_or_pos d with h | h
          · exact h
          · have : 1 * 10 ^ ds.length ≤ d * 10 ^ ds.length := Nat.mul_le_mul_right _ h
            omega
        subst hd0
        rcases hc with hc | hc
        · simp at hc
        · simp only [List.length_cons, Nat.add_left_eq_self] at hc
          rw [List.length_eq_zero.mp hc]
      · simp only [List.length_cons, Nat.add_sub_cancel]
        rcases hc with hc | hc
        · have hd : 1 ≤ d := by
            rcases Nat.eq_zero_or_pos d with h | h
            · subst h; simp at hc
            · exact h
          have : 1 * 10 ^ ds.length ≤ d * 10 ^ ds.length := Nat.mul_le_mul_right _ hd
          omega
        · simp only [List.length_cons, Nat.add_left_eq_self] at hc
          have hnil := List.length_eq_zero.mp hc
          subst hnil
          have hgt := hgt0
          simp only [List.length_nil, pow_zero, mul_one] at hgt ⊢
          exact hgt
  obtain ⟨ha0, ha1⟩ := key a ha hane hca
  obtain ⟨hb0, hb1⟩ := key b hb hbne hcb
  rcases Nat.eq_zero_or_pos (digitsValue a) with h0 | hpos
  · rw [ha0 h0, hb0 (hv ▸ h0)]
  · have hposb : 0 < digitsValue b := hv ▸ hpos
    have hla := digitsValue_lt a ha
    have hlb := digitsValue_lt b hb
    have h1 := ha1 hpos
    have h2 := hb1 hposb
    have hlen : a.length = b.length := by
      have hapos : 0 < a.length := List.length_pos.mpr hane
      have hbpos : 0 < b.length := List.length_pos.mpr hbne
      rcases Nat.lt_trichotomy a.length b.length with h | h | h
      · exfalso
        have : 10 ^ a.length ≤ 10 ^ (b.length - 1) :=
          Nat.pow_le_pow_right (by decide) (by omega)
        omega
      · exact h
      · exfalso
        have : 10 ^ b.length ≤ 10 ^ (a.length - 1) :=
          Nat.pow_le_pow_right (by decide) (by omega)
        omega
    exact digits_eq_of_value_eq a b hlen ha hb hv

end JSON

namespace JSValue
open JSON

theorem arrayIndex_eq_some (key : JSString) (i : Nat) (h : arrayIndex key = some i) :
    key ≠ [] ∧ (∀ u ∈ key, 48 ≤ u ∧ u ≤ 57) ∧
    ((key.map (· - 48)).head? ≠ some 0 ∨ (key.map (· - 48)).length = 1) ∧
    digitsValue (key.map (· - 48)) = i := by
  cases key with
  | nil => simp [arrayIndex] at h
  | cons c cs =>
    simp only [arrayIndex] at h
    split_ifs at h with h1 h2
    · simp only [Option.some.injEq] at h
      simp only [Bool.and_eq_true, List.all_eq_true, decide_eq_true_eq, Bool.or_eq_true,
        bne_iff_ne, ne_eq, List.isEmpty_iff] at h1
      refine ⟨by simp, h1.1, ?_, ?_⟩
      · rcases h1.2 with hc | hc
        · left
          have := (h1.1 c (List.mem_cons_self _ _)).1
          simp only [List.map_cons, List.head?_cons, ne_eq, Option.some.injEq]
          omega
        · right; subst hc; simp
      · rw [← h]
        simp only [digitsValue, List.foldl_map]

theorem arrayIndex_injective (a b : JSString) (i : Nat)
    (ha : arrayIndex a = some i) (hb : arrayIndex b = some i) : a = b := by
  obtain ⟨ha1, ha2, ha3, ha4⟩ := arrayIndex_eq_some a i ha
  obtain ⟨hb1, hb2, hb3, hb4⟩ := arrayIndex_eq_some b i hb
  have hmap : a.map (· - 48) = b.map (· - 48) := by
    apply canonical_digits_eq
    · intro d hd
      obtain ⟨u, hu, rfl⟩ := List.mem_map.mp hd
      have := ha2 u hu; omega
    · intro d hd
      obtain ⟨u, hu, rfl⟩ := List.mem_map.mp hd
      have := hb2 u hu; omega
    · simpa using ha1
    · simpa using hb1
    · exact ha3
    · exact hb3
    · rw [ha4, hb4]
  have hback : ∀ (k : JSString), (∀ u ∈ k, 48 ≤ u ∧ u ≤ 57) →
      (k.map (· - 48)).map (48 + ·) = k := by
    intro k hk
    rw [List.map_map]
    conv_rhs => rw [← List.map_id k]
    apply List.map_congr_left
    intro u hu
    have := hk u hu
    simp only [Function.comp_apply, id_eq]
    omega
  rw [← hback a ha2, ← hback b hb2, hmap]

/-! ### Properties in enumeration order -/

theorem lookup_isSome_iff (key : JSString) (props : List (JSString × JSValue)) :
    (props.lookup key).isSome = true ↔ key ∈ props.map Prod.fst := by
  induction props with
  | nil => simp
  | cons p ps ih =>
    obtain ⟨k, x⟩ := p
    simp only [List.lookup_cons, List.map_cons, List.mem_cons]
    by_cases hk : key = k
    · subst hk; simp
    · have : (key == k) = false := by simpa using hk
      rw [this]
      simp [hk, ih]

theorem map_fst_replaceProp (key : JSString) (v : JSValue) (props : List (JSString × JSValue)) :
    (replaceProp key v props).map Prod.fst = props.map Prod.fst := by
  induction props with
  | nil => rfl
  | cons p ps ih =>
    obtain ⟨k, x⟩ := p
    simp only [replaceProp]
    split_ifs <;> simp [ih]

theorem mem_map_fst_insertIndexProp (key : JSString) (i : Nat) (v : JSValue)
    (props : List (JSString × JSValue)) (a : JSString) :
    a ∈ (insertIndexProp key i v props).map Prod.fst ↔ a = key ∨ a ∈ props.map Prod.fst := by
  induction props with
  | nil => simp [insertIndexProp]
  | cons p ps ih =>
    obtain ⟨k, x⟩ := p
    simp only [insertIndexProp]
    split
    · split_ifs
      · simp only [List.map_cons, List.mem_cons, ih]
        tauto
      · simp
    · simp

theorem keysOrdered_insertIndexProp (key : JSString) (i : Nat) (v : JSValue)
    (hkey : arrayIndex key = some i) (props : List (JSString × JSValue))
    (hnew : key ∉ props.map Prod.fst) (h : KeysOrdered props) :
    KeysOrdered (insertIndexProp key i v props) := by
  induction props with
  | nil => simp [insertIndexProp, KeysOrdered]
  | cons p ps ih =>
    obtain ⟨k, x⟩ := p
    simp only [KeysOrdered, List.map_cons, List.pairwise_cons] at h
    simp only [List.map_cons, List.mem_cons, not_or] at hnew
    obtain ⟨hk, hps⟩ := h
    simp only [insertIndexProp]
    cases hj : arrayIndex k with
    | some j =>
      simp only []
      split_ifs with hlt
      · simp only [KeysOrdered, List.map_cons, List.pairwise_cons]
        refine ⟨?_, ih hnew.2 hps⟩
        intro a ha
        rcases (mem_map_fst_insertIndexProp key i v ps a).mp ha with ha | ha
        · subst ha
          refine ⟨fun e => hnew.1 e.symm, ?_⟩
          rw [hj, hkey]; exact hlt
        · exact hk a ha
      · have hne : j ≠ i := by
          intro e
          subst e
          exact hnew.1 (arrayIndex_injective key k j hkey hj)
        have hij : i < j := by omega
        simp only [KeysOrdered, List.map_cons, List.pairwise_cons, List.mem_cons]
        refine ⟨?_, hk, hps⟩
        intro a ha
        rcases ha with ha | ha
        · subst ha
          refine ⟨hnew.1, ?_⟩
          rw [hkey, hj]; exact hij
        · refine ⟨fun e => hnew.2 (e ▸ ha), ?_⟩
          have hka := (hk a ha).2
          rw [hj] at hka
          rw [hkey]
          cases hia : arrayIndex a with
          | some l => rw [hia] at hka; simp only [] at hka ⊢; omega
          | none => trivial
    | none =>
      simp only [KeysOrdered, List.map_cons, List.pairwise_cons, List.mem_cons]
      refine ⟨?_, hk, hps⟩
      intro a ha
      rcases ha with ha | ha
      · subst ha
        refine ⟨hnew.1, ?_⟩
        rw [hkey, hj]; trivial
      · refine ⟨fun e => hnew.2 (e ▸ ha), ?_⟩
        have hka := (hk a ha).2
        rw [hj] at hka
        rw [hkey]
        cases hia : arrayIndex a with
        | some l => rw [hia] at hka; exact hka.elim
        | none => trivial

/-- `CreateDataProperty` keeps the property list in enumeration order. -/
theorem keysOrdered_setProp (props : List (JSString × JSValue)) (key : JSString) (v : JSValue)
    (h : KeysOrdered props) : KeysOrdered (setProp props key v) := by
  unfold setProp
  split_ifs with hmem
  · simp only [KeysOrdered, map_fst_replaceProp]
    exact h
  · have hnew : key ∉ props.map Prod.fst := fun hin =>
      hmem ((lookup_isSome_iff key props).mpr hin)
    cases hi : arrayIndex key with
    | some i => exact keysOrdered_insertIndexProp key i v hi props hnew h
    | none =>
      simp only [KeysOrdered, List.map_append, List.map_cons, List.map_nil]
      rw [List.pairwise_append]
      refine ⟨h, by simp, ?_⟩
      intro a ha b hb
      simp only [List.mem_singleton] at hb
      subst hb
      refine ⟨fun e => hnew (e ▸ ha), ?_⟩
      rw [hi]
      cases arrayIndex a <;> trivial

theorem insertIndexProp_append (key : JSString) (i : Nat) (v : JSValue)
    (props : List (JSString × JSValue))
    (h : ∀ a ∈ props.map Prod.fst, ∃ j, arrayIndex a = some j ∧ j < i) :
    insertIndexProp key i v props = props ++ [(key, v)] := by
  induction props with
  | nil => rfl
  | cons p ps ih =>
    obtain ⟨k, x⟩ := p
    obtain ⟨j, hj, hlt⟩ := h k (by simp)
    simp only [insertIndexProp, hj, hlt, if_true, List.cons_append]
    rw [ih (fun a ha => h a (by simp only [List.map_cons, List.mem_cons]; exact Or.inr ha))]

/-- Creating the properties of an ordered list one after the other, after the
properties that precede them, appends them. -/
theorem foldl_setProp_of_keysOrdered (props acc : List (JSString × JSValue))
    (h : KeysOrdered (acc ++ props)) :
    props.foldl (fun ps m => setProp ps m.1 m.2) acc = acc ++ props := by
  induction props generalizing acc with
  | nil => simp
  | cons p ps ih =>
    obtain ⟨k, v⟩ := p
    have hset : setProp acc k v = acc ++ [(k, v)] := by
      simp only [KeysOrdered, List.map_append, List.map_cons, List.pairwise_append,
        List.pairwise_cons, List.mem_cons] at h
      obtain ⟨_, _, hcross⟩ := h
      have hnew : k ∉ acc.map Prod.fst := fun hin => (hcross k hin k (Or.inl rfl)).1 rfl
      have hmem : ¬ (acc.lookup k).isSome = true := fun hs =>
        hnew ((lookup_isSome_iff k acc).mp hs)
      unfold setProp
      rw [if_neg hmem]
      cases hi : arrayIndex k with
      | none => rfl
      | some i =>
        simp only []
        apply insertIndexProp_append
        intro a ha
        have hb := (hcross a ha k (Or.inl rfl)).2
        rw [hi] at hb
        cases hia : arrayIndex a with
        | some j => rw [hia] at hb; exact ⟨j, rfl, hb⟩
        | none => rw [hia] at hb; exact hb.elim
    simp only [List.foldl_cons, hset]
    rw [ih (acc ++ [(k, v)]) (by simpa using h)]
    simp

theorem keysOrdered_foldl_setProp (members acc : List (JSString × JSValue))
    (h : KeysOrdered acc) :
    KeysOrdered (members.foldl (fun ps m => setProp ps m.1 m.2) acc) := by
  induction members generalizing acc with
  | nil => exact h
  | cons m ms ih => exact ih _ (keysOrdered_setProp acc m.1 m.2 h)

end JSValue

namespace JSON
open JSValue

/-! ### Values, read back -/

theorem utf16_null : utf16 "null" = [110, 117, 108, 108] := by decide
theorem utf16_true : utf16 "true" = [116, 114, 117, 101] := by decide
theorem utf16_false : utf16 "false" = [102, 97, 108, 115, 101] := by decide

theorem skipWs_cons_of_not_ws (c : Nat) (cs : JSString) (h : isWs c = false) :
    skipWs (c :: cs) = c :: cs := by
  simp [skipWs, h]

theorem Delim.skipWs {rest : JSString} (h : Delim rest) : skipWs rest = rest := by
  rcases h with h | ⟨c, cs, h, hc⟩
  · subst h; rfl
  · subst h
    apply skipWs_cons_of_not_ws
    rcases hc with hc | hc | hc <;> subst hc <;> decide

theorem parseNumber_head (c : Nat) (cs : JSString) (p : JSNumber × JSString)
    (h : parseNumber (c :: cs) = some p) : c = 45 ∨ isDigit c = true := by
  by_cases hc : c = 45
  · exact Or.inl hc
  · right
    by_contra hd
    have hd : isDigit c = false := by simpa using hd
    simp only [parseNumber, List.head?_cons, Option.some.injEq, hc, if_false,
      takeDigits, hd] at h
    simp at h

theorem toString_zero (neg : Bool) : (JSNumber.finite neg 0).toString = [48] := by
  simp [JSNumber.toString]

/-- Reading back the text of a finite Number gives the Number, `-0` read as `0`. -/
theorem parseNumber_toString_written (neg : Bool) (bits : Nat) (rest : JSString)
    (hb : bits < JSNumber.infBits) (hrest : Delim rest) :
    parseNumber ((JSNumber.finite neg bits).toString ++ rest) =
      some (JSNumber.finite (neg && bits != 0) bits, rest) := by
  by_cases h0 : bits = 0
  · subst h0
    rw [toString_zero neg, ← toString_zero false]
    simpa using parseNumber_toString false 0 rest hb (by simp) hrest
  · have hne : (bits != 0) = true := by simpa using h0
    rw [hne, Bool.and_true]
    exact parseNumber_toString neg bits rest hb (fun h => h0 h.2) hrest

/-- The first code unit of a serialized value: not white space, and not a
closing bracket or brace. -/
theorem serialize_head (v : JSValue) (t : JSString) (h : serialize v = some t)
    (hv : WellFormed v) :
    ∃ c cs, t = c :: cs ∧ isWs c = false ∧ c ≠ 93 ∧ c ≠ 125 := by
  cases v with
  | undefined => simp [serialize] at h
  | null =>
    simp only [serialize, Option.some.injEq] at h; subst h
    exact ⟨110, _, utf16_null, by decide, by decide, by decide⟩
  | bool b =>
    simp only [serialize, Option.some.injEq] at h; subst h
    cases b
    · exact ⟨102, _, utf16_false, by decide, by decide, by decide⟩
    · exact ⟨116, _, utf16_true, by decide, by decide, by decide⟩
  | number x =>
    cases x with
    | nan => simp [WellFormed] at hv
    | inf neg =>
      simp only [serialize, Option.some.injEq] at h; subst h
      exact ⟨110, _, utf16_null, by decide, by decide, by decide⟩
    | finite neg bits =>
      simp only [serialize, Option.some.injEq] at h
      simp only [WellFormed] at hv
      have hrt := parseNumber_toString_written neg bits [] hv (Or.inl rfl)
      rw [List.append_nil, h] at hrt
      cases t with
      | nil => simp [parseNumber, takeDigits] at hrt
      | cons c cs =>
        refine ⟨c, cs, rfl, ?_⟩
        rcases parseNumber_head c cs _ hrt with hc | hc
        · subst hc; decide
        · simp only [isDigit, decide_eq_true_eq] at hc
          simp only [isWs, Bool.or_eq_false_iff, decide_eq_false_iff_not]
          omega
  | string s =>
    simp only [serialize, Option.some.injEq] at h; subst h
    exact ⟨34, _, rfl, by decide, by decide, by decide⟩
  | array items =>
    simp only [serialize, Option.some.injEq] at h; subst h
    exact ⟨91, _, rfl, by decide, by decide, by decide⟩
  | object props =>
    simp only [serialize, Option.some.injEq] at h; subst h
    exact ⟨123, _, rfl, by decide, by decide, by decide⟩

theorem serialize_isSome (v : JSValue) (hv : WellFormed v) : ∃ t, serialize v = some t := by
  cases v with
  | undefined => simp [WellFormed] at hv
  | number x => cases x <;> simp [serialize]
  | _ => simp [serialize]

theorem parseValue_null (fuel : Nat) (rest : JSString) :
    parseValue (fuel + 1) (utf16 "null" ++ rest) = some (.null, rest) := by
  simp [parseValue, utf16_null, parseLiteral]

theorem parseValue_true (fuel : Nat) (rest : JSString) :
    parseValue (fuel + 1) (utf16 "true" ++ rest) = some (.bool true, rest) := by
  simp [parseValue, utf16_true, parseLiteral]

theorem parseValue_false (fuel : Nat) (rest : JSString) :
    parseValue (fuel + 1) (utf16 "false" ++ rest) = some (.bool false, rest) := by
  simp [parseValue, utf16_false, parseLiteral]

theorem parseValue_string (fuel : Nat) (s rest : JSString) :
    parseValue (fuel + 1) (quote s ++ rest) = some (.string s, rest) := by
  simp only [quote, List.cons_append, List.append_assoc, List.singleton_append, parseValue]
  simp [parseStringBody_quoteChars]

theorem parseValue_number (fuel : Nat) (input : JSString) (x : JSNumber) (rest : JSString)
    (h : parseNumber input = some (x, rest)) :
    parseValue (fuel + 1) input = some (.number x, rest) := by
  cases input with
  | nil => simp [parseNumber, takeDigits] at h
  | cons c cs =>
    have hc : c = 45 ∨ (48 ≤ c ∧ c ≤ 57) := by
      rcases parseNumber_head c cs _ h with hc | hc
      · exact Or.inl hc
      · exact Or.inr (by simpa [isDigit] using hc)
    have h34 : c ≠ 34 := by omega
    have h91 : c ≠ 91 := by omega
    have h123 : c ≠ 123 := by omega
    have h116 : c ≠ 116 := by omega
    have h102 : c ≠ 102 := by omega
    have h110 : c ≠ 110 := by omega
    simp only [parseValue, h34, h91, h123, h116, h102, h110, if_false, h, Option.map_some']

theorem parseElements_last (pv : JSString → Option (JSValue × JSString)) (n : Nat)
    (v : JSValue) (sv rest : JSString)
    (hpv : pv (sv ++ 93 :: rest) = some (v, 93 :: rest)) :
    parseElements pv (n + 1) (sv ++ 93 :: rest) = some ([v], rest) := by
  simp [parseElements, hpv, skipWs, isWs]

theorem parseElements_more (pv : JSString → Option (JSValue × JSString)) (n : Nat)
    (v : JSValue) (sv next : JSString)
    (hpv : pv (sv ++ 44 :: next) = some (v, 44 :: next)) (hws : skipWs next = next) :
    parseElements pv (n + 1) (sv ++ 44 :: next) =
      (parseElements pv n next).map (fun p => (v :: p.1, p.2)) := by
  simp [parseElements, hpv, skipWs, isWs, hws]

theorem parseMembers_last (pv : JSString → Option (JSValue × JSString)) (n : Nat)
    (k : JSString) (v : JSValue) (sv rest : JSString)
    (hpv : pv (sv ++ 125 :: rest) = some (v, 125 :: rest))
    (hws : skipWs (sv ++ 125 :: rest) = sv ++ 125 :: rest) :
    parseMembers pv (n + 1) (quote k ++ 58 :: (sv ++ 125 :: rest)) = some ([(k, v)], rest) := by
  simp only [quote, List.cons_append, List.append_assoc, List.singleton_append, parseMembers,
    if_true, parseStringBody_quoteChars]
  simp [skipWs, isWs, hws, hpv]

theorem parseMembers_more (pv : JSString → Option (JSValue × JSString)) (n : Nat)
    (k : JSString) (v : JSValue) (sv next : JSString)
    (hpv : pv (sv ++ 44 :: next) = some (v, 44 :: next))
    (hws : skipWs (sv ++ 44 :: next) = sv ++ 44 :: next) (hnext : skipWs next = next) :
    parseMembers pv (n + 1) (quote k ++ 58 :: (sv ++ 44 :: next)) =
      (parseMembers pv n next).map (fun p => ((k, v) :: p.1, p.2)) := by
  simp only [quote, List.cons_append, List.append_assoc, List.singleton_append, parseMembers,
    if_true, parseStringBody_quoteChars]
  simp [skipWs, isWs, hws, hpv, hnext]

theorem parseValue_array_empty (fuel : Nat) (rest : JSString) :
    parseValue (fuel + 1) (91 :: 93 :: rest) = some (.array [], rest) := by
  simp [parseValue, skipWs, isWs]

theorem parseValue_object_empty (fuel : Nat) (rest : JSString) :
    parseValue (fuel + 1) (123 :: 125 :: rest) = some (.object [], rest) := by
  simp [parseValue, skipWs, isWs]

theorem parseValue_array (fuel : Nat) (c : Nat) (cs : JSString) (items : List JSValue)
    (rest : JSString) (hws : isWs c = false) (hc : c ≠ 93)
    (h : parseElements (parseValue fuel) (cs.length + 1) (c :: cs) = some (items, rest)) :
    parseValue (fuel + 1) (91 :: c :: cs) = some (.array items, rest) := by
  simp [parseValue, skipWs, hws, hc, h]

theorem parseValue_object (fuel : Nat) (c : Nat) (cs : JSString)
    (members : List (JSString × JSValue)) (rest : JSString) (hws : isWs c = false)
    (hc : c ≠ 125)
    (h : parseMembers (parseValue fuel) (cs.length + 1) (c :: cs) = some (members, rest)) :
    parseValue (fuel + 1) (123 :: c :: cs) = some (buildObject members, rest) := by
  simp [parseValue, skipWs, hws, hc, h]

theorem buildObject_of_keysOrdered (props : List (JSString × JSValue))
    (h : KeysOrdered props) : buildObject props = .object props := by
  unfold buildObject
  rw [foldl_setProp_of_keysOrdered props [] (by simpa using h)]
  rfl

theorem length_le_joinTail (parts : List JSString) :
    parts.length ≤ (joinTail parts).length := by
  induction parts with
  | nil => simp [joinTail]
  | cons p ps ih => simp only [joinTail, List.length_cons, List.length_append]; omega

theorem delim_comma (next : JSString) : Delim (44 :: next) :=
  Or.inr ⟨44, next, rfl, Or.inl rfl⟩

theorem delim_bracket (next : JSString) : Delim (93 :: next) :=
  Or.inr ⟨93, next, rfl, Or.inr (Or.inl rfl)⟩

theorem delim_brace (next : JSString) : Delim (125 :: next) :=
  Or.inr ⟨125, next, rfl, Or.inr (Or.inr rfl)⟩

theorem skipWs_serialize (v : JSValue) (t rest : JSString) (h : serialize v = some t)
    (hv : WellFormed v) : skipWs (t ++ rest) = t ++ rest := by
  obtain ⟨c, cs, ht, hws, _, _⟩ := serialize_head v t h hv
  subst ht
  exact skipWs_cons_of_not_ws c _ hws

theorem map_fst_writtenProps (ps : List (JSString × JSValue)) :
    (writtenProps ps).map Prod.fst = ps.map Prod.fst := by
  induction ps with
  | nil => simp [writtenProps]
  | cons p ps ih =>
    obtain ⟨k, v⟩ := p
    simp [writtenProps, ih]

theorem keysOrdered_writtenProps (ps : List (JSString × JSValue)) (h : KeysOrdered ps) :
    KeysOrdered (writtenProps ps) := by
  simpa only [KeysOrdered, map_fst_writtenProps] using h

theorem length_serializeItems (vs : List JSValue) :
    (serializeItems vs).length = vs.length := by
  induction vs with
  | nil => simp [serializeItems]
  | cons v vs ih => simp [serializeItems, ih]

theorem length_le_serializeProps (ps : List (JSString × JSValue)) (h : WellFormedProps ps) :
    ps.length ≤ (serializeProps ps).length := by
  induction ps with
  | nil => simp
  | cons p ps ih =>
    obtain ⟨k, v⟩ := p
    simp only [WellFormedProps] at h
    obtain ⟨sv, hsv⟩ := serialize_isSome v h.1
    simp only [serializeProps, hsv, List.length_cons]
    have := ih h.2
    omega

theorem skipWs_quote (k rest : JSString) : skipWs (quote k ++ rest) = quote k ++ rest := by
  simp [quote, skipWs, isWs]

mutual
/-- Reading back the text of a value gives the value as written. -/
theorem parseValue_serialize : ∀ (v : JSValue), WellFormed v →
    ∀ (fuel : Nat) (t rest : JSString), v.depth < fuel → serialize v = some t → Delim rest →
      parseValue fuel (t ++ rest) = some (v.written, rest)
  | .undefined, hv => by simp [WellFormed] at hv
  | .null, _ => by
    intro fuel t rest hf ht _
    obtain ⟨f, rfl⟩ : ∃ f, fuel = f + 1 := ⟨fuel - 1, by omega⟩
    simp only [serialize, Option.some.injEq] at ht
    subst ht
    exact parseValue_null f rest
  | .bool b, _ => by
    intro fuel t rest hf ht _
    obtain ⟨f, rfl⟩ : ∃ f, fuel = f + 1 := ⟨fuel - 1, by omega⟩
    simp only [serialize, Option.some.injEq] at ht
    subst ht
    cases b
    · exact parseValue_false f rest
    · exact parseValue_true f rest
  | .number x, hv => by
    intro fuel t rest hf ht hrest
    obtain ⟨f, rfl⟩ : ∃ f, fuel = f + 1 := ⟨fuel - 1, by omega⟩
    cases x with
    | nan => simp [WellFormed] at hv
    | inf neg =>
      simp only [serialize, Option.some.injEq] at ht
      subst ht
      exact parseValue_null f rest
    | finite neg bits =>
      simp only [serialize, Option.some.injEq] at ht
      simp only [WellFormed] at hv
      subst ht
      exact parseValue_number f _ _ rest (parseNumber_toString_written neg bits rest hv hrest)
  | .string s, _ => by
    intro fuel t rest hf ht _
    obtain ⟨f, rfl⟩ : ∃ f, fuel = f + 1 := ⟨fuel - 1, by omega⟩
    simp only [serialize, Option.some.injEq] at ht
    subst ht
    exact parseValue_string f s rest
  | .array [], _ => by
    intro fuel t rest hf ht _
    obtain ⟨f, rfl⟩ : ∃ f, fuel = f + 1 := ⟨fuel - 1, by omega⟩
    simp only [serialize, serializeItems, joinComma, Option.some.injEq] at ht
    subst ht
    exact parseValue_array_empty f rest
  | .array (v :: vs), hv => by
    intro fuel t rest hf ht _
    obtain ⟨f, rfl⟩ : ∃ f, fuel = f + 1 := ⟨fuel - 1, by omega⟩
    simp only [WellFormed, WellFormedItems] at hv
    simp only [depth, depthItems] at hf
    obtain ⟨sv, hsv⟩ := serialize_isSome v hv.1
    simp only [serialize, serializeItems, hsv, Option.getD_some, joinComma,
      Option.some.injEq] at ht
    subst ht
    obtain ⟨c, cs, hc, hws, h93, _⟩ := serialize_head v sv hsv hv.1
    have hread := parseElements_tail vs hv.2 f
      ((cs ++ (joinTail (serializeItems vs) ++ 93 :: rest)).length) v.written sv rest
      (by omega)
      (by
        simp only [List.length_append, List.length_cons]
        have := length_le_joinTail (serializeItems vs)
        have hlen : (serializeItems vs).length = vs.length := length_serializeItems vs
        omega)
      (fun r hr => parseValue_serialize v hv.1 f sv r (by omega) hsv hr)
    subst hc
    have e : 91 :: ((c :: cs) ++ joinTail (serializeItems vs)) ++ [93] ++ rest =
        91 :: c :: (cs ++ (joinTail (serializeItems vs) ++ 93 :: rest)) := by simp
    rw [e]
    simp only [written, writtenItems]
    apply parseValue_array f c _ (v.written :: writtenItems vs) rest hws h93
    simpa using hread
  | .object [], _ => by
    intro fuel t rest hf ht _
    obtain ⟨f, rfl⟩ : ∃ f, fuel = f + 1 := ⟨fuel - 1, by omega⟩
    simp only [serialize, serializeProps, joinComma, Option.some.injEq] at ht
    subst ht
    exact parseValue_object_empty f rest
  | .object ((k, v) :: ps), hv => by
    intro fuel t rest hf ht _
    obtain ⟨f, rfl⟩ : ∃ f, fuel = f + 1 := ⟨fuel - 1, by omega⟩
    have hord := keysOrdered_writtenProps _ hv.2
    simp only [WellFormed, WellFormedProps] at hv
    simp only [depth, depthProps] at hf
    obtain ⟨sv, hsv⟩ := serialize_isSome v hv.1.1
    simp only [serialize, serializeProps, hsv, joinComma, Option.some.injEq] at ht
    subst ht
    have hread := parseMembers_tail ps hv.1.2 f
      ((quoteChars k ++ 34 :: 58 :: (sv ++ (joinTail (serializeProps ps) ++ 125 :: rest))).length)
      k v.written sv rest
      (by omega)
      (by
        simp only [List.length_append, List.length_cons]
        have := length_le_joinTail (serializeProps ps)
        have hlen : ps.length ≤ (serializeProps ps).length := length_le_serializeProps ps hv.1.2
        omega)
      (fun r hr => parseValue_serialize v hv.1.1 f sv r (by omega) hsv hr)
      (fun r => skipWs_serialize v sv r hsv hv.1.1)
    have e : 123 :: ((quote k ++ 58 :: sv) ++ joinTail (serializeProps ps)) ++ [125] ++ rest =
        123 :: 34 :: (quoteChars k ++ 34 :: 58 :: (sv ++ (joinTail (serializeProps ps) ++
          125 :: rest))) := by simp [quote]
    have e2 : quote k ++ 58 :: (sv ++ (joinTail (serializeProps ps) ++ 125 :: rest)) =
        34 :: (quoteChars k ++ 34 :: 58 :: (sv ++ (joinTail (serializeProps ps) ++
          125 :: rest))) := by simp [quote]
    simp only [written] at hord ⊢
    rw [e, ← buildObject_of_keysOrdered _ hord]
    simp only [writtenProps]
    apply parseValue_object f 34 _ ((k, v.written) :: writtenProps ps) rest (by decide)
      (by decide)
    rw [← e2]
    exact hread
/-- Reading back the elements of an array after the first one has been read. -/
theorem parseElements_tail : ∀ (vs : List JSValue), WellFormedItems vs →
    ∀ (fuel n : Nat) (w : JSValue) (sv rest : JSString), depthItems vs < fuel →
      vs.length ≤ n →
      (∀ r, Delim r → parseValue fuel (sv ++ r) = some (w, r)) →
      parseElements (parseValue fuel) (n + 1)
        (sv ++ (joinTail (serializeItems vs) ++ 93 :: rest)) =
        some (w :: writtenItems vs, rest)
  | [], _ => by
    intro fuel n w sv rest _ _ hpv
    simp only [serializeItems, joinTail, List.nil_append, writtenItems]
    exact parseElements_last _ n w sv rest (hpv _ (delim_bracket rest))
  | u :: us, hv => by
    intro fuel n w sv rest hf hn hpv
    simp only [WellFormedItems] at hv
    simp only [depthItems] at hf
    obtain ⟨su, hsu⟩ := serialize_isSome u hv.1
    obtain ⟨m, rfl⟩ : ∃ m, n = m + 1 := ⟨n - 1, by simp only [List.length_cons] at hn; omega⟩
    simp only [serializeItems, hsu, Option.getD_some, joinTail, List.cons_append,
      List.append_assoc, writtenItems]
    rw [parseElements_more _ (m + 1) w sv _ (hpv _ (delim_comma _))
      (skipWs_serialize u su _ hsu hv.1)]
    rw [parseElements_tail us hv.2 fuel m u.written su rest (by omega)
      (by simp only [List.length_cons] at hn; omega)
      (fun r hr => parseValue_serialize u hv.1 fuel su r (by omega) hsu hr)]
    rfl
/-- Reading back the members of an object after the first one. -/
theorem parseMembers_tail : ∀ (ps : List (JSString × JSValue)), WellFormedProps ps →
    ∀ (fuel n : Nat) (k : JSString) (w : JSValue) (sv rest : JSString),
      depthProps ps < fuel → ps.length ≤ n →
      (∀ r, Delim r → parseValue fuel (sv ++ r) = some (w, r)) →
      (∀ r, skipWs (sv ++ r) = sv ++ r) →
      parseMembers (parseValue fuel) (n + 1)
        (quote k ++ 58 :: (sv ++ (joinTail (serializeProps ps) ++ 125 :: rest))) =
        some ((k, w) :: writtenProps ps, rest)
  | [], _ => by
    intro fuel n k w sv rest _ _ hpv hws
    simp only [serializeProps, joinTail, List.nil_append, writtenProps]
    exact parseMembers_last _ n k w sv rest (hpv _ (delim_brace rest)) (hws _)
  | (l, u) :: us, hv => by
    intro fuel n k w sv rest hf hn hpv hws
    simp only [WellFormedProps] at hv
    simp only [depthProps] at hf
    obtain ⟨su, hsu⟩ := serialize_isSome u hv.1
    obtain ⟨m, rfl⟩ : ∃ m, n = m + 1 := ⟨n - 1, by simp only [List.length_cons] at hn; omega⟩
    simp only [serializeProps, hsu, joinTail, List.cons_append, List.append_assoc,
      writtenProps]
    rw [parseMembers_more _ (m + 1) k w sv _ (hpv _ (delim_comma _)) (hws _)
      (skipWs_quote l _)]
    rw [parseMembers_tail us hv.2 fuel m l u.written su rest (by omega)
      (by simp only [List.length_cons] at hn; omega)
      (fun r hr => parseValue_serialize u hv.1 fuel su r (by omega) hsu hr)
      (fun r => skipWs_serialize u su r hsu hv.1)]
    rfl
end

/-! ### Nesting depth and the whole text -/

theorem length_joinComma_le (ps : List JSString) :
    (joinComma ps).length ≤ (joinTail ps).length := by
  cases ps <;> simp [joinComma, joinTail]

mutual
theorem depth_lt_length : ∀ (v : JSValue) (t : JSString), WellFormed v →
    serialize v = some t → v.depth < t.length
  | .undefined, t, hv, h => by simp [serialize] at h
  | .null, t, _, h => by
    simp only [serialize, Option.some.injEq] at h; subst h; simp [depth, utf16_null]
  | .bool b, t, _, h => by
    simp only [serialize, Option.some.injEq] at h; subst h
    cases b <;> simp [depth, utf16_true, utf16_false]
  | .number x, t, hv, h => by
    obtain ⟨c, cs, ht, _⟩ := serialize_head (.number x) t h hv
    subst ht
    simp [depth]
  | .string s, t, _, h => by
    simp only [serialize, Option.some.injEq] at h; subst h; simp [depth, quote]
  | .array [], t, _, h => by
    simp only [serialize, serializeItems, joinComma, Option.some.injEq] at h
    subst h; simp [depth, depthItems]
  | .array (v :: vs), t, hv, h => by
    simp only [serialize, Option.some.injEq] at h
    subst h
    simp only [WellFormed] at hv
    have h1 : depthItems (v :: vs) ≤ (joinComma (serializeItems (v :: vs))).length :=
      depthItems_le_length (v :: vs) hv
    simp only [depth, List.length_cons, List.length_append, List.length_nil]
    omega
  | .object [], t, _, h => by
    simp only [serialize, serializeProps, joinComma, Option.some.injEq] at h
    subst h; simp [depth, depthProps]
  | .object ((k, v) :: ps), t, hv, h => by
    simp only [serialize, Option.some.injEq] at h
    subst h
    simp only [WellFormed] at hv
    have h1 : depthProps ((k, v) :: ps) ≤ (joinComma (serializeProps ((k, v) :: ps))).length :=
      depthProps_le_length ((k, v) :: ps) hv.1
    simp only [depth, List.length_cons, List.length_append, List.length_nil]
    omega
theorem depthItems_le_length : ∀ (vs : List JSValue), WellFormedItems vs →
    depthItems vs ≤ (joinComma (serializeItems vs)).length
  | [], _ => by simp [depthItems]
  | v :: vs, hv => by
    simp only [WellFormedItems] at hv
    have ih := depthItems_le_length vs hv.2
    obtain ⟨sv, hsv⟩ := serialize_isSome v hv.1
    have := depth_lt_length v sv hv.1 hsv
    have hle := length_joinComma_le (serializeItems vs)
    simp only [depthItems, serializeItems, joinComma, List.length_cons, List.length_append, hsv,
      Option.getD_some]
    omega
theorem depthProps_le_length : ∀ (ps : List (JSString × JSValue)), WellFormedProps ps →
    depthProps ps ≤ (joinComma (serializeProps ps)).length
  | [], _ => by simp [depthProps]
  | (k, v) :: ps, hv => by
    simp only [WellFormedProps] at hv
    have ih := depthProps_le_length ps hv.2
    obtain ⟨sv, hsv⟩ := serialize_isSome v hv.1
    have := depth_lt_length v sv hv.1 hsv
    have hle := length_joinComma_le (serializeProps ps)
    simp only [depthProps, serializeProps, hsv, joinComma, List.length_cons, List.length_append]
    omega
end

/-- `JSON.parse(JSON.stringify(v))` is `v` as written, for a well-formed `v`. -/
theorem parse_serialize (v : JSValue) (t : JSString) (hv : WellFormed v)
    (h : serialize v = some t) : parse t = some v.written := by
  have hd := depth_lt_length v t hv h
  have hrt := parseValue_serialize v hv (t.length + 1) t [] (by omega) h (Or.inl rfl)
  have hws := skipWs_serialize v t [] h hv
  rw [List.append_nil] at hrt hws
  simp [parse, hws, hrt, skipWs]

mutual
/-- A value without a non-finite Number or `-0` is written as itself. -/
theorem written_of_lossless : ∀ (v : JSValue), v.lossless = true → v.written = v
  | .undefined, _ => rfl
  | .null, _ => rfl
  | .bool _, _ => rfl
  | .number x, h => by
    cases x with
    | nan => simp [lossless] at h
    | inf neg => simp [lossless] at h
    | finite neg bits =>
      simp only [lossless, Bool.not_eq_true', Bool.and_eq_false_iff, beq_eq_false_iff_ne] at h
      simp only [written, JSValue.number.injEq, JSNumber.finite.injEq, and_true]
      rcases h with h | h
      · rw [h]; rfl
      · have : (bits != 0) = true := by simpa using h
        rw [this, Bool.and_true]
  | .string _, _ => rfl
  | .array items, h => by
    simp only [lossless] at h
    simp only [written, writtenItems_of_lossless items h]
  | .object props, h => by
    simp only [lossless] at h
    simp only [written, writtenProps_of_lossless props h]
theorem writtenItems_of_lossless : ∀ (vs : List JSValue), losslessItems vs = true →
    writtenItems vs = vs
  | [], _ => rfl
  | v :: vs, h => by
    simp only [losslessItems, Bool.and_eq_true] at h
    simp only [writtenItems, written_of_lossless v h.1, writtenItems_of_lossless vs h.2]
theorem writtenProps_of_lossless : ∀ (ps : List (JSString × JSValue)),
    losslessProps ps = true → writtenProps ps = ps
  | [], _ => rfl
  | (k, v) :: ps, h => by
    simp only [losslessProps, Bool.and_eq_true] at h
    simp only [writtenProps, written_of_lossless v h.1, writtenProps_of_lossless ps h.2]
end

end JSON

namespace JSValue

/-! ### Parsed values are well formed -/

theorem wellFormedProps_append (a b : List (JSString × JSValue)) :
    WellFormedProps (a ++ b) ↔ WellFormedProps a ∧ WellFormedProps b := by
  induction a with
  | nil => simp [WellFormedProps]
  | cons p ps ih =>
    obtain ⟨k, v⟩ := p
    rw [List.cons_append]
    simp only [WellFormedProps]
    rw [ih, and_assoc]

theorem wellFormedProps_replaceProp (key : JSString) (v : JSValue)
    (ps : List (JSString × JSValue)) (hv : WellFormed v) (h : WellFormedProps ps) :
    WellFormedProps (replaceProp key v ps) := by
  induction ps with
  | nil => simpa [replaceProp] using h
  | cons p ps ih =>
    obtain ⟨k, x⟩ := p
    simp only [WellFormedProps] at h
    simp only [replaceProp]
    split_ifs
    · simp only [WellFormedProps]; exact ⟨hv, h.2⟩
    · simp only [WellFormedProps]; exact ⟨h.1, ih h.2⟩

theorem wellFormedProps_insertIndexProp (key : JSString) (i : Nat) (v : JSValue)
    (ps : List (JSString × JSValue)) (hv : WellFormed v) (h : WellFormedProps ps) :
    WellFormedProps (insertIndexProp key i v ps) := by
  induction ps with
  | nil => simp only [insertIndexProp, WellFormedProps]; exact ⟨hv, trivial⟩
  | cons p ps ih =>
    obtain ⟨k, x⟩ := p
    have h' := h
    simp only [WellFormedProps] at h
    simp only [insertIndexProp]
    split
    · split_ifs
      · simp only [WellFormedProps]; exact ⟨h.1, ih h.2⟩
      · simp only [WellFormedProps]; exact ⟨hv, h.1, h.2⟩
    · simp only [WellFormedProps]; exact ⟨hv, h.1, h.2⟩

theorem wellFormedProps_setProp (ps : List (JSString × JSValue)) (key : JSString)
    (v : JSValue) (hv : WellFormed v) (h : WellFormedProps ps) :
    WellFormedProps (setProp ps key v) := by
  unfold setProp
  split_ifs
  · exact wellFormedProps_replaceProp key v ps hv h
  · split
    · exact wellFormedProps_insertIndexProp key _ v ps hv h
    · rw [wellFormedProps_append]
      simp only [WellFormedProps]
      exact ⟨h, hv, trivial⟩

theorem wellFormedProps_foldl_setProp (members acc : List (JSString × JSValue))
    (hm : WellFormedProps members) (h : WellFormedProps acc) :
    WellFormedProps (members.foldl (fun ps m => setProp ps m.1 m.2) acc) := by
  induction members generalizing acc with
  | nil => exact h
  | cons m ms ih =>
    obtain ⟨k, v⟩ := m
    simp only [WellFormedProps] at hm
    exact ih _ hm.2 (wellFormedProps_setProp acc k v hm.1 h)

end JSValue

namespace JSON
open JSValue

theorem wellFormed_buildObject (members : List (JSString × JSValue))
    (h : WellFormedProps members) : WellFormed (buildObject members) := by
  simp only [buildObject, WellFormed]
  exact ⟨wellFormedProps_foldl_setProp members [] h (by simp [WellFormedProps]),
    keysOrdered_foldl_setProp members [] (by simp [KeysOrdered])⟩

theorem wellFormed_ofDecimal (neg : Bool) (m : Nat) (e : Int) :
    WellFormed (.number (JSNumber.ofDecimal neg m e)) := by
  unfold JSNumber.ofDecimal
  simp only []
  split_ifs with h
  · simp only [WellFormed]; exact h
  · simp only [WellFormed]

theorem wellFormed_parseNumber (input r : JSString) (x : JSNumber)
    (h : parseNumber input = some (x, r)) : WellFormed (.number x) := by
  unfold parseNumber at h
  simp only [] at h
  split at h
  · simp at h
  · split_ifs at h
    split at h
    · simp at h
    · split at h
      · simp at h
      · simp only [Option.some.injEq, Prod.mk.injEq] at h
        rw [← h.1]
        exact wellFormed_ofDecimal _ _ _

theorem wellFormed_parseLiteral (lit : JSString) (v w : JSValue) (input r : JSString)
    (hv : WellFormed v) (h : parseLiteral lit v input = some (w, r)) : WellFormed w := by
  unfold parseLiteral at h
  split_ifs at h
  simp only [Option.some.injEq, Prod.mk.injEq] at h
  exact h.1 ▸ hv

theorem wellFormed_parseElements (pv : JSString → Option (JSValue × JSString))
    (hpv : ∀ input v r, pv input = some (v, r) → WellFormed v) :
    ∀ (n : Nat) (input : JSString) (items : List JSValue) (r : JSString),
      parseElements pv n input = some (items, r) → WellFormedItems items := by
  intro n
  induction n with
  | zero => intro input items r h; simp [parseElements] at h
  | succ n ih =>
    intro input items r h
    simp only [parseElements] at h
    split at h
    · simp at h
    · rename_i v r1 hv
      split at h
      · simp at h
      · split_ifs at h
        · simp only [Option.map_eq_some', Prod.mk.injEq] at h
          obtain ⟨p, hp, hi, _⟩ := h
          subst hi
          simp only [WellFormedItems]
          exact ⟨hpv _ _ _ hv, ih _ _ _ (by rw [hp])⟩
        · simp only [Option.some.injEq, Prod.mk.injEq] at h
          rw [← h.1]
          simp only [WellFormedItems]
          exact ⟨hpv _ _ _ hv, trivial⟩

theorem wellFormed_parseMembers (pv : JSString → Option (JSValue × JSString))
    (hpv : ∀ input v r, pv input = some (v, r) → WellFormed v) :
    ∀ (n : Nat) (input : JSString) (members : List (JSString × JSValue)) (r : JSString),
      parseMembers pv n input = some (members, r) → WellFormedProps members := by
  intro n
  induction n with
  | zero => intro input members r h; simp [parseMembers] at h
  | succ n ih =>
    intro input members r h
    simp only [parseMembers] at h
    split at h
    · simp at h
    · split_ifs at h
      split at h
      · simp at h
      · split at h
        · simp at h
        · split_ifs at h
          split at h
          · simp at h
          · rename_i v r3 hv
            split at h
            · simp at h
            · split_ifs at h
              · simp only [Option.map_eq_some', Prod.mk.injEq] at h
                obtain ⟨p, hp, hi, _⟩ := h
                subst hi
                simp only [WellFormedProps]
                exact ⟨hpv _ _ _ hv, ih _ _ _ (by rw [hp])⟩
              · simp only [Option.some.injEq, Prod.mk.injEq] at h
                rw [← h.1]
                simp only [WellFormedProps]
                exact ⟨hpv _ _ _ hv, trivial⟩

/-- Every value the parser reads is well formed. -/
theorem wellFormed_parseValue : ∀ (fuel : Nat) (input : JSString) (v : JSValue)
    (r : JSString), parseValue fuel input = some (v, r) → WellFormed v := by
  intro fuel
  induction fuel with
  | zero => intro input v r h; simp [parseValue] at h
  | succ fuel ih =>
    intro input v r h
    unfold parseValue at h
    split at h
    · simp at h
    · split at h
      · simp only [Option.map_eq_some', Prod.mk.injEq] at h
        obtain ⟨p, _, hp, _⟩ := h
        rw [← hp]; simp only [WellFormed]
      · split at h
        · split at h
          · simp at h
          · split at h
            · simp only [Option.some.injEq, Prod.mk.injEq] at h
              rw [← h.1]; simp only [WellFormed, WellFormedItems]
            · simp only [Option.map_eq_some', Prod.mk.injEq] at h
              obtain ⟨p, hp, hv, _⟩ := h
              rw [← hv]
              simp only [WellFormed]
              exact wellFormed_parseElements _ ih _ _ _ _ (by rw [hp])
        · split at h
          · split at h
            · simp at h
            · split at h
              · simp only [Option.some.injEq, Prod.mk.injEq] at h
                rw [← h.1]; simp only [WellFormed, WellFormedProps, KeysOrdered]
                simp
              · simp only [Option.map_eq_some', Prod.mk.injEq] at h
                obtain ⟨p, hp, hv, _⟩ := h
                rw [← hv]
                exact wellFormed_buildObject _
                  (wellFormed_parseMembers _ ih _ _ _ _ (by rw [hp]))
          · split at h
            · exact wellFormed_parseLiteral _ _ _ _ _ (by simp only [WellFormed]) h
            · split at h
              · exact wellFormed_parseLiteral _ _ _ _ _ (by simp only [WellFormed]) h
              · split at h
                · exact wellFormed_parseLiteral _ _ _ _ _ (by simp only [WellFormed]) h
                · simp only [Option.map_eq_some', Prod.mk.injEq] at h
                  obtain ⟨p, hp, hv, _⟩ := h
                  rw [← hv]
                  exact wellFormed_parseNumber _ _ _ (by rw [hp])

theorem wellFormed_parse (text : JSString) (v : JSValue) (h : parse text = some v) :
    WellFormed v := by
  unfold parse at h
  split at h
  · simp at h
  · rename_i w rest hw
    split_ifs at h
    simp only [Option.some.injEq] at h
    exact h ▸ wellFormed_parseValue _ _ _ _ hw

/-- The round trip of the handler's success path: a parsed value is serialized to
a text that parses back to the value as written. -/
theorem parse_stringify_parse (text : JSString) (v : JSValue) (h : parse text = some v) :
    ∃ t, stringify v = .string t ∧ parse t = some v.written := by
  have hv := wellFormed_parse text v h
  obtain ⟨t, ht⟩ := serialize_isSome v hv
  exact ⟨t, by simp [stringify, ht], parse_serialize v t hv ht⟩

end JSON

/-! ## Facts about the runtime model -/

theorem utf16_POST_ne_OPTIONS : utf16 "POST" ≠ utf16 "OPTIONS" := by decide

theorem errorResponse_invalid :
    errorResponse 400 "Invalid request body" =
      { statusCode := 400, headers := [corsOrigin],
        body := .string (utf16 "\x7b\"error\":\"Invalid request body\"\x7d") } := by
  decide!

theorem errorResponse_missing :
    errorResponse 400 "Missing apiKey or messages" =
      { statusCode := 400, headers := [corsOrigin],
        body := .string (utf16 "\x7b\"error\":\"Missing apiKey or messages\"\x7d") } := by
  decide!

theorem JSValue.getProp_eq_some_member (v : JSValue) (key : JSString)
    (h1 : v ≠ .null) (h2 : v ≠ .undefined) : v.getProp key = some (v.member key) := by
  cases v <;> simp_all [JSValue.getProp, JSValue.member]

theorem JSON.parseLiteral_ne_undefined (lit : JSString) (v w : JSValue) (input r : JSString)
    (hv : v ≠ .undefined) (h : parseLiteral lit v input = some (w, r)) : w ≠ .undefined := by
  unfold parseLiteral at h
  split at h
  · simp only [Option.some.injEq, Prod.mk.injEq] at h
    exact h.1 ▸ hv
  · simp at h

theorem JSON.parseValue_ne_undefined (fuel : Nat) (input r : JSString) (v : JSValue)
    (h : parseValue fuel input = some (v, r)) : v ≠ .undefined := by
  cases fuel with
  | zero => simp [parseValue] at h
  | succ fuel =>
    unfold parseValue at h
    split at h
    · simp at h
    · split at h
      · simp only [Option.map_eq_some', Prod.mk.injEq] at h
        obtain ⟨p, _, hp, _⟩ := h
        simp [← hp]
      · split at h
        · split at h
          · simp at h
          · split at h
            · simp only [Option.some.injEq, Prod.mk.injEq] at h
              simp [← h.1]
            · simp only [Option.map_eq_some', Prod.mk.injEq] at h
              obtain ⟨p, _, hp, _⟩ := h
              simp [← hp]
        · split at h
          · split at h
            · simp at h
            · split at h
              · simp only [Option.some.injEq, Prod.mk.injEq] at h
                simp [← h.1]
              · simp only [Option.map_eq_some', Prod.mk.injEq] at h
                obtain ⟨p, _, hp, _⟩ := h
                simp [← hp, buildObject]
          · split at h
            · exact parseLiteral_ne_undefined _ _ _ _ _ (by simp) h
            · split at h
              · exact parseLiteral_ne_undefined _ _ _ _ _ (by simp) h
              · split at h
                · exact parseLiteral_ne_undefined _ _ _ _ _ (by simp) h
                · simp only [Option.map_eq_some', Prod.mk.injEq] at h
                  obtain ⟨p, _, hp, _⟩ := h
                  simp [← hp]

theorem JSON.parse_ne_undefined (text : JSString) (v : JSValue)
    (h : parse text = some v) : v ≠ .undefined := by
  unfold parse at h
  split at h
  · simp at h
  · rename_i w rest hw
    split at h
    · simp only [Option.some.injEq] at h
      exact h ▸ parseValue_ne_undefined _ _ _ _ hw
    · simp at h

theorem Engine.stringify_of_serializes (engine : Engine) (v : JSValue)
    (h : engine.serializes v) : engine.stringify v = some (JSON.stringify v) := by
  simp only [Engine.stringify, Engine.serializes] at h ⊢
  rw [if_pos h]

theorem Engine.stringify_eq_none (engine : Engine) (v : JSValue)
    (h : engine.maxDepth < v.depth) : engine.stringify v = none := by
  simp only [Engine.stringify]
  rw [if_neg (by omega)]

theorem Engine.stringify_eq_some (engine : Engine) (v body : JSValue)
    (h : engine.stringify v = some body) : engine.serializes v ∧ body = JSON.stringify v := by
  simp only [Engine.stringify, Engine.serializes] at h ⊢
  split_ifs at h with hd
  exact ⟨hd, by simpa using h.symm⟩

theorem handler_of_validPost (engine : Engine) (fetch : FetchInit → FetchResult)
    (event : Event) (apiKey messages bodyMaxTokens : JSValue)
    (h : ValidPost event apiKey messages bodyMaxTokens) :
    handler engine fetch event =
      forward engine fetch apiKey (resolvedMaxTokens bodyMaxTokens) messages := by
  obtain ⟨hm, body, hp, ha, hms, hmt, hta, htm⟩ := h
  simp [handler, hm, utf16_POST_ne_OPTIONS, hp, ha, hms, hmt, hta, htm, resolvedMaxTokens,
    JSValue.or]

/-- The outer `catch` block on the engine's own `RangeError`: a 500 answer. -/
theorem serverError_rangeError (engine : Engine) :
    serverError engine engine.rangeError = .returns
      { statusCode := 500
        headers := [corsOrigin]
        body := JSON.stringify
          (.object [(utf16 "error", .string (utf16 "Server error")),
            (utf16 "message", .string engine.overflowMessage)]) } := by
  have h1 : (JSValue.object [(utf16 "error", .string (utf16 "Server error")),
      (utf16 "message", .string engine.overflowMessage)]).depth ≤ engine.maxDepth := by
    have := engine.one_le
    simpa [JSValue.depth, JSValue.depthProps] using this
  have hm : (JSValue.object [(utf16 "message", JSValue.string engine.overflowMessage)]).getProp
      (utf16 "message") = some (.string engine.overflowMessage) := by
    simp [JSValue.getProp, List.lookup]
  simp only [serverError, Engine.rangeError, hm]
  rw [Engine.stringify_of_serializes engine _ h1]

theorem serverError_returns_origin (engine : Engine) (e : Thrown) (r : Response)
    (h : serverError engine e = .returns r) : corsOrigin ∈ r.headers := by
  unfold serverError at h
  split at h
  · simp at h
  · split at h
    · simp at h
    · split at h
      · simp at h
      · simp only [Completion.returns.injEq] at h
        simp [← h]

theorem serverError_throws (engine : Engine) (e : Thrown)
    (h : serverError engine e = .throwsTypeError) :
    e = .value .null ∨ e = .value .undefined := by
  unfold serverError at h
  split at h
  · simp at h
  · rename_i v
    split at h
    · rename_i hg
      cases v <;> simp [JSValue.getProp] at hg ⊢
    · split at h <;> simp at h

/-- The ways the second `try` block ends. -/
theorem forward_cases (engine : Engine) (fetch : FetchInit → FetchResult)
    (apiKey max_tokens messages : JSValue) :
    (¬ engine.serializes (upstreamPayload max_tokens messages) ∧
      forward engine fetch apiKey max_tokens messages =
        { calls := [], completion := serverError engine engine.rangeError }) ∨
    (engine.serializes (upstreamPayload max_tokens messages) ∧
      (forward engine fetch apiKey max_tokens messages).calls =
        [upstreamRequest apiKey (JSON.stringify (upstreamPayload max_tokens messages))] ∧
      ((∃ e, (fetch (upstreamRequest apiKey
              (JSON.stringify (upstreamPayload max_tokens messages))) = .throws e ∨
            ∃ status, fetch (upstreamRequest apiKey
              (JSON.stringify (upstreamPayload max_tokens messages))) =
                .response status (.throws e)) ∧
          (forward engine fetch apiKey max_tokens messages).completion =
            serverError engine e) ∨
        (∃ status t,
          fetch (upstreamRequest apiKey
            (JSON.stringify (upstreamPayload max_tokens messages))) =
              .response status (.text t) ∧
          JSON.parse t = none ∧
          (forward engine fetch apiKey max_tokens messages).completion = .returns
            { statusCode := 500
              headers := [corsOrigin]
              body := JSON.stringify
                (.object [(utf16 "error", .string (utf16 "Failed to parse API response")),
                  (utf16 "details", .string (substring t 0 100))]) }) ∨
        (∃ status t data,
          fetch (upstreamRequest apiKey
            (JSON.stringify (upstreamPayload max_tokens messages))) =
              .response status (.text t) ∧
          JSON.parse t = some data ∧ ¬ engine.serializes data ∧
          (forward engine fetch apiKey max_tokens messages).completion =
            serverError engine engine.rangeError) ∨
        (∃ status t data,
          fetch (upstreamRequest apiKey
            (JSON.stringify (upstreamPayload max_tokens messages))) =
              .response status (.text t) ∧
          JSON.parse t = some data ∧ engine.serializes data ∧
          (forward engine fetch apiKey max_tokens messages).completion = .returns
            { statusCode := status
              headers := [corsOrigin, (utf16 "Content-Type", utf16 "application/json")]
              body := JSON.stringify data }))) := by
  by_cases hs : engine.serializes (upstreamPayload max_tokens messages)
  · right
    refine ⟨hs, ?_, ?_⟩
    · simp [forward, Engine.stringify_of_serializes engine _ hs]
    · simp only [forward, Engine.stringify_of_serializes engine _ hs]
      cases hf : fetch (upstreamRequest apiKey
          (JSON.stringify (upstreamPayload max_tokens messages))) with
      | throws e => exact Or.inl ⟨e, Or.inl rfl, rfl⟩
      | response status text =>
        cases text with
        | throws e => exact Or.inl ⟨e, Or.inr ⟨status, rfl⟩, rfl⟩
        | text t =>
          cases hp : JSON.parse t with
          | none => exact Or.inr (Or.inl ⟨status, t, rfl, hp, by simp [hp]⟩)
          | some data =>
            by_cases hd : engine.serializes data
            · exact Or.inr (Or.inr (Or.inr ⟨status, t, data, rfl, hp, hd, by
                simp [hp, Engine.stringify_of_serializes engine _ hd]⟩))
            · exact Or.inr (Or.inr (Or.inl ⟨status, t, data, rfl, hp, hd, by
                have hn : engine.stringify data = none :=
                  Engine.stringify_eq_none engine data (by
                    simp only [Engine.serializes] at hd; omega)
                simp [hp, hn]⟩))
  · left
    refine ⟨hs, ?_⟩
    have hn : engine.stringify (upstreamPayload max_tokens messages) = none :=
      Engine.stringify_eq_none engine _ (by simp only [Engine.serializes] at hs; omega)
    simp [forward, hn]

/-- The five ways a call of the handler goes. -/
theorem handler_cases (engine : Engine) (fetch : FetchInit → FetchResult) (event : Event) :
    handler engine fetch event =
      { calls := []
        completion := .returns
          { statusCode := 200
            headers := [corsOrigin,
              (utf16 "Access-Control-Allow-Headers", utf16 "Content-Type"),
              (utf16 "Access-Control-Allow-Methods", utf16 "POST, OPTIONS")]
            body := .string [] } } ∨
    handler engine fetch event =
      { calls := [], completion := .returns (errorResponse 405 "Method not allowed") } ∨
    handler engine fetch event =
      { calls := [], completion := .returns (errorResponse 400 "Invalid request body") } ∨
    handler engine fetch event =
      { calls := []
        completion := .returns (errorResponse 400 "Missing apiKey or messages") } ∨
    ∃ apiKey max_tokens messages,
      handler engine fetch event = forward engine fetch apiKey max_tokens messages := by
  unfold handler
  split
  · exact Or.inl rfl
  · split
    · exact Or.inr (Or.inl rfl)
    · split
      · exact Or.inr (Or.inr (Or.inl rfl))
      · split
        · split
          · exact Or.inr (Or.inr (Or.inr (Or.inl rfl)))
          · exact Or.inr (Or.inr (Or.inr (Or.inr ⟨_, _, _, rfl⟩)))
        · exact Or.inr (Or.inr (Or.inl rfl))

/-! ## Facts about the values the handler passes on -/

open JSON JSValue

theorem wellFormedProps_lookup (props : List (JSString × JSValue)) (key : JSString)
    (v : JSValue) (h : WellFormedProps props) (hl : props.lookup key = some v) :
    WellFormed v := by
  induction props with
  | nil => simp at hl
  | cons p ps ih =>
    obtain ⟨k, x⟩ := p
    simp only [WellFormedProps] at h
    simp only [List.lookup_cons] at hl
    split at hl
    · simp only [Option.some.injEq] at hl
      exact hl ▸ h.1
    · exact ih h.2 hl

/-- A property read on a parsed value gives `undefined` or a well-formed value. -/
theorem wellFormed_of_getProp (body v : JSValue) (key : JSString) (h : WellFormed body)
    (hg : body.getProp key = some v) : v = .undefined ∨ WellFormed v := by
  cases body with
  | object props =>
    simp only [getProp, Option.some.injEq] at hg
    cases hl : props.lookup key with
    | none => rw [hl] at hg; exact Or.inl (by simpa using hg.symm)
    | some w =>
      rw [hl] at hg
      simp only [Option.getD_some] at hg
      exact Or.inr (hg ▸ wellFormedProps_lookup props key w h.1 hl)
  | undefined => simp [getProp] at hg
  | null => simp [getProp] at hg
  | _ => simp only [getProp, Option.some.injEq] at hg; exact Or.inl hg.symm

theorem wellFormed_of_truthy_getProp (body v : JSValue) (key : JSString)
    (h : WellFormed body) (hg : body.getProp key = some v) (ht : v.toBoolean = true) :
    WellFormed v := by
  rcases wellFormed_of_getProp body v key h hg with hu | hw
  · subst hu; simp [toBoolean] at ht
  · exact hw

theorem wellFormed_ofNat (n : Nat) : WellFormed (.number (JSNumber.ofNat n)) := by
  rw [JSNumber.ofNat]
  exact wellFormed_ofDecimal false n 0

theorem wellFormed_resolvedMaxTokens (body v : JSValue) (h : WellFormed body)
    (hg : body.getProp (utf16 "max_tokens") = some v) :
    WellFormed (resolvedMaxTokens v) := by
  by_cases ht : v.toBoolean = true
  · rw [resolvedMaxTokens, if_pos ht]
    exact wellFormed_of_truthy_getProp body v _ h hg ht
  · rewrite [resolvedMaxTokens, if_neg ht]
    generalize (4096 : Nat) = n
    exact wellFormed_ofNat n

theorem arrayIndex_model : arrayIndex (utf16 "model") = none := by decide!

theorem arrayIndex_max_tokens : arrayIndex (utf16 "max_tokens") = none := by decide!

theorem arrayIndex_messages : arrayIndex (utf16 "messages") = none := by decide!

theorem arrayIndex_error : arrayIndex (utf16 "error") = none := by decide!

theorem arrayIndex_details : arrayIndex (utf16 "details") = none := by decide!

theorem arrayIndex_apiKey : arrayIndex (utf16 "apiKey") = none := by decide!

/-- The outbound payload is a well-formed value when its parts are. -/
theorem wellFormed_upstreamPayload (max_tokens messages : JSValue)
    (h1 : WellFormed max_tokens) (h2 : WellFormed messages) :
    WellFormed (upstreamPayload max_tokens messages) := by
  simp only [upstreamPayload, WellFormed, WellFormedProps, KeysOrdered, List.map_cons,
    List.map_nil, List.pairwise_cons, List.mem_cons, List.mem_singleton, List.not_mem_nil,
    keyBefore, arrayIndex_model, arrayIndex_max_tokens, arrayIndex_messages]
  refine ⟨⟨trivial, h1, h2, trivial⟩, ?_, ?_, ?_, ?_⟩
  · intro a ha
    rcases ha with rfl | rfl | hf
    · exact ⟨by decide!, by rw [arrayIndex_max_tokens]; trivial⟩
    · exact ⟨by decide!, by rw [arrayIndex_messages]; trivial⟩
    · exact hf.elim
  · intro a ha
    rcases ha with rfl | hf
    · exact ⟨by decide!, by rw [arrayIndex_messages]; trivial⟩
    · exact hf.elim
  · intro a ha; exact ha.elim
  · exact List.Pairwise.nil

/-- The outbound body, parsed: the payload as written. -/
theorem parse_upstreamPayload (max_tokens messages : JSValue)
    (h1 : WellFormed max_tokens) (h2 : WellFormed messages) :
    ∃ text, JSON.serialize (upstreamPayload max_tokens messages) = some text ∧
      JSON.stringify (upstreamPayload max_tokens messages) = .string text ∧
      JSON.parse text = some
        (.object [(utf16 "model", .string (utf16 "claude-sonnet-4-20250514")),
          (utf16 "max_tokens", max_tokens.written),
          (utf16 "messages", messages.written)]) := by
  have hw := wellFormed_upstreamPayload max_tokens messages h1 h2
  obtain ⟨text, ht⟩ := serialize_isSome _ hw
  refine ⟨text, ht, by simp [JSON.stringify, ht], ?_⟩
  rw [parse_serialize _ text hw ht]
  simp [upstreamPayload, written, writtenProps]

theorem depth_nested (n : Nat) : (nested n).depth = n + 1 := by
  induction n with
  | zero => simp [nested, depth, depthItems]
  | succ n ih => simp [nested, depth, depthItems, ih]

theorem wellFormed_nested (n : Nat) : WellFormed (nested n) := by
  induction n with
  | zero => simp [nested, WellFormed, WellFormedItems]
  | succ n ih => simp [nested, WellFormed, WellFormedItems, ih]

theorem lossless_nested (n : Nat) : (nested n).lossless = true := by
  induction n with
  | zero => simp [nested, lossless, losslessItems]
  | succ n ih => simp [nested, lossless, losslessItems, ih]

theorem serialize_nested (n : Nat) : JSON.serialize (nested n) = some (nestedText n) := by
  induction n with
  | zero => simp [nested, serialize, serializeItems, joinComma, nestedText]
  | succ n ih =>
    simp only [nested, serialize, serializeItems, ih, Option.getD_some, joinComma, joinTail,
      List.append_nil, Option.some.injEq, nestedText]
    rw [List.replicate_succ (n := n + 1), List.replicate_succ' (n := n + 1)]
    simp

/-- The text of nested arrays parses, whatever the depth. -/
theorem parse_nestedText (n : Nat) : JSON.parse (nestedText n) = some (nested n) := by
  rw [parse_serialize _ _ (wellFormed_nested n) (serialize_nested n),
    written_of_lossless _ (lossless_nested n)]

theorem parse_nestedEvent (n : Nat) :
    JSON.parse (bodyText (nestedEvent n).body) = some
      (.object [(utf16 "apiKey", .string (utf16 "k")), (utf16 "messages", nested n)]) := by
  have hw : WellFormed (.object [(utf16 "apiKey", .string (utf16 "k")),
      (utf16 "messages", nested n)]) := by
    simp only [WellFormed, WellFormedProps, KeysOrdered, List.map_cons,
      List.map_nil, List.pairwise_cons, List.mem_cons, List.mem_singleton, List.not_mem_nil,
      keyBefore]
    refine ⟨⟨trivial, wellFormed_nested n, trivial⟩, ?_, ?_, ?_⟩
    · intro a ha
      rcases ha with rfl | hf
      · exact ⟨by decide!, by rw [arrayIndex_apiKey, arrayIndex_messages]; trivial⟩
      · exact hf.elim
    · intro a ha; exact ha.elim
    · exact List.Pairwise.nil
  have hser : JSON.serialize (.object [(utf16 "apiKey", .string (utf16 "k")),
      (utf16 "messages", nested n)]) =
      some (utf16 "\x7b\"apiKey\":\"k\",\"messages\":" ++ nestedText n ++ utf16 "\x7d") := by
    have e1 : utf16 "\x7b\"apiKey\":\"k\",\"messages\":" =
        123 :: (quote (utf16 "apiKey") ++ 58 :: quote (utf16 "k")) ++
          44 :: (quote (utf16 "messages") ++ [58]) := by decide!
    have e2 : utf16 "\x7d" = [125] := by decide!
    simp only [serialize, serializeProps, serialize_nested, joinComma, joinTail, e1, e2]
    simp
  have hl : (JSValue.object [(utf16 "apiKey", .string (utf16 "k")),
      (utf16 "messages", nested n)]).lossless = true := by
    simp [lossless, losslessProps, lossless_nested]
  simp only [nestedEvent, bodyText]
  rw [parse_serialize _ _ hw hser, written_of_lossless _ hl]

/-- A request with nested `messages` is a valid POST request, whatever the depth. -/
theorem nestedEvent_valid (n : Nat) :
    ValidPost (nestedEvent n) (.string (utf16 "k")) (nested n) .undefined := by
  have k1 : (utf16 "apiKey" == utf16 "apiKey") = true := by decide!
  have k2 : (utf16 "messages" == utf16 "apiKey") = false := by decide!
  have k3 : (utf16 "messages" == utf16 "messages") = true := by decide!
  have k4 : (utf16 "max_tokens" == utf16 "apiKey") = false := by decide!
  have k5 : (utf16 "max_tokens" == utf16 "messages") = false := by decide!
  refine ⟨rfl, _, parse_nestedEvent n, ?_, ?_, ?_, ?_, ?_⟩
  · simp [getProp, List.lookup, k1]
  · simp [getProp, List.lookup, k2, k3]
  · simp [getProp, List.lookup, k4, k5]
  · decide!
  · cases n <;> simp [nested, toBoolean]

/-! ## Facts about the second `try` block -/

theorem depth_upstreamPayload (max_tokens messages : JSValue) :
    (upstreamPayload max_tokens messages).depth =
      max max_tokens.depth messages.depth + 1 := by
  simp [upstreamPayload, depth, depthProps]

theorem depth_resolvedMaxTokens (v : JSValue) : (resolvedMaxTokens v).depth ≤ v.depth := by
  by_cases ht : v.toBoolean = true
  · rewrite [resolvedMaxTokens, if_pos ht]
    exact Nat.le_refl _
  · rewrite [resolvedMaxTokens, if_neg ht]
    generalize JSNumber.ofNat 4096 = x
    simp [depth]

/-- A payload whose parts are nested less deep than the engine goes is
serialized. -/
theorem serializes_upstreamPayload (engine : Engine) (bodyMaxTokens messages : JSValue)
    (hmessages : messages.depth < engine.maxDepth)
    (hmax : bodyMaxTokens.depth < engine.maxDepth) :
    engine.serializes (upstreamPayload (resolvedMaxTokens bodyMaxTokens) messages) := by
  have h := depth_resolvedMaxTokens bodyMaxTokens
  simp only [Engine.serializes, depth_upstreamPayload]
  omega

/-- The second `try` block when the payload is serialized: one call. -/
theorem forward_of_serializes (engine : Engine) (fetch : FetchInit → FetchResult)
    (apiKey max_tokens messages : JSValue)
    (h : engine.serializes (upstreamPayload max_tokens messages)) :
    (forward engine fetch apiKey max_tokens messages).calls =
      [upstreamRequest apiKey (JSON.stringify (upstreamPayload max_tokens messages))] := by
  simp [forward, Engine.stringify_of_serializes engine _ h]

/-- The only call the second `try` block makes, when it makes one. -/
theorem forward_call (engine : Engine) (fetch : FetchInit → FetchResult)
    (apiKey max_tokens messages : JSValue) (request : FetchInit)
    (h : (forward engine fetch apiKey max_tokens messages).calls = [request]) :
    engine.serializes (upstreamPayload max_tokens messages) ∧
      request = upstreamRequest apiKey (JSON.stringify (upstreamPayload max_tokens messages)) := by
  rcases forward_cases engine fetch apiKey max_tokens messages with ⟨_, hf⟩ | ⟨hs, hc, _⟩
  · rw [hf] at h
    simp at h
  · rw [hc] at h
    simp only [List.cons.injEq, and_true] at h
    exact ⟨hs, h.symm⟩

/-- The relay of an upstream answer whose text does not parse. -/
theorem forward_unparseable (engine : Engine) (fetch : FetchInit → FetchResult)
    (apiKey max_tokens messages : JSValue) (request : FetchInit)
    (status : Nat) (t : JSString)
    (hcall : (forward engine fetch apiKey max_tokens messages).calls = [request])
    (hfetch : fetch request = .response status (.text t))
    (hparse : JSON.parse t = none) :
    (forward engine fetch apiKey max_tokens messages).completion = .returns
      { statusCode := 500
        headers := [corsOrigin]
        body := JSON.stringify
          (.object [(utf16 "error", .string (utf16 "Failed to parse API response")),
            (utf16 "details", .string (substring t 0 100))]) } := by
  obtain ⟨hs, hr⟩ := forward_call engine fetch apiKey max_tokens messages request hcall
  subst hr
  simp [forward, Engine.stringify_of_serializes engine _ hs, hfetch, hparse]

/-- The relay of an upstream answer whose text parses, to a value the engine
serializes. -/
theorem forward_relayed (engine : Engine) (fetch : FetchInit → FetchResult)
    (apiKey max_tokens messages : JSValue) (request : FetchInit)
    (status : Nat) (t : JSString) (data : JSValue)
    (hcall : (forward engine fetch apiKey max_tokens messages).calls = [request])
    (hfetch : fetch request = .response status (.text t))
    (hparse : JSON.parse t = some data)
    (hdepth : data.depth ≤ engine.maxDepth) :
    (forward engine fetch apiKey max_tokens messages).completion = .returns
      { statusCode := status
        headers := [corsOrigin, (utf16 "Content-Type", utf16 "application/json")]
        body := JSON.stringify data } := by
  obtain ⟨hs, hr⟩ := forward_call engine fetch apiKey max_tokens messages request hcall
  subst hr
  simp [forward, Engine.stringify_of_serializes engine _ hs, hfetch, hparse,
    Engine.stringify_of_serializes engine data hdepth]

/-- The relay of an upstream answer whose text parses, to a value nested deeper
than the engine serializes: the `RangeError` is answered by the outer `catch`. -/
theorem forward_overflow (engine : Engine) (fetch : FetchInit → FetchResult)
    (apiKey max_tokens messages : JSValue) (request : FetchInit)
    (status : Nat) (t : JSString) (data : JSValue)
    (hcall : (forward engine fetch apiKey max_tokens messages).calls = [request])
    (hfetch : fetch request = .response status (.text t))
    (hparse : JSON.parse t = some data)
    (hdepth : engine.maxDepth < data.depth) :
    (forward engine fetch apiKey max_tokens messages).completion = .returns
      { statusCode := 500
        headers := [corsOrigin]
        body := JSON.stringify
          (.object [(utf16 "error", .string (utf16 "Server error")),
            (utf16 "message", .string engine.overflowMessage)]) } := by
  obtain ⟨hs, hr⟩ := forward_call engine fetch apiKey max_tokens messages request hcall
  subst hr
  simp [forward, Engine.stringify_of_serializes engine _ hs, hfetch, hparse,
    Engine.stringify_eq_none engine data hdepth, serverError_rangeError]

/-- The second `try` block when the payload is nested deeper than the engine
serializes: no call, and the `RangeError` is answered by the outer `catch`. -/
theorem forward_payload_overflow (engine : Engine) (fetch : FetchInit → FetchResult)
    (apiKey max_tokens messages : JSValue)
    (h : engine.maxDepth < (upstreamPayload max_tokens messages).depth) :
    forward engine fetch apiKey max_tokens messages =
      { calls := []
        completion := .returns
          { statusCode := 500
            headers := [corsOrigin]
            body := JSON.stringify
              (.object [(utf16 "error", .string (utf16 "Server error")),
                (utf16 "message", .string engine.overflowMessage)]) } } := by
  simp [forward, Engine.stringify_eq_none engine _ h, serverError_rangeError]

theorem serverError_throwsFromStringify (engine : Engine) (e : Thrown)
    (h : serverError engine e = .throwsFromStringify) :
    e = .unwritableMessage ∨
      ∃ v message, e = .value v ∧ v.getProp (utf16 "message") = some message ∧
        engine.maxDepth ≤ message.depth := by
  unfold serverError at h
  split at h
  · exact Or.inl rfl
  · rename_i v
    split at h
    · simp at h
    · rename_i message hg
      split at h
      · rename_i hn
        refine Or.inr ⟨v, message, rfl, hg, ?_⟩
        simp only [Engine.stringify] at hn
        split_ifs at hn with hd
        simp only [depth, depthProps] at hd
        omega
      · simp at h

/-- The text `JSON.stringify` writes for the outbound payload. -/
theorem stringify_upstreamPayload (max_tokens messages : JSValue)
    (maxText messagesText : JSString)
    (hmax : JSON.serialize max_tokens = some maxText)
    (hmsg : JSON.serialize messages = some messagesText) :
    JSON.serialize (upstreamPayload max_tokens messages) = some
      (utf16 "\x7b\"model\":\"claude-sonnet-4-20250514\",\"max_tokens\":" ++ maxText ++
        utf16 ",\"messages\":" ++ messagesText ++ utf16 "\x7d") := by
  have hq1 : JSON.quote (utf16 "model") = utf16 "\"model\"" := by decide!
  have hq2 : JSON.quote (utf16 "claude-sonnet-4-20250514") =
      utf16 "\"claude-sonnet-4-20250514\"" := by decide!
  have hq3 : JSON.quote (utf16 "max_tokens") = utf16 "\"max_tokens\"" := by decide!
  have hq4 : JSON.quote (utf16 "messages") = utf16 "\"messages\"" := by decide!
  have e1 : utf16 "\x7b\"model\":\"claude-sonnet-4-20250514\",\"max_tokens\":" =
      123 :: (utf16 "\"model\"" ++ 58 :: utf16 "\"claude-sonnet-4-20250514\"") ++
        44 :: (utf16 "\"max_tokens\"" ++ [58]) := by decide!
  have e2 : utf16 ",\"messages\":" = 44 :: (utf16 "\"messages\"" ++ [58]) := by decide!
  have e3 : utf16 "\x7d" = [125] := by decide!
  simp only [upstreamPayload, JSON.serialize, JSON.serializeProps, hmax, hmsg,
    JSON.joinComma, JSON.joinTail, hq1, hq2, hq3, hq4, e1, e2, e3]
  simp

/-- The text `JSON.stringify` writes for the answer to an unparseable upstream
text. -/
theorem serialize_parseFailure (d : JSString) :
    JSON.serialize
        (.object [(utf16 "error", .string (utf16 "Failed to parse API response")),
          (utf16 "details", .string d)]) = some
      (utf16 "\x7b\"error\":\"Failed to parse API response\",\"details\":" ++ JSON.quote d ++
        utf16 "\x7d") := by
  have hq1 : JSON.quote (utf16 "error") = utf16 "\"error\"" := by decide!
  have hq2 : JSON.quote (utf16 "Failed to parse API response") =
      utf16 "\"Failed to parse API response\"" := by decide!
  have hq3 : JSON.quote (utf16 "details") = utf16 "\"details\"" := by decide!
  have e1 : utf16 "\x7b\"error\":\"Failed to parse API response\",\"details\":" =
      123 :: (utf16 "\"error\"" ++ 58 :: utf16 "\"Failed to parse API response\"") ++
        44 :: (utf16 "\"details\"" ++ [58]) := by decide!
  have e3 : utf16 "\x7d" = [125] := by decide!
  simp only [JSON.serialize, JSON.serializeProps, JSON.joinComma, JSON.joinTail, hq1, hq2,
    hq3, e1, e3]
  simp

theorem wellFormed_parseFailure (d : JSString) :
    WellFormed (.object [(utf16 "error", .string (utf16 "Failed to parse API response")),
      (utf16 "details", .string d)]) := by
  simp only [WellFormed, WellFormedProps, KeysOrdered, List.map_cons,
    List.map_nil, List.pairwise_cons, List.mem_cons, List.mem_singleton, List.not_mem_nil,
    keyBefore]
  refine ⟨⟨trivial, trivial, trivial⟩, ?_, ?_, ?_⟩
  · intro a ha
    rcases ha with rfl | hf
    · exact ⟨by decide!, by rw [arrayIndex_error, arrayIndex_details]; trivial⟩
    · exact hf.elim
  · intro a ha; exact ha.elim
  · exact List.Pairwise.nil

theorem substring_zero (t : JSString) (n : Nat) : substring t 0 n = t.take n := by
  simp [substring]

/-! ## Facts about the sample inputs -/

theorem sampleEvent_valid :
    ValidPost sampleEvent (.string (utf16 "k")) sampleMessages
      (.number (JSNumber.ofNat 1000)) :=
  ⟨by decide!,
    .object [(utf16 "apiKey", .string (utf16 "k")), (utf16 "messages", sampleMessages),
      (utf16 "max_tokens", .number (JSNumber.ofNat 1000))],
    by decide!, by decide!, by decide!, by decide!, by decide!, by decide!⟩

theorem sampleEventNoMax_valid :
    ValidPost sampleEventNoMax (.string (utf16 "k")) sampleMessages .undefined :=
  ⟨by decide!,
    .object [(utf16 "apiKey", .string (utf16 "k")), (utf16 "messages", sampleMessages)],
    by decide!, by decide!, by decide!, by decide!, by decide!, by decide!⟩

theorem sampleEventHuge_valid :
    ValidPost sampleEventHuge (.string (utf16 "k")) sampleMessages (.number (.inf false)) :=
  ⟨by decide!,
    .object [(utf16 "apiKey", .string (utf16 "k")), (utf16 "messages", sampleMessages),
      (utf16 "max_tokens", .number (.inf false))],
    by decide!, by decide!, by decide!, by decide!, by decide!, by decide!⟩

theorem member_max_tokens (a b c : JSValue) :
    (JSValue.object [(utf16 "model", a), (utf16 "max_tokens", b),
      (utf16 "messages", c)]).member (utf16 "max_tokens") = b := by
  have k1 : (utf16 "max_tokens" == utf16 "model") = false := by decide!
  have k2 : (utf16 "max_tokens" == utf16 "max_tokens") = true := by decide!
  simp [member, getProp, List.lookup, k1, k2]

theorem stringify_overflow_answer :
    JSON.stringify
        (.object [(utf16 "error", .string (utf16 "Server error")),
          (utf16 "message", .string sampleEngine.overflowMessage)]) =
      .string (utf16
        "\x7b\"error\":\"Server error\",\"message\":\"Maximum call stack size exceeded\"\x7d") := by
  decide!

theorem sampleEvent_call (fetch : FetchInit → FetchResult) :
    (handler sampleEngine fetch sampleEvent).calls = [sampleRequest] := by
  rw [handler_of_validPost sampleEngine fetch sampleEvent _ _ _ sampleEvent_valid,
    forward_of_serializes sampleEngine fetch _ _ _
      (serializes_upstreamPayload sampleEngine _ _ (by decide!) (by decide!))]
  decide!

/-! ## The claims -/

/-- C1, as stated, fails: the POST body `null` parses as JSON and has neither
`apiKey` nor `messages`, yet reading `body.apiKey` throws inside the first `try`
block and the handler answers 400 with `Invalid request body`. -/
theorem missing_fields_null_body_counterexample :
    JSON.parse (bodyText (some (utf16 "null"))) = some .null ∧
    (JSValue.member .null (utf16 "apiKey")).toBoolean = false ∧
    handler sampleEngine (fun _ => .throws (.value .undefined))
        ⟨utf16 "POST", some (utf16 "null")⟩ =
      { calls := []
        completion := .returns
          { statusCode := 400, headers := [corsOrigin],
            body := .string (utf16 "\x7b\"error\":\"Invalid request body\"\x7d") } } ∧
    utf16 "\x7b\"error\":\"Invalid request body\"\x7d" ≠
      utf16 "\x7b\"error\":\"Missing apiKey or messages\"\x7d" := by
  decide!

/-- C1 (amended): for every POST request whose body parses as JSON to a value
other than `null`, and in which `apiKey` or `messages` is absent or falsy, the
handler makes no outbound call and returns status 400 with body exactly
`{"error":"Missing apiKey or messages"}`. -/
theorem missing_fields_bad_request (engine : Engine) (fetch : FetchInit → FetchResult)
    (event : Event) (body : JSValue)
    (hmethod : event.httpMethod = utf16 "POST")
    (hparse : JSON.parse (bodyText event.body) = some body)
    (hnull : body ≠ .null)
    (hmissing : (body.member (utf16 "apiKey")).toBoolean = false ∨
      (body.member (utf16 "messages")).toBoolean = false) :
    handler engine fetch event =
      { calls := []
        completion := .returns
          { statusCode := 400, headers := [corsOrigin],
            body := .string (utf16 "\x7b\"error\":\"Missing apiKey or messages\"\x7d") } } := by
  have hund := JSON.parse_ne_undefined _ _ hparse
  have hget := fun key => JSValue.getProp_eq_some_member body key hnull hund
  simp only [handler, hmethod, utf16_POST_ne_OPTIONS, if_false, ne_eq, not_true_eq_false,
    hparse, hget]
  rw [if_pos, errorResponse_missing]
  rcases hmissing with h | h <;> simp [h]

/-- Witness of C1 (amended): the body `{"messages":[]}` of the specification. -/
theorem missing_fields_bad_request_witness :
    handler sampleEngine (fun _ => .throws (.value .undefined))
        ⟨utf16 "POST", some (utf16 "\x7b\"messages\":[]\x7d")⟩ =
      { calls := []
        completion := .returns
          { statusCode := 400, headers := [corsOrigin],
            body := .string (utf16 "\x7b\"error\":\"Missing apiKey or messages\"\x7d") } } :=
  missing_fields_bad_request sampleEngine (fun _ => .throws (.value .undefined))
    ⟨utf16 "POST", some (utf16 "\x7b\"messages\":[]\x7d")⟩
    (.object [(utf16 "messages", .array [])])
    (by decide!) (by decide!) (by decide!) (Or.inl (by decide!))

/-- C2: for every POST request whose body fails to parse as JSON, the handler
returns status 400 with body exactly `{"error":"Invalid request body"}` and
makes no outbound call. -/
theorem invalid_body_bad_request (engine : Engine) (fetch : FetchInit → FetchResult)
    (event : Event)
    (hmethod : event.httpMethod = utf16 "POST")
    (hparse : JSON.parse (bodyText event.body) = none) :
    handler engine fetch event =
      { calls := []
        completion := .returns
          { statusCode := 400, headers := [corsOrigin],
            body := .string (utf16 "\x7b\"error\":\"Invalid request body\"\x7d") } } := by
  simp only [handler, hmethod, utf16_POST_ne_OPTIONS, if_false, ne_eq, not_true_eq_false,
    hparse, errorResponse_invalid]

/-- Witness of C2: the body `not json` of the specification. -/
theorem invalid_body_bad_request_witness :
    JSON.parse (bodyText (some (utf16 "not json"))) = none ∧
    handler sampleEngine (fun _ => .throws (.value .undefined))
        ⟨utf16 "POST", some (utf16 "not json")⟩ =
      { calls := []
        completion := .returns
          { statusCode := 400, headers := [corsOrigin],
            body := .string (utf16 "\x7b\"error\":\"Invalid request body\"\x7d") } } :=
  ⟨by decide!,
    invalid_body_bad_request sampleEngine (fun _ => .throws (.value .undefined))
      ⟨utf16 "POST", some (utf16 "not json")⟩ (by decide!) (by decide!)⟩

/-- C3: for every request, every behaviour of the upstream and every engine,
every response the handler returns carries `Access-Control-Allow-Origin: *`. The
calls that return no response are pinned down: a value thrown by the outbound
call, or by reading the upstream text, reached the outer `catch` block, and it
was `null` or `undefined` (reading `error.message` throws a `TypeError`) or its
`message` is one `JSON.stringify` throws on. -/
theorem response_allows_any_origin (engine : Engine) (fetch : FetchInit → FetchResult)
    (event : Event) :
    (∀ r, (handler engine fetch event).completion = .returns r →
      (utf16 "Access-Control-Allow-Origin", utf16 "*") ∈ r.headers) ∧
    ((handler engine fetch event).completion = .throwsTypeError →
      ∃ request e, (handler engine fetch event).calls = [request] ∧
        (e = .null ∨ e = .undefined) ∧
        (fetch request = .throws (.value e) ∨
          ∃ status, fetch request = .response status (.throws (.value e)))) ∧
    ((handler engine fetch event).completion = .throwsFromStringify →
      ∃ request e, (handler engine fetch event).calls = [request] ∧
        (fetch request = .throws e ∨
          ∃ status, fetch request = .response status (.throws e)) ∧
        (e = .unwritableMessage ∨
          ∃ v message, e = .value v ∧ v.getProp (utf16 "message") = some message ∧
            engine.maxDepth ≤ message.depth)) := by
  rcases handler_cases engine fetch event with h | h | h | h | ⟨a, mt, m, h⟩
  · simp [h, corsOrigin]
  · simp [h, errorResponse, corsOrigin]
  · simp [h, errorResponse, corsOrigin]
  · simp [h, errorResponse, corsOrigin]
  · rw [h]
    rcases forward_cases engine fetch a mt m with ⟨_, hf⟩ | ⟨_, hcalls, hc⟩
    · rw [hf, serverError_rangeError]
      simp [corsOrigin]
    · rw [hcalls]
      rcases hc with ⟨e, he, hc⟩ | ⟨s, t, _, _, hc⟩ | ⟨s, t, d, _, _, _, hc⟩ |
        ⟨s, t, d, _, _, _, hc⟩
      · rw [hc]
        refine ⟨fun r hr => serverError_returns_origin engine e r hr, fun hthrow => ?_,
          fun hthrow => ?_⟩
        · rcases serverError_throws engine e hthrow with rfl | rfl
          · exact ⟨_, .null, rfl, Or.inl rfl, he⟩
          · exact ⟨_, .undefined, rfl, Or.inr rfl, he⟩
        · exact ⟨_, e, rfl, he, serverError_throwsFromStringify engine e hthrow⟩
      · simp [hc, corsOrigin]
      · rw [hc, serverError_rangeError]
        simp [corsOrigin]
      · simp [hc, corsOrigin]

/-- C4, as stated, fails: the body's `max_tokens` `1e400` parses to `Infinity`,
which is truthy, and `JSON.stringify` writes it `null`: the outbound request
carries `"max_tokens":null`, not the body's value. -/
theorem max_tokens_overflow_counterexample :
    ValidPost sampleEventHuge (.string (utf16 "k")) sampleMessages (.number (.inf false)) ∧
    (JSValue.number (.inf false)).toBoolean = true ∧
    (handler sampleEngine (answering 200 "\x7b\x7d") sampleEventHuge).calls =
      [sampleCall
        "\x7b\"model\":\"claude-sonnet-4-20250514\",\"max_tokens\":null,\"messages\":[\x7b\"role\":\"user\",\"content\":\"hi\"\x7d]\x7d"] ∧
    JSON.parse (utf16
        "\x7b\"model\":\"claude-sonnet-4-20250514\",\"max_tokens\":null,\"messages\":[\x7b\"role\":\"user\",\"content\":\"hi\"\x7d]\x7d") =
      some (.object [(utf16 "model", .string (utf16 "claude-sonnet-4-20250514")),
        (utf16 "max_tokens", .null), (utf16 "messages", sampleMessages)]) ∧
    JSValue.null ≠ .number (.inf false) :=
  ⟨sampleEventHuge_valid, by decide!, by decide!, by decide!, by decide!⟩

/-- C4 (amended): for every valid POST request whose `messages` and `max_tokens`
are nested less deep than the engine's `JSON.stringify` goes, there is exactly one
outbound call, its body is a JSON text, and the `max_tokens` that text carries is
the body's `max_tokens` as `JSON.stringify` writes it when that value is truthy
(the value itself when it holds no `Infinity`, `-Infinity` or `-0`: 1000 stays
1000), and `4096` when it is absent or falsy, in particular when it is `0`. -/
theorem max_tokens_default (engine : Engine) (fetch : FetchInit → FetchResult)
    (event : Event) (apiKey messages bodyMaxTokens : JSValue)
    (h : ValidPost event apiKey messages bodyMaxTokens)
    (hmessages : messages.depth < engine.maxDepth)
    (hmax : bodyMaxTokens.depth < engine.maxDepth) :
    ∃ request text payload,
      (handler engine fetch event).calls = [request] ∧
      request.body = .string text ∧
      JSON.parse text = some payload ∧
      (bodyMaxTokens.toBoolean = true →
        payload.member (utf16 "max_tokens") = bodyMaxTokens.written) ∧
      (bodyMaxTokens.toBoolean = true → bodyMaxTokens.lossless = true →
        payload.member (utf16 "max_tokens") = bodyMaxTokens) ∧
      (bodyMaxTokens.toBoolean = false →
        payload.member (utf16 "max_tokens") = .number (JSNumber.ofNat 4096)) ∧
      (JSValue.number (JSNumber.ofNat 0)).toBoolean = false ∧
      (JSValue.undefined).toBoolean = false := by
  have hs := serializes_upstreamPayload engine bodyMaxTokens messages hmessages hmax
  have hh := handler_of_validPost engine fetch event apiKey messages bodyMaxTokens h
  obtain ⟨_, body, hp, _, hms, hmt, _, htm⟩ := h
  have hwb := wellFormed_parse _ _ hp
  have hw1 := wellFormed_resolvedMaxTokens body bodyMaxTokens hwb hmt
  have hw2 := wellFormed_of_truthy_getProp body messages _ hwb hms htm
  obtain ⟨text, _, hstr, hparse⟩ :=
    parse_upstreamPayload (resolvedMaxTokens bodyMaxTokens) messages hw1 hw2
  have h4096 : (JSValue.number (JSNumber.ofNat 4096)).written =
      .number (JSNumber.ofNat 4096) := by decide!
  refine ⟨upstreamRequest apiKey (.string text), text, _, ?_, rfl, hparse, ?_, ?_, ?_,
    by decide!, by decide⟩
  · rw [hh, forward_of_serializes engine fetch apiKey _ messages hs, hstr]
  · intro ht
    rw [member_max_tokens, resolvedMaxTokens, if_pos ht]
  · intro ht hl
    rw [member_max_tokens, resolvedMaxTokens, if_pos ht, written_of_lossless _ hl]
  · intro ht
    rw [member_max_tokens, resolvedMaxTokens, if_neg (by simp [ht]), h4096]

/-- Witness of C4 (amended): without `max_tokens` in the body, and with
`"max_tokens": 0`, the outbound body carries `"max_tokens":4096`; with
`"max_tokens": 1000` it carries `"max_tokens":1000`. -/
theorem max_tokens_default_witness :
    (∃ request text payload,
      (handler sampleEngine (answering 200 "\x7b\x7d") sampleEventNoMax).calls = [request] ∧
      request.body = .string text ∧
      JSON.parse text = some payload ∧
      (JSValue.undefined.toBoolean = true →
        payload.member (utf16 "max_tokens") = JSValue.undefined.written) ∧
      (JSValue.undefined.toBoolean = true → JSValue.undefined.lossless = true →
        payload.member (utf16 "max_tokens") = .undefined) ∧
      (JSValue.undefined.toBoolean = false →
        payload.member (utf16 "max_tokens") = .number (JSNumber.ofNat 4096)) ∧
      (JSValue.number (JSNumber.ofNat 0)).toBoolean = false ∧
      (JSValue.undefined).toBoolean = false) ∧
    (handler sampleEngine (answering 200 "\x7b\x7d") sampleEventNoMax).calls =
      [sampleCall
        "\x7b\"model\":\"claude-sonnet-4-20250514\",\"max_tokens\":4096,\"messages\":[\x7b\"role\":\"user\",\"content\":\"hi\"\x7d]\x7d"] ∧
    (handler sampleEngine (answering 200 "\x7b\x7d") sampleEventZero).calls =
      [sampleCall
        "\x7b\"model\":\"claude-sonnet-4-20250514\",\"max_tokens\":4096,\"messages\":[\x7b\"role\":\"user\",\"content\":\"hi\"\x7d]\x7d"] ∧
    (handler sampleEngine (answering 200 "\x7b\x7d") sampleEvent).calls =
      [sampleCall
        "\x7b\"model\":\"claude-sonnet-4-20250514\",\"max_tokens\":1000,\"messages\":[\x7b\"role\":\"user\",\"content\":\"hi\"\x7d]\x7d"] :=
  ⟨max_tokens_default sampleEngine (answering 200 "\x7b\x7d") sampleEventNoMax _ _ _
      sampleEventNoMax_valid (by decide!) (by decide!),
    by decide!, by decide!, by decide!⟩

/-- C5, as stated, fails: a valid request whose `messages` is 10001 arrays nested
in one another is parsed, but `JSON.stringify` of the outbound body throws a
`RangeError` before `fetch` is called; the handler makes no outbound call and
answers 500 `Server error`. -/
theorem deep_messages_no_call_counterexample :
    ValidPost (nestedEvent 10000) (.string (utf16 "k")) (nested 10000) .undefined ∧
    handler sampleEngine (answering 200 "\x7b\x7d") (nestedEvent 10000) =
      { calls := []
        completion := .returns
          { statusCode := 500
            headers := [corsOrigin]
            body := .string (utf16
              "\x7b\"error\":\"Server error\",\"message\":\"Maximum call stack size exceeded\"\x7d") } } := by
  refine ⟨nestedEvent_valid 10000, ?_⟩
  have hd : sampleEngine.maxDepth <
      (upstreamPayload (resolvedMaxTokens .undefined) (nested 10000)).depth := by
    rw [depth_upstreamPayload, depth_nested]
    have : sampleEngine.maxDepth = 4096 := rfl
    omega
  rw [handler_of_validPost sampleEngine _ (nestedEvent 10000) _ _ _ (nestedEvent_valid 10000),
    forward_payload_overflow sampleEngine _ _ _ _ hd, stringify_overflow_answer]

/-- C5 (amended): for every valid POST request whose `messages` and `max_tokens`
are nested less deep than the engine's `JSON.stringify` goes, the handler makes
exactly one outbound call: a POST to `https://api.anthropic.com/v1/messages` with
exactly the headers `Content-Type: application/json`, `x-api-key` equal to the
caller's `apiKey` and `anthropic-version: 2023-06-01`, whose body is the text
`{"model":"claude-sonnet-4-20250514","max_tokens":M,"messages":T}`, the JSON
serialization of `{model, max_tokens, messages}`, where `M` is the serialization
of the body's `max_tokens` when that is truthy and of `4096` otherwise, and `T` the
serialization of the caller's parsed `messages`, whatever its shape. -/
theorem outbound_request_shape (engine : Engine) (fetch : FetchInit → FetchResult)
    (event : Event) (apiKey messages bodyMaxTokens : JSValue)
    (h : ValidPost event apiKey messages bodyMaxTokens)
    (hmessages : messages.depth < engine.maxDepth)
    (hmax : bodyMaxTokens.depth < engine.maxDepth) :
    ∃ maxText messagesText,
      (handler engine fetch event).calls =
        [{ url := utf16 "https://api.anthropic.com/v1/messages"
           method := utf16 "POST"
           headers := [(utf16 "Content-Type", .string (utf16 "application/json")),
             (utf16 "x-api-key", apiKey),
             (utf16 "anthropic-version", .string (utf16 "2023-06-01"))]
           body := .string
             (utf16 "\x7b\"model\":\"claude-sonnet-4-20250514\",\"max_tokens\":" ++ maxText ++
               utf16 ",\"messages\":" ++ messagesText ++ utf16 "\x7d") }] ∧
      JSON.serialize
          (.object [(utf16 "model", .string (utf16 "claude-sonnet-4-20250514")),
            (utf16 "max_tokens",
              if bodyMaxTokens.toBoolean = true then bodyMaxTokens
              else .number (JSNumber.ofNat 4096)),
            (utf16 "messages", messages)]) = some
        (utf16 "\x7b\"model\":\"claude-sonnet-4-20250514\",\"max_tokens\":" ++ maxText ++
          utf16 ",\"messages\":" ++ messagesText ++ utf16 "\x7d") ∧
      JSON.serialize
          (if bodyMaxTokens.toBoolean = true then bodyMaxTokens
            else .number (JSNumber.ofNat 4096)) = some maxText ∧
      JSON.serialize messages = some messagesText := by
  have hs := serializes_upstreamPayload engine bodyMaxTokens messages hmessages hmax
  have hh := handler_of_validPost engine fetch event apiKey messages bodyMaxTokens h
  obtain ⟨_, body, hp, _, hms, hmt, _, htm⟩ := h
  have hwb := wellFormed_parse _ _ hp
  obtain ⟨maxText, hmaxText⟩ :=
    serialize_isSome _ (wellFormed_resolvedMaxTokens body bodyMaxTokens hwb hmt)
  obtain ⟨messagesText, hmessagesText⟩ :=
    serialize_isSome _ (wellFormed_of_truthy_getProp body messages _ hwb hms htm)
  have hser := stringify_upstreamPayload _ _ _ _ hmaxText hmessagesText
  refine ⟨maxText, messagesText, ?_, hser, hmaxText, hmessagesText⟩
  rw [hh, forward_of_serializes engine fetch apiKey _ messages hs]
  simp only [JSON.stringify, hser]
  rfl

/-- Witness of C5 (amended): without `max_tokens` in the body the outbound body
is the text `{"model":"claude-sonnet-4-20250514","max_tokens":4096,"messages":[...]}`,
and with `"max_tokens": 1000` it carries `"max_tokens":1000`. -/
theorem outbound_request_shape_witness :
    (∃ maxText messagesText,
      (handler sampleEngine (answering 200 "\x7b\x7d") sampleEventNoMax).calls =
        [{ url := utf16 "https://api.anthropic.com/v1/messages"
           method := utf16 "POST"
           headers := [(utf16 "Content-Type", .string (utf16 "application/json")),
             (utf16 "x-api-key", .string (utf16 "k")),
             (utf16 "anthropic-version", .string (utf16 "2023-06-01"))]
           body := .string
             (utf16 "\x7b\"model\":\"claude-sonnet-4-20250514\",\"max_tokens\":" ++ maxText ++
               utf16 ",\"messages\":" ++ messagesText ++ utf16 "\x7d") }] ∧
      JSON.serialize
          (.object [(utf16 "model", .string (utf16 "claude-sonnet-4-20250514")),
            (utf16 "max_tokens",
              if JSValue.undefined.toBoolean = true then JSValue.undefined
              else .number (JSNumber.ofNat 4096)),
            (utf16 "messages", sampleMessages)]) = some
        (utf16 "\x7b\"model\":\"claude-sonnet-4-20250514\",\"max_tokens\":" ++ maxText ++
          utf16 ",\"messages\":" ++ messagesText ++ utf16 "\x7d") ∧
      JSON.serialize
          (if JSValue.undefined.toBoolean = true then JSValue.undefined
            else .number (JSNumber.ofNat 4096)) = some maxText ∧
      JSON.serialize sampleMessages = some messagesText) ∧
    (handler sampleEngine (answering 200 "\x7b\x7d") sampleEventNoMax).calls =
      [{ url := utf16 "https://api.anthropic.com/v1/messages"
         method := utf16 "POST"
         headers := [(utf16 "Content-Type", .string (utf16 "application/json")),
           (utf16 "x-api-key", .string (utf16 "k")),
           (utf16 "anthropic-version", .string (utf16 "2023-06-01"))]
         body := .string (utf16
           "\x7b\"model\":\"claude-sonnet-4-20250514\",\"max_tokens\":4096,\"messages\":[\x7b\"role\":\"user\",\"content\":\"hi\"\x7d]\x7d") }] ∧
    (handler sampleEngine (answering 200 "\x7b\x7d") sampleEvent).calls =
      [{ url := utf16 "https://api.anthropic.com/v1/messages"
         method := utf16 "POST"
         headers := [(utf16 "Content-Type", .string (utf16 "application/json")),
           (utf16 "x-api-key", .string (utf16 "k")),
           (utf16 "anthropic-version", .string (utf16 "2023-06-01"))]
         body := .string (utf16
           "\x7b\"model\":\"claude-sonnet-4-20250514\",\"max_tokens\":1000,\"messages\":[\x7b\"role\":\"user\",\"content\":\"hi\"\x7d]\x7d") }] :=
  ⟨outbound_request_shape sampleEngine (answering 200 "\x7b\x7d") sampleEventNoMax _ _ _
      sampleEventNoMax_valid (by decide!) (by decide!),
    by decide!, by decide!⟩

/-- C6, as stated, fails: an upstream answer with status 529 whose text is 10001
arrays nested in one another parses as JSON, but `JSON.stringify` of the parsed
value throws a `RangeError`, which the outer `catch` answers with status 500. -/
theorem deep_response_rewritten_counterexample :
    ValidPost sampleEvent (.string (utf16 "k")) sampleMessages
      (.number (JSNumber.ofNat 1000)) ∧
    JSON.parse (nestedText 10000) = some (nested 10000) ∧
    handler sampleEngine (fun _ => .response 529 (.text (nestedText 10000))) sampleEvent =
      { calls := [sampleRequest]
        completion := .returns
          { statusCode := 500
            headers := [corsOrigin]
            body := .string (utf16
              "\x7b\"error\":\"Server error\",\"message\":\"Maximum call stack size exceeded\"\x7d") } } ∧
    (500 : Nat) ≠ 529 := by
  refine ⟨sampleEvent_valid, parse_nestedText 10000, ?_, by decide⟩
  have hcall := sampleEvent_call (fun _ => .response 529 (.text (nestedText 10000)))
  have hd : sampleEngine.maxDepth < (nested 10000).depth := by
    rw [depth_nested]
    have : sampleEngine.maxDepth = 4096 := rfl
    omega
  have hc := forward_overflow sampleEngine
    (fun _ => .response 529 (.text (nestedText 10000))) (.string (utf16 "k"))
    (resolvedMaxTokens (.number (JSNumber.ofNat 1000))) sampleMessages sampleRequest 529
    (nestedText 10000) (nested 10000)
    (by rw [← handler_of_validPost sampleEngine _ sampleEvent _ _ _ sampleEvent_valid]
        exact hcall)
    rfl (parse_nestedText 10000) hd
  rw [← handler_of_validPost sampleEngine _ sampleEvent _ _ _ sampleEvent_valid,
    stringify_overflow_answer] at hc
  cases hrun : handler sampleEngine (fun _ => .response 529 (.text (nestedText 10000)))
    sampleEvent with
  | mk calls completion =>
    rw [hrun] at hcall hc
    simp only at hcall hc
    rw [hcall, hc]

/-- C6 (amended): for every valid POST request whose outbound call is answered
with status `s` and a text that parses as JSON to a value nested no deeper than
the engine's `JSON.stringify` goes, the handler returns a response whose
`statusCode` is `s`, whatever `s` is, with the serialization of the parsed value
as body. -/
theorem upstream_status_mirrored (engine : Engine) (fetch : FetchInit → FetchResult)
    (event : Event) (apiKey messages bodyMaxTokens : JSValue)
    (h : ValidPost event apiKey messages bodyMaxTokens)
    (request : FetchInit)
    (hcall : (handler engine fetch event).calls = [request])
    (status : Nat) (responseText : JSString) (responseData : JSValue)
    (hfetch : fetch request = .response status (.text responseText))
    (hparse : JSON.parse responseText = some responseData)
    (hdepth : responseData.depth ≤ engine.maxDepth) :
    ∃ text,
      (handler engine fetch event).completion = .returns
        { statusCode := status
          headers := [(utf16 "Access-Control-Allow-Origin", utf16 "*"),
            (utf16 "Content-Type", utf16 "application/json")]
          body := .string text } ∧
      JSON.serialize responseData = some text := by
  rw [handler_of_validPost engine fetch event apiKey messages bodyMaxTokens h] at hcall ⊢
  obtain ⟨text, htext⟩ := serialize_isSome _ (wellFormed_parse _ _ hparse)
  refine ⟨text, ?_, htext⟩
  rw [forward_relayed engine fetch apiKey _ messages request status responseText responseData
    hcall hfetch hparse hdepth]
  simp [JSON.stringify, htext, corsOrigin]

/-- Witness of C6 (amended): an upstream status 529 with the JSON error body
`{"type":"error"}` is returned as 529 with that body. -/
theorem upstream_status_mirrored_witness :
    (∃ text,
      (handler sampleEngine (answering 529 "\x7b\"type\":\"error\"\x7d")
          sampleEvent).completion = .returns
        { statusCode := 529
          headers := [(utf16 "Access-Control-Allow-Origin", utf16 "*"),
            (utf16 "Content-Type", utf16 "application/json")]
          body := .string text } ∧
      JSON.serialize (.object [(utf16 "type", .string (utf16 "error"))]) = some text) ∧
    handler sampleEngine (answering 529 "\x7b\"type\":\"error\"\x7d") sampleEvent =
      { calls := [sampleRequest]
        completion := .returns
          { statusCode := 529
            headers := [(utf16 "Access-Control-Allow-Origin", utf16 "*"),
              (utf16 "Content-Type", utf16 "application/json")]
            body := .string (utf16 "\x7b\"type\":\"error\"\x7d") } } :=
  ⟨upstream_status_mirrored sampleEngine (answering 529 "\x7b\"type\":\"error\"\x7d")
      sampleEvent _ _ _ sampleEvent_valid sampleRequest (by decide!) 529
      (utf16 "\x7b\"type\":\"error\"\x7d")
      (.object [(utf16 "type", .string (utf16 "error"))]) rfl (by decide!) (by decide!),
    by decide!⟩

/-- C7, as stated, fails: the upstream text `1e999` parses as JSON, to the Number
`Infinity`, which `JSON.stringify` writes as `null`; the body returned parses to
`null`, not to the value the upstream text parses to. -/
theorem reserialized_body_overflow_counterexample :
    JSON.parse (utf16 "1e999") = some (.number (.inf false)) ∧
    (handler sampleEngine (answering 200 "1e999") sampleEvent).completion = .returns
      { statusCode := 200
        headers := [corsOrigin, (utf16 "Content-Type", utf16 "application/json")]
        body := .string (utf16 "null") } ∧
    JSON.parse (utf16 "null") = some .null ∧
    JSValue.null ≠ .number (.inf false) := by
  decide!

/-- Beside the overflow of C7's counterexample, `-0` is the other Number that
does not survive: it is written `0`. -/
theorem negative_zero_written_as_zero :
    JSON.parse (utf16 "-0") = some (.number (.finite true 0)) ∧
    JSON.stringify (.number (.finite true 0)) = .string (utf16 "0") ∧
    JSON.parse (utf16 "0") = some (.number (.finite false 0)) := by
  decide!

/-- C7 (amended): for every valid POST request whose outbound call is answered
with a text `t` that parses as JSON to a value nested no deeper than the engine's
`JSON.stringify` goes, the body returned by the handler is itself parseable JSON:
it parses to the value `t` parses to with `Infinity` and `-Infinity` replaced by
`null` and `-0` by `0`, hence to the value `t` parses to when that value holds
none of these Numbers: `parse(stringify(parse(t))) = parse(t)`. -/
theorem reserialized_body_parses_back (engine : Engine) (fetch : FetchInit → FetchResult)
    (event : Event) (apiKey messages bodyMaxTokens : JSValue)
    (h : ValidPost event apiKey messages bodyMaxTokens)
    (request : FetchInit)
    (hcall : (handler engine fetch event).calls = [request])
    (status : Nat) (responseText : JSString) (responseData : JSValue)
    (hfetch : fetch request = .response status (.text responseText))
    (hparse : JSON.parse responseText = some responseData)
    (hdepth : responseData.depth ≤ engine.maxDepth) :
    ∃ body : JSString,
      (handler engine fetch event).completion = .returns
        { statusCode := status
          headers := [corsOrigin, (utf16 "Content-Type", utf16 "application/json")]
          body := .string body } ∧
      JSON.parse body = some responseData.written ∧
      (responseData.lossless = true → JSON.parse body = some responseData) := by
  rw [handler_of_validPost engine fetch event apiKey messages bodyMaxTokens h] at hcall ⊢
  obtain ⟨body, hbody, hback⟩ := JSON.parse_stringify_parse responseText responseData hparse
  refine ⟨body, ?_, hback, fun hl => ?_⟩
  · rw [forward_relayed engine fetch apiKey _ messages request status responseText
      responseData hcall hfetch hparse hdepth, hbody]
  · rw [hback, written_of_lossless _ hl]

/-- Witness of C7 (amended): the upstream body `{"id":"msg_1","content":[]}` of the
specification is returned as a body that parses to the same object. -/
theorem reserialized_body_parses_back_witness :
    (∃ body : JSString,
      (handler sampleEngine (answering 200 "\x7b\"id\":\"msg_1\",\"content\":[]\x7d")
          sampleEvent).completion = .returns
        { statusCode := 200
          headers := [corsOrigin, (utf16 "Content-Type", utf16 "application/json")]
          body := .string body } ∧
      JSON.parse body = some
        (JSValue.object [(utf16 "id", .string (utf16 "msg_1")),
          (utf16 "content", .array [])]).written ∧
      ((JSValue.object [(utf16 "id", .string (utf16 "msg_1")),
          (utf16 "content", .array [])]).lossless = true →
        JSON.parse body = some
          (.object [(utf16 "id", .string (utf16 "msg_1")), (utf16 "content", .array [])]))) ∧
    (JSValue.object [(utf16 "id", .string (utf16 "msg_1")),
      (utf16 "content", .array [])]).lossless = true ∧
    (handler sampleEngine (answering 200 "\x7b \"id\" : \"msg_1\", \"content\" : [ ] \x7d")
        sampleEvent).completion = .returns
      { statusCode := 200
        headers := [corsOrigin, (utf16 "Content-Type", utf16 "application/json")]
        body := .string (utf16 "\x7b\"id\":\"msg_1\",\"content\":[]\x7d") } :=
  ⟨reserialized_body_parses_back sampleEngine
      (answering 200 "\x7b\"id\":\"msg_1\",\"content\":[]\x7d")
      sampleEvent _ _ _ sampleEvent_valid sampleRequest (by decide!) 200
      (utf16 "\x7b\"id\":\"msg_1\",\"content\":[]\x7d")
      (.object [(utf16 "id", .string (utf16 "msg_1")), (utf16 "content", .array [])])
      rfl (by decide!) (by decide!),
    by decide!, by decide!⟩

/-- C8: for every valid POST request whose outbound call is answered, whatever
the status, with a text `t` that does not parse as JSON, the handler returns
status 500 with body the text `{"error":"Failed to parse API response","details":D}`,
the JSON serialization of `{error: "Failed to parse API response", details: d}`,
where `D` is `d` as a JSON string and `d` is the first `min(100, length(t))` code
units of `t`: of length exactly 100 when `t` is longer than 100, and `t` itself
otherwise. -/
theorem unparseable_upstream_details (engine : Engine) (fetch : FetchInit → FetchResult)
    (event : Event) (apiKey messages bodyMaxTokens : JSValue)
    (h : ValidPost event apiKey messages bodyMaxTokens)
    (request : FetchInit)
    (hcall : (handler engine fetch event).calls = [request])
    (status : Nat) (responseText : JSString)
    (hfetch : fetch request = .response status (.text responseText))
    (hparse : JSON.parse responseText = none) :
    ∃ d : JSString,
      (handler engine fetch event).completion = .returns
        { statusCode := 500
          headers := [(utf16 "Access-Control-Allow-Origin", utf16 "*")]
          body := .string
            (utf16 "\x7b\"error\":\"Failed to parse API response\",\"details\":" ++
              JSON.quote d ++ utf16 "\x7d") } ∧
      JSON.serialize
          (.object [(utf16 "error", .string (utf16 "Failed to parse API response")),
            (utf16 "details", .string d)]) = some
        (utf16 "\x7b\"error\":\"Failed to parse API response\",\"details\":" ++
          JSON.quote d ++ utf16 "\x7d") ∧
      JSON.parse
          (utf16 "\x7b\"error\":\"Failed to parse API response\",\"details\":" ++
            JSON.quote d ++ utf16 "\x7d") = some
        (.object [(utf16 "error", .string (utf16 "Failed to parse API response")),
          (utf16 "details", .string d)]) ∧
      d = responseText.take (min 100 responseText.length) ∧
      d.length = min 100 responseText.length ∧
      (100 < responseText.length → d.length = 100) ∧
      (responseText.length ≤ 100 → d = responseText) := by
  rw [handler_of_validPost engine fetch event apiKey messages bodyMaxTokens h] at hcall ⊢
  have hser := serialize_parseFailure (substring responseText 0 100)
  refine ⟨substring responseText 0 100, ?_, hser, ?_, ?_, ?_, ?_, ?_⟩
  · rw [forward_unparseable engine fetch apiKey _ messages request status responseText
      hcall hfetch hparse]
    simp [JSON.stringify, hser, corsOrigin]
  · rw [parse_serialize _ _ (wellFormed_parseFailure _) hser]
    simp [written, writtenProps]
  · rw [substring_zero]
    rcases Nat.le_total 100 responseText.length with hl | hl
    · rw [min_eq_left hl]
    · rw [min_eq_right hl, List.take_of_length_le hl, List.take_length]
  · simp [substring_zero]
  · intro hl
    rw [substring_zero, List.length_take]
    omega
  · intro hl
    rw [substring_zero]
    exact List.take_of_length_le hl

/-- Witness of C8: an HTML error page of 120 code units, answered with status
502, yields status 500 and `details` of length 100: the first 100 code units of
the page. -/
theorem unparseable_upstream_details_witness :
    htmlPage.length = 120 ∧
    (∃ d : JSString,
      (handler sampleEngine (fun _ => .response 502 (.text htmlPage))
          sampleEvent).completion = .returns
        { statusCode := 500
          headers := [(utf16 "Access-Control-Allow-Origin", utf16 "*")]
          body := .string
            (utf16 "\x7b\"error\":\"Failed to parse API response\",\"details\":" ++
              JSON.quote d ++ utf16 "\x7d") } ∧
      JSON.serialize
          (.object [(utf16 "error", .string (utf16 "Failed to parse API response")),
            (utf16 "details", .string d)]) = some
        (utf16 "\x7b\"error\":\"Failed to parse API response\",\"details\":" ++
          JSON.quote d ++ utf16 "\x7d") ∧
      JSON.parse
          (utf16 "\x7b\"error\":\"Failed to parse API response\",\"details\":" ++
            JSON.quote d ++ utf16 "\x7d") = some
        (.object [(utf16 "error", .string (utf16 "Failed to parse API response")),
          (utf16 "details", .string d)]) ∧
      d = htmlPage.take (min 100 htmlPage.length) ∧
      d.length = min 100 htmlPage.length ∧
      (100 < htmlPage.length → d.length = 100) ∧
      (htmlPage.length ≤ 100 → d = htmlPage)) ∧
    handler sampleEngine (fun _ => .response 502 (.text htmlPage)) sampleEvent =
      { calls := [sampleRequest]
        completion := .returns
          { statusCode := 500
            headers := [(utf16 "Access-Control-Allow-Origin", utf16 "*")]
            body := .string (utf16
              "\x7b\"error\":\"Failed to parse API response\",\"details\":\"<html>Error</html>..................................................................................\"\x7d") } } ∧
    handler sampleEngine (answering 502 "<a href=\"x\">\n") sampleEvent =
      { calls := [sampleRequest]
        completion := .returns
          { statusCode := 500
            headers := [(utf16 "Access-Control-Allow-Origin", utf16 "*")]
            body := .string (utf16
              "\x7b\"error\":\"Failed to parse API response\",\"details\":\"<a href=\\\"x\\\">\\n\"\x7d") } } :=
  ⟨by decide!,
    unparseable_upstream_details sampleEngine (fun _ => .response 502 (.text htmlPage))
      sampleEvent _ _ _ sampleEvent_valid sampleRequest (by decide!) 502 htmlPage rfl
      (by decide!),
    by decide!, by decide!⟩

/-- C9 fails at a concrete input: when the outbound call of a valid request
throws `null`, the outer `catch` block reads `error.message` of `null`, which
throws a `TypeError` that leaves the handler; and when it throws a value whose
`message` `JSON.stringify` cannot write, such as a BigInt, the `TypeError` of
`JSON.stringify` leaves the handler from the same block. No response is returned,
where an `Error` thrown the same way is answered with status 500 and
`{"error":"Server error","message":"connect ECONNREFUSED"}`. -/
theorem thrown_null_propagates :
    handler sampleEngine (throwing .null) sampleEvent =
      { calls := [sampleRequest], completion := .throwsTypeError } ∧
    handler sampleEngine (fun _ => .throws .unwritableMessage) sampleEvent =
      { calls := [sampleRequest], completion := .throwsFromStringify } ∧
    handler sampleEngine (throwing (errorObject "connect ECONNREFUSED")) sampleEvent =
      { calls := [sampleRequest]
        completion := .returns
          { statusCode := 500
            headers := [corsOrigin]
            body := .string (utf16
              "\x7b\"error\":\"Server error\",\"message\":\"connect ECONNREFUSED\"\x7d") } } ∧
    sampleRequest = sampleCall
      "\x7b\"model\":\"claude-sonnet-4-20250514\",\"max_tokens\":1000,\"messages\":[\x7b\"role\":\"user\",\"content\":\"hi\"\x7d]\x7d" := by
  decide!

/-- C10: for every request whose method is exactly `OPTIONS`, whatever its body,
the handler returns status 200 with an empty-string body and the headers
`Access-Control-Allow-Origin: *`, `Access-Control-Allow-Headers: Content-Type` and
`Access-Control-Allow-Methods: POST, OPTIONS`, without reading the body and
without an outbound call. -/
theorem preflight_response (engine : Engine) (fetch : FetchInit → FetchResult)
    (body : Option JSString) :
    handler engine fetch { httpMethod := utf16 "OPTIONS", body := body } =
      { calls := []
        completion := .returns
          { statusCode := 200
            headers := [(utf16 "Access-Control-Allow-Origin", utf16 "*"),
              (utf16 "Access-Control-Allow-Headers", utf16 "Content-Type"),
              (utf16 "Access-Control-Allow-Methods", utf16 "POST, OPTIONS")]
            body := .string [] } } := by
  simp [handler, corsOrigin]
